import Mathlib

/-! # MiniZip: a Lean model of the ZIP writer of `admin/script.js`

The development embeds the `MiniZip` class of
`src/Document_Management_System/admin/script.js` (lines 10-168) and states
properties of the bytes it produces.  It also embeds the second copy of the
class (`New Updated and New Features added AdminDashboard/script.js`) and the
methods of `DocumentPortalAdmin` that list, page and export the customers.

Conventions of the embedding

* A JavaScript string is a list of UTF-16 code units (`JSString`).
* A `Uint8Array` is a list of bytes (`List Byte`, `Byte = Fin 256`).
* JavaScript numbers that the code only uses as integers are `Int` (or `Nat`
  when the operation that produced them, `>>>` or `.length`, can only give a
  non-negative value).  The bitwise operators work on 32-bit values and are
  modelled by `toInt32` / `toUint32` with an explicit `% 2^32`.
* `DataView.setUint16` / `setUint32` store the value modulo `2^16` / `2^32`,
  little-endian, at a byte position of a fixed-size buffer.
* `new Date()` is a parameter (`JSDate`): the wall clock at the time of the call.
-/

namespace MiniZip

/-! ## Data -/

/-- One element of a `Uint8Array`. -/
abbrev Byte := Fin 256

/-- One UTF-16 code unit of a JavaScript string. -/
abbrev CodeUnit := Fin 65536

/-- A JavaScript string: its sequence of UTF-16 code units. -/
abbrev JSString := List CodeUnit

/-- The byte `n mod 256` (what storing the number `n` in a `Uint8Array` slot keeps). -/
def byteOf (n : Nat) : Byte := ⟨n % 256, Nat.mod_lt n (by decide)⟩

/-! ## JavaScript 32-bit integer operators -/

/-- ECMAScript `ToUint32` on an integral number. -/
def toUint32 (x : Int) : Nat := (x % 4294967296).toNat

/-- ECMAScript `ToInt32` on an integral number. -/
def toInt32 (x : Int) : Int :=
  if x % 4294967296 < 2147483648 then x % 4294967296 else x % 4294967296 - 4294967296

/-- ECMAScript `ToUint16` on an integral number (used by `DataView.setUint16`). -/
def toUint16 (x : Int) : Nat := (x % 65536).toNat

/-- JavaScript `a ^ b`. -/
def jsXor (a b : Int) : Int := toInt32 (Nat.xor (toUint32 a) (toUint32 b))

/-- JavaScript `a & b`. -/
def jsAnd (a b : Int) : Int := toInt32 (Nat.land (toUint32 a) (toUint32 b))

/-- JavaScript `a | b`. -/
def jsOr (a b : Int) : Int := toInt32 (Nat.lor (toUint32 a) (toUint32 b))

/-- JavaScript `a << k`. -/
def jsShl (a : Int) (k : Nat) : Int := toInt32 (Nat.shiftLeft (toUint32 a) (k % 32))

/-- JavaScript `a >>> k`; the result is an unsigned 32-bit number. -/
def jsUshr (a : Int) (k : Nat) : Nat := Nat.shiftRight (toUint32 a) (k % 32)

/-! ## `TextEncoder.encode` (UTF-8) -/

/-- UTF-8 bytes of one Unicode scalar value. -/
def utf8EncodeScalar (c : Nat) : List Byte :=
  if c < 0x80 then [byteOf c]
  else if c < 0x800 then [byteOf (0xC0 + c / 64), byteOf (0x80 + c % 64)]
  else if c < 0x10000 then
    [byteOf (0xE0 + c / 4096), byteOf (0x80 + c / 64 % 64), byteOf (0x80 + c % 64)]
  else
    [byteOf (0xF0 + c / 262144), byteOf (0x80 + c / 4096 % 64),
     byteOf (0x80 + c / 64 % 64), byteOf (0x80 + c % 64)]

/-- A code unit in `D800..DBFF`. -/
def isHighSurrogate (u : CodeUnit) : Bool := 0xD800 ≤ u.val && u.val < 0xDC00

/-- A code unit in `DC00..DFFF`. -/
def isLowSurrogate (u : CodeUnit) : Bool := 0xDC00 ≤ u.val && u.val < 0xE000

/-- The UTF-8 encoder run over the code units of a string.  The first argument
is a pending high surrogate, if any; a surrogate that is not part of a pair is
encoded as U+FFFD, as `TextEncoder` does. -/
def utf8EncodeFrom : Option CodeUnit → JSString → List Byte
  | none, [] => []
  | some _, [] => utf8EncodeScalar 0xFFFD
  | none, u :: rest =>
    if isHighSurrogate u then utf8EncodeFrom (some u) rest
    else if isLowSurrogate u then utf8EncodeScalar 0xFFFD ++ utf8EncodeFrom none rest
    else utf8EncodeScalar u.val ++ utf8EncodeFrom none rest
  | some h, u :: rest =>
    if isLowSurrogate u then
      utf8EncodeScalar (0x10000 + (h.val - 0xD800) * 0x400 + (u.val - 0xDC00))
        ++ utf8EncodeFrom none rest
    else if isHighSurrogate u then utf8EncodeScalar 0xFFFD ++ utf8EncodeFrom (some u) rest
    else utf8EncodeScalar 0xFFFD ++ (utf8EncodeScalar u.val ++ utf8EncodeFrom none rest)

/-- Method `MiniZip.textToUint8(text)`: `new TextEncoder().encode(text)`. -/
def textToUint8 (text : JSString) : List Byte := utf8EncodeFrom none text

/-! ## CRC-32 -/

/-- The polynomial constant used by the table generator. -/
def crcPoly : Nat := 0xEDB88320

/-- One round of the inner loop of the table generator:
`c = (c & 1) ? (0xEDB88320 ^ (c >>> 1)) : (c >>> 1)`. -/
def crc32TableStep (c : Int) : Int :=
  if jsAnd c 1 ≠ 0 then jsXor crcPoly (jsUshr c 1) else jsUshr c 1

/-- Entry `n` of the table: eight rounds starting from `n`, then `c >>> 0`. -/
def crc32TableEntry (n : Nat) : Nat := jsUshr (Nat.iterate crc32TableStep 8 n) 0

/-- Static field `MiniZip.crc32Table`: the 256-entry `Uint32Array`. -/
def crc32Table : List Nat := (List.range 256).map crc32TableEntry

/-- The body of the loop of `crc32`:
`crc = (crc >>> 8) ^ MiniZip.crc32Table[(crc ^ uint8[i]) & 0xFF]`. -/
def crc32Step (crc : Int) (b : Byte) : Int :=
  jsXor (jsUshr crc 8) (crc32Table.getD (jsAnd (jsXor crc b.val) 0xFF).toNat 0)

/-- Method `MiniZip.crc32(uint8)`. -/
def crc32 (uint8 : List Byte) : Nat :=
  jsUshr (jsXor (uint8.foldl crc32Step (jsXor 0 (-1))) (-1)) 0

/-! ## MS-DOS date and time -/

/-- The local-time components of a JavaScript `Date`, named after its getters. -/
structure JSDate where
  getFullYear : Int
  getMonth : Nat
  getDate : Nat
  getHours : Nat
  getMinutes : Nat
  getSeconds : Nat
  deriving DecidableEq

/-- The ranges the getters of a valid `Date` stay in. -/
def JSDate.InRange (d : JSDate) : Prop :=
  -271821 ≤ d.getFullYear ∧ d.getFullYear ≤ 275760 ∧ d.getMonth < 12 ∧
  1 ≤ d.getDate ∧ d.getDate ≤ 31 ∧ d.getHours < 24 ∧ d.getMinutes < 60 ∧ d.getSeconds < 60

instance (d : JSDate) : Decidable d.InRange := by
  unfold JSDate.InRange; infer_instance

/-- The result object of `msDosDateTime`. -/
structure DosDateTime where
  dosTime : Int
  dosDate : Int
  deriving DecidableEq

/-- Method `MiniZip.msDosDateTime(date)`. -/
def msDosDateTime (date : JSDate) : DosDateTime :=
  let sec2 : Int := (date.getSeconds / 2 : Nat)
  let min : Int := date.getMinutes
  let hr : Int := date.getHours
  let time := jsOr (jsOr (jsShl hr 11) (jsShl min 5)) sec2
  let day : Int := date.getDate
  let mon : Int := (date.getMonth + 1 : Nat)
  let yr : Int := date.getFullYear - 1980
  let dosDate := jsOr (jsOr (jsShl yr 9) (jsShl mon 5)) day
  { dosTime := time, dosDate := dosDate }

/-! ## The builder -/

/-- One element of `this.files`. -/
structure ZipEntry where
  name : JSString
  dataUint8 : List Byte
  crc32 : Nat
  dosTime : Int
  dosDate : Int
  localHeaderOffset : Nat
  deriving DecidableEq

end MiniZip

/-- The object state of a `MiniZip`: `this.files`. -/
structure MiniZip where
  files : List MiniZip.ZipEntry
  deriving DecidableEq

namespace MiniZip

/-- The constructor: `this.files = []`. -/
def new : MiniZip := { files := [] }

/-- The expression `path.replace(/\\/g, '/')`: every code unit `\` becomes `/`. -/
def replaceBackslashes (path : JSString) : JSString :=
  path.map (fun u => if u = 0x5C then 0x2F else u)

/-- Method `addTextFile(path, text)`; `now` is the value of `new Date()` during the call. -/
def addTextFile (z : MiniZip) (path text : JSString) (now : JSDate) : MiniZip :=
  let data := textToUint8 text
  let crc := crc32 data
  let dt := msDosDateTime now
  { files := z.files ++ [{
      name := replaceBackslashes path
      dataUint8 := data
      crc32 := crc
      dosTime := dt.dosTime
      dosDate := dt.dosDate
      localHeaderOffset := 0 }] }

/-! ### `DataView` -/

/-- A `DataView` over a fresh buffer together with the write position `p`. -/
structure DataView where
  buffer : List Byte
  p : Nat
  deriving DecidableEq

/-- The pair `new DataView(new ArrayBuffer(n))` and `let p = 0`. -/
def DataView.alloc (n : Nat) : DataView := { buffer := List.replicate n 0, p := 0 }

/-- The statement pair `view.setUint16(p, v, true); p += 2`.  Every position
`build` writes at lies inside the buffer, so the `RangeError` of an
out-of-range write is not modelled. -/
def DataView.setUint16 (d : DataView) (v : Int) : DataView :=
  { buffer := (d.buffer.set d.p (byteOf (toUint16 v))).set (d.p + 1) (byteOf (toUint16 v / 256))
    p := d.p + 2 }

/-- The statement pair `view.setUint32(p, v, true); p += 4`. -/
def DataView.setUint32 (d : DataView) (v : Int) : DataView :=
  { buffer := (((d.buffer.set d.p (byteOf (toUint32 v))).set (d.p + 1)
        (byteOf (toUint32 v / 256))).set (d.p + 2) (byteOf (toUint32 v / 65536))).set (d.p + 3)
        (byteOf (toUint32 v / 16777216))
    p := d.p + 4 }

/-! ### `build` -/

def sigLocal : Int := 0x04034b50
def sigCentral : Int := 0x02014b50
def sigEOCD : Int := 0x06054b50
def version : Int := 20
def gpFlag : Int := 0
def method : Int := 0
def versionMadeBy : Int := 20
def externalAttrs : Int := 0

/-- The 30-byte local file header of entry `f`, as the first loop of `build` fills it. -/
def localHeader (f : ZipEntry) (nameBytes : List Byte) : List Byte :=
  let v := DataView.alloc 30
  let v := v.setUint32 sigLocal
  let v := v.setUint16 version
  let v := v.setUint16 gpFlag
  let v := v.setUint16 method
  let v := v.setUint16 f.dosTime
  let v := v.setUint16 f.dosDate
  let v := v.setUint32 f.crc32
  let v := v.setUint32 f.dataUint8.length
  let v := v.setUint32 f.dataUint8.length
  let v := v.setUint16 nameBytes.length
  let v := v.setUint16 0
  v.buffer

/-- The 46-byte central directory header of entry `f`, as the second loop of `build` fills it. -/
def centralHeader (f : ZipEntry) (nameBytes : List Byte) : List Byte :=
  let v := DataView.alloc 46
  let v := v.setUint32 sigCentral
  let v := v.setUint16 versionMadeBy
  let v := v.setUint16 version
  let v := v.setUint16 gpFlag
  let v := v.setUint16 method
  let v := v.setUint16 f.dosTime
  let v := v.setUint16 f.dosDate
  let v := v.setUint32 f.crc32
  let v := v.setUint32 f.dataUint8.length
  let v := v.setUint32 f.dataUint8.length
  let v := v.setUint16 nameBytes.length
  let v := v.setUint16 0
  let v := v.setUint16 0
  let v := v.setUint16 0
  let v := v.setUint16 0
  let v := v.setUint32 externalAttrs
  let v := v.setUint32 f.localHeaderOffset
  v.buffer

/-- The 22-byte end-of-central-directory record. -/
def eocdRecord (fileCount centralSize centralStart : Nat) : List Byte :=
  let v := DataView.alloc 22
  let v := v.setUint32 sigEOCD
  let v := v.setUint16 0
  let v := v.setUint16 0
  let v := v.setUint16 fileCount
  let v := v.setUint16 fileCount
  let v := v.setUint32 centralSize
  let v := v.setUint32 centralStart
  let v := v.setUint16 0
  v.buffer

/-- The variables the loops of `build` update. -/
structure BuildState where
  files : List ZipEntry
  chunks : List (List Byte)
  offset : Nat
  deriving DecidableEq

/-- The first loop of `build` (`for (const f of this.files)`), run over the
entries `todo` that are still to be visited; `s.files` collects the visited
entries with their new `localHeaderOffset`. -/
def localLoop : List ZipEntry → BuildState → BuildState
  | [], s => s
  | f :: todo, s =>
    let nameBytes := textToUint8 f.name
    let f' := { f with localHeaderOffset := s.offset }
    localLoop todo
      { files := s.files ++ [f']
        chunks := s.chunks ++ [localHeader f' nameBytes, nameBytes, f'.dataUint8]
        offset := s.offset + (30 + nameBytes.length + f'.dataUint8.length) }

/-- The second loop of `build`, over the entries as the first loop left them. -/
def centralLoop : List ZipEntry → BuildState → BuildState
  | [], s => s
  | f :: todo, s =>
    let nameBytes := textToUint8 f.name
    centralLoop todo
      { files := s.files
        chunks := s.chunks ++ [centralHeader f nameBytes, nameBytes]
        offset := s.offset + (46 + nameBytes.length) }

/-- The concatenation loop at the end of `build`: every chunk is copied into
`out` at the running position `pos`. -/
def concatChunks (chunks : List (List Byte)) : List Byte :=
  chunks.foldl (fun out c => out ++ c) []

/-- The result of `build()`: the builder after the call (its entries carry the
offsets the call assigned) and the bytes of the returned `Blob`. -/
structure BuildResult where
  zip : MiniZip
  bytes : List Byte
  deriving DecidableEq

/-- Method `build()`. -/
def build (z : MiniZip) : BuildResult :=
  let s1 := localLoop z.files { files := [], chunks := [], offset := 0 }
  let centralStart := s1.offset
  let s2 := centralLoop s1.files s1
  let centralSize := s2.offset - centralStart
  let eocd := eocdRecord s1.files.length centralSize centralStart
  { zip := { files := s2.files }, bytes := concatChunks (s2.chunks ++ [eocd]) }

/-! ## The reference CRC-32 -/

/-- One bit of the reflected division: the register moves one place to the
right and the polynomial is XORed in when the bit that left was 1. -/
def crcRefBit (r : Nat) : Nat := if r % 2 = 1 then (r / 2) ^^^ 0xEDB88320 else r / 2

/-- One input byte of the reference CRC: XOR it into the low end of the
register, then divide bit by bit, eight times. -/
def crcRefByte (r : Nat) (b : Byte) : Nat := Nat.iterate crcRefBit 8 (r ^^^ b.val)

/-- The reference CRC-32 (ISO 3309, PKWARE ZIP): register preset to all ones,
bit-by-bit reflected division by `0xEDB88320`, result XORed with all ones. -/
def crc32Reference (bs : List Byte) : Nat := (bs.foldl crcRefByte 0xFFFFFFFF) ^^^ 0xFFFFFFFF

/-! ## Reading an archive back -/

/-- The unsigned 16-bit little-endian number at byte position `p`. -/
def readUint16 (bs : List Byte) (p : Nat) : Nat :=
  (bs.getD p 0).val + 256 * (bs.getD (p + 1) 0).val

/-- The unsigned 32-bit little-endian number at byte position `p`. -/
def readUint32 (bs : List Byte) (p : Nat) : Nat :=
  (bs.getD p 0).val + 256 * (bs.getD (p + 1) 0).val + 65536 * (bs.getD (p + 2) 0).val
    + 16777216 * (bs.getD (p + 3) 0).val

/-- The `len` bytes that start at position `pos`. -/
def slice (bs : List Byte) (pos len : Nat) : List Byte := (bs.drop pos).take len

/-- Byte length of the local record of an entry: header, name, content. -/
def localRecordSize (f : ZipEntry) : Nat :=
  30 + (textToUint8 f.name).length + f.dataUint8.length

/-- Byte length of the central directory record of an entry: header, name. -/
def centralRecordSize (f : ZipEntry) : Nat := 46 + (textToUint8 f.name).length

/-- Total byte length of the local records of a list of entries. -/
def localRecordsSize (files : List ZipEntry) : Nat := (files.map localRecordSize).sum

/-- Total byte length of the central directory records of a list of entries. -/
def centralRecordsSize (files : List ZipEntry) : Nat := (files.map centralRecordSize).sum

/-- The end-of-central-directory record of an archive: its last 22 bytes. -/
def eocdOf (bytes : List Byte) : List Byte := bytes.drop (bytes.length - 22)

/-- The 46-byte central directory header of entry number `i` in the archive
`bytes` built from `files`: it lies behind all local records and behind the
central records of the entries before `i`. -/
def centralHeaderAt (files : List ZipEntry) (bytes : List Byte) (i : Nat) : List Byte :=
  slice bytes (localRecordsSize files + centralRecordsSize (files.take i)) 46

/-- The 30-byte local header of entry number `i` in the archive `bytes` built
from `files`: it lies behind the local records of the entries before `i`. -/
def localHeaderAt (files : List ZipEntry) (bytes : List Byte) (i : Nat) : List Byte :=
  slice bytes (localRecordsSize (files.take i)) 30

/-- What a reader learns about one archive member. -/
structure ReadEntry where
  name : List Byte
  data : List Byte
  crc32 : Nat
  deriving DecidableEq, Repr

/-- Walk `count` central directory records starting at byte `pos`; for each,
follow its local header offset to the local header and take the data behind it. -/
def readCentral (bytes : List Byte) : Nat → Nat → Option (List ReadEntry)
  | 0, _ => some []
  | count + 1, pos =>
    if readUint32 bytes pos ≠ 0x02014b50 then none
    else
      let crc := readUint32 bytes (pos + 16)
      let compressedSize := readUint32 bytes (pos + 20)
      let nameLength := readUint16 bytes (pos + 28)
      let extraLength := readUint16 bytes (pos + 30)
      let commentLength := readUint16 bytes (pos + 32)
      let localHeaderOffset := readUint32 bytes (pos + 42)
      let name := slice bytes (pos + 46) nameLength
      if readUint32 bytes localHeaderOffset ≠ 0x04034b50 then none
      else
        let localNameLength := readUint16 bytes (localHeaderOffset + 26)
        let localExtraLength := readUint16 bytes (localHeaderOffset + 28)
        let data :=
          slice bytes (localHeaderOffset + 30 + localNameLength + localExtraLength) compressedSize
        match readCentral bytes count (pos + 46 + nameLength + extraLength + commentLength) with
        | none => none
        | some rest => some ({ name := name, data := data, crc32 := crc } :: rest)

/-- A ZIP reader: find the end-of-central-directory record in the last 22
bytes, then walk the central directory it locates. -/
def readArchive (bytes : List Byte) : Option (List ReadEntry) :=
  if bytes.length < 22 then none
  else
    let e := bytes.length - 22
    if readUint32 bytes e ≠ 0x06054b50 then none
    else readCentral bytes (readUint16 bytes (e + 10)) (readUint32 bytes (e + 16))

/-- The builder after a sequence of `addTextFile` calls, each with its path,
its text and the wall clock at the time of the call. -/
def addAll (z : MiniZip) : List (JSString × JSString × JSDate) → MiniZip
  | [] => z
  | a :: rest => addAll (addTextFile z a.1 a.2.1 a.2.2) rest

/-- What the reader is expected to return for one `addTextFile` call. -/
def expectedEntry (a : JSString × JSString × JSDate) : ReadEntry :=
  { name := textToUint8 (replaceBackslashes a.1)
    data := textToUint8 a.2.1
    crc32 := crc32Reference (textToUint8 a.2.1) }

/-! ## Names as a reader decodes them -/

/-- The code unit `n mod 2^16`. -/
def unitOf (n : Nat) : CodeUnit := ⟨n % 65536, Nat.mod_lt n (by decide)⟩

/-- The UTF-16 code units of a code point: itself below `0x10000`, a surrogate
pair from there on. -/
def utf16Encode (c : Nat) : JSString :=
  if c < 0x10000 then [unitOf c]
  else [unitOf (0xD800 + (c - 0x10000) / 0x400), unitOf (0xDC00 + (c - 0x10000) % 0x400)]

/-- A UTF-8 decoder run over name bytes.  The first argument is the sequence in
progress, if any: the value of the bits read so far and the number of
continuation bytes still to come.  Each byte `0xxxxxxx` is a code point, a
byte `110xxxxx`, `1110xxxx` or `11110xxx` opens a sequence of two, three or
four bytes, and every continuation byte adds its low six bits.  Bytes that are
not well-formed UTF-8, which `TextEncoder` never writes, are not diagnosed
beyond a stray continuation byte and a sequence cut off by the end, which
give U+FFFD. -/
def utf8DecodeFrom : Option (Nat × Nat) → List Byte → JSString
  | none, [] => []
  | some _, [] => [0xFFFD]
  | none, b :: rest =>
    if b.val < 0x80 then unitOf b.val :: utf8DecodeFrom none rest
    else if b.val < 0xC0 then 0xFFFD :: utf8DecodeFrom none rest
    else if b.val < 0xE0 then utf8DecodeFrom (some (b.val - 0xC0, 1)) rest
    else if b.val < 0xF0 then utf8DecodeFrom (some (b.val - 0xE0, 2)) rest
    else utf8DecodeFrom (some (b.val - 0xF0, 3)) rest
  | some (value, missing), b :: rest =>
    if missing ≤ 1 then utf16Encode (value * 64 + b.val % 64) ++ utf8DecodeFrom none rest
    else utf8DecodeFrom (some (value * 64 + b.val % 64, missing - 1)) rest

/-- The string a reader gets when it decodes name bytes as UTF-8. -/
def utf8Decode (bytes : List Byte) : JSString := utf8DecodeFrom none bytes

/-- The test `s.isWellFormed()` run over the code units of a string; the first
argument is a pending high surrogate, if any.  A string is well formed when
every surrogate is part of a pair. -/
def isWellFormedFrom : Option CodeUnit → JSString → Bool
  | none, [] => true
  | some _, [] => false
  | none, u :: rest =>
    if isHighSurrogate u then isWellFormedFrom (some u) rest
    else if isLowSurrogate u then false
    else isWellFormedFrom none rest
  | some _, u :: rest =>
    if isLowSurrogate u then isWellFormedFrom none rest else false

/-- The test `s.isWellFormed()`: the string has no unpaired surrogate. -/
def isWellFormed (s : JSString) : Bool := isWellFormedFrom none s

/-- What a reader that decodes the names as UTF-8 learns about one archive
member. -/
structure NamedEntry where
  name : JSString
  data : List Byte
  crc32 : Nat
  deriving DecidableEq, Repr

/-- A ZIP reader that decodes the names it finds as UTF-8. -/
def readArchiveNames (bytes : List Byte) : Option (List NamedEntry) :=
  (readArchive bytes).map
    (List.map (fun e => { name := utf8Decode e.name, data := e.data, crc32 := e.crc32 }))

/-- What the reader that decodes the names is expected to return for one
`addTextFile` call: the normalized name itself, the UTF-8 bytes of the text and
their reference CRC-32. -/
def expectedNamedEntry (a : JSString × JSString × JSDate) : NamedEntry :=
  { name := replaceBackslashes a.1
    data := textToUint8 a.2.1
    crc32 := crc32Reference (textToUint8 a.2.1) }

/-! ## Auxiliary definitions and sample inputs -/

/-- The entries with the offsets the first loop assigns, starting at `offset`. -/
def withOffsets : List ZipEntry → Nat → List ZipEntry
  | [], _ => []
  | f :: rest, offset =>
    { f with localHeaderOffset := offset } :: withOffsets rest (offset + localRecordSize f)

/-- The bytes of the local record of an entry. -/
def localRecord (f : ZipEntry) : List Byte :=
  localHeader f (textToUint8 f.name) ++ (textToUint8 f.name ++ f.dataUint8)

/-- The bytes of the central directory record of an entry. -/
def centralRecord (f : ZipEntry) : List Byte :=
  centralHeader f (textToUint8 f.name) ++ textToUint8 f.name

/-- The entry one `addTextFile` call appends. -/
def newEntry (a : JSString × JSString × JSDate) : ZipEntry :=
  { name := replaceBackslashes a.1
    dataUint8 := textToUint8 a.2.1
    crc32 := crc32 (textToUint8 a.2.1)
    dosTime := (msDosDateTime a.2.2).dosTime
    dosDate := (msDosDateTime a.2.2).dosDate
    localHeaderOffset := 0 }

/-- The wall clock used in the examples: 1 January 2024, 00:00:00. -/
def sampleDate : JSDate :=
  { getFullYear := 2024, getMonth := 0, getDate := 1, getHours := 0, getMinutes := 0,
    getSeconds := 0 }

/-- The string `"a".repeat(n)`. -/
def repeatA (n : Nat) : JSString := List.replicate n 0x61

/-- The arguments of `count` calls `addTextFile("a".repeat(nameLen), "a".repeat(textLen))`. -/
def uniformAdds (count nameLen textLen : Nat) : List (JSString × JSString × JSDate) :=
  List.replicate count (repeatA nameLen, repeatA textLen, sampleDate)

/-- The builder after `count` calls `addTextFile("a".repeat(nameLen), "a".repeat(textLen))`. -/
def uniformZip (count nameLen textLen : Nat) : MiniZip :=
  addAll new (uniformAdds count nameLen textLen)

/-- What a reader returns for an entry of the builder whose fields fit their widths. -/
def readBack (f : ZipEntry) : ReadEntry :=
  { name := textToUint8 f.name, data := f.dataUint8, crc32 := f.crc32 % 4294967296 }

/-- The path `a\b\c.txt`. -/
def samplePath : JSString := [0x61, 0x5C, 0x62, 0x5C, 0x63, 0x2E, 0x74, 0x78, 0x74]

/-- Two `addTextFile` calls: `("a\\b\\c.txt", "hi")` and `("x", "€")`. -/
def sampleAdds : List (JSString × JSString × JSDate) :=
  [(samplePath, [0x68, 0x69], sampleDate), ([0x78], [0x20AC], sampleDate)]

/-- The builder after the two sample calls. -/
def sampleZip : MiniZip := addAll new sampleAdds

/-! ## Definitions for the layout, timestamp and frame claims -/

/-- The wall clock 1 January 2108, 00:00:00: the first year the MS-DOS date cannot hold. -/
def date2108 : JSDate :=
  { getFullYear := 2108, getMonth := 0, getDate := 1, getHours := 0, getMinutes := 0,
    getSeconds := 0 }

/-- The wall clock 17 May 2024, 13:45:31. -/
def dateMay2024 : JSDate :=
  { getFullYear := 2024, getMonth := 4, getDate := 17, getHours := 13, getMinutes := 45,
    getSeconds := 31 }

/-- The `width` bytes of `n`, lowest first. -/
def leBytes : Nat → Nat → List Byte
  | 0, _ => []
  | width + 1, n => byteOf n :: leBytes width (n / 256)

/-- The little-endian encoding of the number `v` in `width` bytes.  There is
none when `v` is negative or needs more than `width` bytes. -/
def littleEndian (width : Nat) (v : Int) : Option (List Byte) :=
  if 0 ≤ v ∧ v < 256 ^ width then some (leBytes width v.toNat) else none

/-- The concatenation of the little-endian encodings of a sequence of fields,
each given as (width in bytes, value).  There is none when a field has none. -/
def encodeFields : List (Nat × Int) → Option (List Byte)
  | [] => some []
  | (w, v) :: rest =>
    match littleEndian w v, encodeFields rest with
    | some a, some b => some (a ++ b)
    | _, _ => none

/-- The fields of a local file header, in the order of section 6 of the
specification, for an entry with the given name length. -/
def localHeaderFields (f : ZipEntry) (nameLength : Nat) : List (Nat × Int) :=
  [(4, 0x04034b50), (2, 20), (2, 0), (2, 0), (2, f.dosTime), (2, f.dosDate), (4, f.crc32),
   (4, f.dataUint8.length), (4, f.dataUint8.length), (2, nameLength), (2, 0)]

/-- The fields of a central directory record, in the order of section 6 of
the specification. -/
def centralHeaderFields (f : ZipEntry) (nameLength : Nat) : List (Nat × Int) :=
  [(4, 0x02014b50), (2, 20), (2, 20), (2, 0), (2, 0), (2, f.dosTime), (2, f.dosDate),
   (4, f.crc32), (4, f.dataUint8.length), (4, f.dataUint8.length), (2, nameLength), (2, 0),
   (2, 0), (2, 0), (2, 0), (4, 0), (4, f.localHeaderOffset)]

/-- The fields of the end-of-central-directory record, in the order of
section 6 of the specification. -/
def eocdFields (entryCount centralDirSize centralDirOffset : Nat) : List (Nat × Int) :=
  [(4, 0x06054b50), (2, 0), (2, 0), (2, entryCount), (2, entryCount), (4, centralDirSize),
   (4, centralDirOffset), (2, 0)]

/-- The fields of an entry other than `localHeaderOffset`:
name, content, crc32, dosTime, dosDate. -/
def entryCore (f : ZipEntry) : JSString × List Byte × Nat × Int × Int :=
  (f.name, f.dataUint8, f.crc32, f.dosTime, f.dosDate)

/-- The assignments `f.localHeaderOffset = offset` the first loop of `build`
performs, in the order it performs them, each as the pair (position of `f` in
`this.files`, value assigned); `index` and `offset` are the position and the
running offset the loop has reached. -/
def localLoopWrites : List ZipEntry → Nat → Nat → List (Nat × Nat)
  | [], _, _ => []
  | f :: todo, index, offset =>
    (index, offset) ::
      localLoopWrites todo (index + 1)
        (offset + (30 + (textToUint8 f.name).length + f.dataUint8.length))

/-- The entry list after the assignment `files[i].localHeaderOffset = offset`. -/
def setOffset (files : List ZipEntry) (w : Nat × Nat) : List ZipEntry :=
  match files[w.1]? with
  | some f => files.set w.1 { f with localHeaderOffset := w.2 }
  | none => files

/-- The entry list after a sequence of assignments to `localHeaderOffset`. -/
def applyWrites (files : List ZipEntry) (writes : List (Nat × Nat)) : List ZipEntry :=
  writes.foldl setOffset files

/-- The entry made by `addTextFile("a", "")` when the clock shows 1 January 2108. -/
def entry2108 : ZipEntry := newEntry ([0x61], [], date2108)

/-- The builder after `addTextFile("a", "")` when the clock shows 1 January 2108. -/
def zip2108 : MiniZip := addTextFile new [0x61] [] date2108

/-- The wall clock 1 January 1970, 00:00:00 (a clock that was never set). -/
def date1970 : JSDate :=
  { getFullYear := 1970, getMonth := 0, getDate := 1, getHours := 0, getMinutes := 0,
    getSeconds := 0 }

/-! ## Definitions for the claims on the checksum, on the second copy and on the dashboard -/

/-- The number of bits set in the low 8 bits of `n`. -/
def bitsSet (n : Nat) : Nat := (List.range 8).countP (fun k => n.testBit k)

/-- The number of bit positions in which two byte sequences differ, counted
over the bytes both have. -/
def bitDistance : List Byte → List Byte → Nat
  | x :: a, y :: b => bitsSet (x.val ^^^ y.val) + bitDistance a b
  | _, _ => 0

/-! ## Calls of `addTextFile` with values that are not strings -/

/-- A value passed to `addTextFile`: a string, `undefined`, or another
primitive (a number, a boolean or `null`), which is given by the string that
`ToString` converts it to.  Symbols and objects are not modelled. -/
inductive JSValue where
  | string (s : JSString)
  | undefined
  | primitive (asString : JSString)
  deriving DecidableEq

/-- The error a call can raise. -/
inductive JSError where
  | typeError
  deriving DecidableEq

/-- The call `new TextEncoder().encode(v)`.  The argument is declared as
`optional USVString input = ""`: `undefined` stands for the default `""` and
every other primitive is converted with `ToString`. -/
def encodeValue : JSValue → List Byte
  | JSValue.string s => textToUint8 s
  | JSValue.undefined => textToUint8 []
  | JSValue.primitive s => textToUint8 s

/-- What a call leaves behind: the error it raised, if any, and the builder
after the call. -/
structure CallOutcome where
  error : Option JSError
  zip : MiniZip
  deriving DecidableEq

/-- Method `addTextFile(path, text)` for arguments of any primitive type.  The
three `const` lines run first; the argument of `this.files.push` is evaluated
next, and there `path.replace` raises a `TypeError` when `path` is not a
string (`undefined` and `null` have no properties, numbers and booleans have
no `replace` method), so that `push` is not reached. -/
def addTextFileValue (z : MiniZip) (path text : JSValue) (now : JSDate) : CallOutcome :=
  let data := encodeValue text
  let crc := crc32 data
  let dt := msDosDateTime now
  match path with
  | JSValue.string p =>
    { error := none
      zip := { files := z.files ++ [{
        name := replaceBackslashes p
        dataUint8 := data
        crc32 := crc
        dosTime := dt.dosTime
        dosDate := dt.dosDate
        localHeaderOffset := 0 }] } }
  | _ => { error := some JSError.typeError, zip := z }

/-! ## The second copy of `MiniZip`

The class `MiniZip` of `New Updated and New Features added
AdminDashboard/script.js` (lines 2-116), translated statement by statement
like the first copy.  It shares the types of the entries and of the builder,
the JavaScript operators, `TextEncoder` and `DataView` with the first copy. -/

namespace Dashboard

/-- Method `MiniZip.textToUint8(text)` of the second copy. -/
def textToUint8 (text : JSString) : List Byte := utf8EncodeFrom none text

/-- One round of the inner loop of the table generator of the second copy. -/
def crc32TableStep (c : Int) : Int :=
  if jsAnd c 1 ≠ 0 then jsXor 0xEDB88320 (jsUshr c 1) else jsUshr c 1

/-- Entry `n` of the table of the second copy. -/
def crc32TableEntry (n : Nat) : Nat := jsUshr (Nat.iterate crc32TableStep 8 n) 0

/-- Static field `MiniZip.crc32Table` of the second copy. -/
def crc32Table : List Nat := (List.range 256).map crc32TableEntry

/-- The body of the loop of `crc32` of the second copy. -/
def crc32Step (crc : Int) (b : Byte) : Int :=
  jsXor (jsUshr crc 8) (crc32Table.getD (jsAnd (jsXor crc b.val) 0xFF).toNat 0)

/-- Method `MiniZip.crc32(uint8)` of the second copy. -/
def crc32 (uint8 : List Byte) : Nat :=
  jsUshr (jsXor (uint8.foldl crc32Step (jsXor 0 (-1))) (-1)) 0

/-- Method `MiniZip.msDosDateTime(date)` of the second copy. -/
def msDosDateTime (date : JSDate) : DosDateTime :=
  let sec2 : Int := (date.getSeconds / 2 : Nat)
  let min : Int := date.getMinutes
  let hr : Int := date.getHours
  let time := jsOr (jsOr (jsShl hr 11) (jsShl min 5)) sec2
  let day : Int := date.getDate
  let mon : Int := (date.getMonth + 1 : Nat)
  let yr : Int := date.getFullYear - 1980
  let dosDate := jsOr (jsOr (jsShl yr 9) (jsShl mon 5)) day
  { dosTime := time, dosDate := dosDate }

/-- Method `addTextFile(path, text)` of the second copy. -/
def addTextFile (z : MiniZip) (path text : JSString) (now : JSDate) : MiniZip :=
  let data := textToUint8 text
  let crc := crc32 data
  let dt := msDosDateTime now
  { files := z.files ++ [{
      name := path.map (fun u => if u = 0x5C then 0x2F else u)
      dataUint8 := data
      crc32 := crc
      dosTime := dt.dosTime
      dosDate := dt.dosDate
      localHeaderOffset := 0 }] }

/-- The local file header of the second copy. -/
def localHeader (f : ZipEntry) (nameBytes : List Byte) : List Byte :=
  let sigLocal : Int := 0x04034b50
  let version : Int := 20
  let gpFlag : Int := 0
  let method : Int := 0
  let v := DataView.alloc 30
  let v := v.setUint32 sigLocal
  let v := v.setUint16 version
  let v := v.setUint16 gpFlag
  let v := v.setUint16 method
  let v := v.setUint16 f.dosTime
  let v := v.setUint16 f.dosDate
  let v := v.setUint32 f.crc32
  let v := v.setUint32 f.dataUint8.length
  let v := v.setUint32 f.dataUint8.length
  let v := v.setUint16 nameBytes.length
  let v := v.setUint16 0
  v.buffer

/-- The central directory header of the second copy. -/
def centralHeader (f : ZipEntry) (nameBytes : List Byte) : List Byte :=
  let sigCentral : Int := 0x02014b50
  let version : Int := 20
  let gpFlag : Int := 0
  let method : Int := 0
  let versionMadeBy : Int := 20
  let externalAttrs : Int := 0
  let v := DataView.alloc 46
  let v := v.setUint32 sigCentral
  let v := v.setUint16 versionMadeBy
  let v := v.setUint16 version
  let v := v.setUint16 gpFlag
  let v := v.setUint16 method
  let v := v.setUint16 f.dosTime
  let v := v.setUint16 f.dosDate
  let v := v.setUint32 f.crc32
  let v := v.setUint32 f.dataUint8.length
  let v := v.setUint32 f.dataUint8.length
  let v := v.setUint16 nameBytes.length
  let v := v.setUint16 0
  let v := v.setUint16 0
  let v := v.setUint16 0
  let v := v.setUint16 0
  let v := v.setUint32 externalAttrs
  let v := v.setUint32 f.localHeaderOffset
  v.buffer

/-- The end-of-central-directory record of the second copy. -/
def eocdRecord (fileCount centralSize centralStart : Nat) : List Byte :=
  let sigEOCD : Int := 0x06054b50
  let v := DataView.alloc 22
  let v := v.setUint32 sigEOCD
  let v := v.setUint16 0
  let v := v.setUint16 0
  let v := v.setUint16 fileCount
  let v := v.setUint16 fileCount
  let v := v.setUint32 centralSize
  let v := v.setUint32 centralStart
  let v := v.setUint16 0
  v.buffer

/-- The first loop of `build` of the second copy. -/
def localLoop : List ZipEntry → BuildState → BuildState
  | [], s => s
  | f :: todo, s =>
    let nameBytes := textToUint8 f.name
    let f' := { f with localHeaderOffset := s.offset }
    localLoop todo
      { files := s.files ++ [f']
        chunks := s.chunks ++ [localHeader f' nameBytes, nameBytes, f'.dataUint8]
        offset := s.offset + (30 + nameBytes.length + f'.dataUint8.length) }

/-- The second loop of `build` of the second copy. -/
def centralLoop : List ZipEntry → BuildState → BuildState
  | [], s => s
  | f :: todo, s =>
    let nameBytes := textToUint8 f.name
    centralLoop todo
      { files := s.files
        chunks := s.chunks ++ [centralHeader f nameBytes, nameBytes]
        offset := s.offset + (46 + nameBytes.length) }

/-- Method `build()` of the second copy. -/
def build (z : MiniZip) : BuildResult :=
  let s1 := localLoop z.files { files := [], chunks := [], offset := 0 }
  let centralStart := s1.offset
  let s2 := centralLoop s1.files s1
  let centralSize := s2.offset - centralStart
  let eocd := eocdRecord s1.files.length centralSize centralStart
  { zip := { files := s2.files },
    bytes := (s2.chunks ++ [eocd]).foldl (fun out c => out ++ c) [] }

/-- The second copy's builder after a sequence of `addTextFile` calls. -/
def addAll (z : MiniZip) : List (JSString × JSString × JSDate) → MiniZip
  | [] => z
  | a :: rest => addAll (addTextFile z a.1 a.2.1 a.2.2) rest

end Dashboard

end MiniZip

/-! # The dashboard: class `DocumentPortalAdmin`

The parts of `DocumentPortalAdmin` (`admin/script.js`, lines 171-830) that
decide which customers are listed, which page of them is shown and which
entries an export holds.  The document is represented by the presence of the
elements the methods look up; `toLowerCase`, `JSON.stringify` and the clock
are parameters. -/

namespace DocumentPortalAdmin

open MiniZip

/-- A string literal of the source as UTF-16 code units (all the literals used
are ASCII). -/
def lit (s : String) : JSString :=
  s.toList.map (fun c => (⟨c.toNat % 65536, Nat.mod_lt _ (by decide)⟩ : CodeUnit))

/-- The code units that `trim()` removes and that `\s` matches: the WhiteSpace
and LineTerminator code points of ECMAScript. -/
def isWhiteSpace (u : CodeUnit) : Bool :=
  decide (u.val ∈ [0x09, 0x0A, 0x0B, 0x0C, 0x0D, 0x20, 0xA0, 0x1680, 0x2028, 0x2029, 0x202F,
    0x205F, 0x3000, 0xFEFF]) || decide (0x2000 ≤ u.val ∧ u.val ≤ 0x200A)

/-- The call `s.trim()`. -/
def trim (s : JSString) : JSString :=
  ((s.dropWhile isWhiteSpace).reverse.dropWhile isWhiteSpace).reverse

/-- The expression `s.replace(/\s/g, '_')`. -/
def replaceWhiteSpace (s : JSString) : JSString :=
  s.map (fun u => if isWhiteSpace u then 0x5F else u)

/-- The call `s.includes(sub)`: `sub` occurs in `s` at some position. -/
def includes (s sub : JSString) : Bool :=
  s.tails.any (fun t => sub.isPrefixOf t)

/-- The call `String(n)` for a non-negative integer `n`: its decimal digits. -/
def numberToString (n : Nat) : JSString :=
  (Nat.toDigits 10 n).map (fun c => (⟨c.toNat % 65536, Nat.mod_lt _ (by decide)⟩ : CodeUnit))

/-- The call `s.padStart(targetLength, fill)` with a fill string of one code
unit. -/
def padStart (s : JSString) (targetLength : Nat) (fill : CodeUnit) : JSString :=
  List.replicate (targetLength - s.length) fill ++ s

/-- An element of `customer.documents`. -/
structure Document where
  type : JSString
  name : JSString
  filename : JSString
  size : Nat
  deriving DecidableEq

/-- An element of `this.customers`, with the fields `generateRealisticData`
gives it. -/
structure Customer where
  id : Nat
  firstName : JSString
  lastName : JSString
  fullName : JSString
  email : JSString
  phone : JSString
  city : JSString
  gender : JSString
  paymentMethod : JSString
  submissionDate : JSString
  documents : List Document
  status : JSString
  deriving DecidableEq

/-- Field `this.stats`. -/
structure Stats where
  total : Nat
  online : Nat
  offline : Nat
  completed : Nat
  documents : Nat
  deriving DecidableEq

/-- The elements of `this.elements` that the methods below test: the value of
the email input when the input exists, and whether the table body and the
pagination controls exist. -/
structure Elements where
  zipEmailInput : Option JSString
  customersTableBody : Bool
  paginationControls : Bool
  deriving DecidableEq

end DocumentPortalAdmin

/-- The fields of a `DocumentPortalAdmin` object that the methods below read or
write.  `currentPage` is at least 1 and `rowsPerPage` is 10 in every state the
class reaches: the constructor sets them to 1 and 10, nothing assigns
`rowsPerPage` again, and `currentPage` only moves between 1 and the page
count. -/
structure DocumentPortalAdmin where
  customers : List DocumentPortalAdmin.Customer
  filteredCustomers : List DocumentPortalAdmin.Customer
  activeFilter : MiniZip.JSString
  searchTerm : MiniZip.JSString
  currentPage : Nat
  rowsPerPage : Nat
  stats : DocumentPortalAdmin.Stats
  elements : DocumentPortalAdmin.Elements
  deriving DecidableEq

namespace DocumentPortalAdmin

open MiniZip

/-- The expression `this.filteredCustomers.slice(start, end)` for indices that
are not negative. -/
def slice (xs : List Customer) (start stop : Nat) : List Customer :=
  (xs.take stop).drop start

/-- Method `renderTable()`: the rows written to the table body, or `none` when
there is no table body.  It changes no field of the object. -/
def renderTable (a : DocumentPortalAdmin) : Option (List Customer) :=
  if !a.elements.customersTableBody then none
  else if a.filteredCustomers.length = 0 then some []
  else
    let start := (a.currentPage - 1) * a.rowsPerPage
    let stop := start + a.rowsPerPage
    let paginatedCustomers := slice a.filteredCustomers start stop
    some paginatedCustomers

/-- Method `updateStats()`. -/
def updateStats (a : DocumentPortalAdmin) : DocumentPortalAdmin :=
  { a with stats := {
      total := a.customers.length
      online := (a.customers.filter (fun c => c.paymentMethod = lit "online")).length
      offline := (a.customers.filter (fun c => c.paymentMethod = lit "offline")).length
      completed := (a.customers.filter (fun c => c.status = lit "completed")).length
      documents := a.customers.foldl (fun sum c => sum + c.documents.length) 0 } }

/-- The expression `Math.ceil(length / rowsPerPage) || 1` for a `rowsPerPage`
that is not 0. -/
def pageCount (length rowsPerPage : Nat) : Nat :=
  let c := (length + rowsPerPage - 1) / rowsPerPage
  if c = 0 then 1 else c

/-- Method `renderPagination()`: the object after the call and the pair
`(startItem, endItem)` written to the controls, `none` when nothing is
written. -/
def renderPagination (a : DocumentPortalAdmin) : DocumentPortalAdmin × Option (Nat × Nat) :=
  if !a.elements.paginationControls then (a, none)
  else
    let pageCount := pageCount a.filteredCustomers.length a.rowsPerPage
    let a := if a.currentPage > pageCount then { a with currentPage := pageCount } else a
    if pageCount ≤ 1 then (a, none)
    else
      let startItem := (a.currentPage - 1) * a.rowsPerPage + 1
      let endItem := min (startItem + a.rowsPerPage - 1) a.filteredCustomers.length
      (a, some (startItem, endItem))

/-- The `switch` of `applyCurrentFilters`. -/
def filterSwitch (activeFilter : JSString) (customer : Customer) : Bool :=
  if activeFilter = lit "online" then customer.paymentMethod = lit "online"
  else if activeFilter = lit "offline" then customer.paymentMethod = lit "offline"
  else if activeFilter = lit "male" then customer.gender = lit "male"
  else if activeFilter = lit "female" then customer.gender = lit "female"
  else if activeFilter = lit "completed" then customer.status = lit "completed"
  else if activeFilter = lit "pending" then customer.status = lit "pending"
  else true

/-- Method `applyCurrentFilters()`. -/
def applyCurrentFilters (toLowerCase : JSString → JSString) (a : DocumentPortalAdmin) :
    DocumentPortalAdmin :=
  let filtered := a.customers
  let searchLower := toLowerCase a.searchTerm
  let filtered :=
    if a.searchTerm ≠ [] then
      filtered.filter (fun c =>
        includes (toLowerCase c.fullName) searchLower ||
          includes (toLowerCase c.email) searchLower)
    else filtered
  let filtered :=
    if a.activeFilter ≠ lit "all" then filtered.filter (filterSwitch a.activeFilter)
    else filtered
  let a := { a with filteredCustomers := filtered, currentPage := 1 }
  let a := updateStats a
  (renderPagination a).1

/-- The template literal `summary` of the export of one applicant. -/
def summaryText (user : Customer) : JSString :=
  lit "User: " ++ user.fullName ++ [0x0A] ++
    lit "Email: " ++ user.email ++ [0x0A] ++
    lit "Phone: " ++ user.phone ++ [0x0A] ++
    lit "City: " ++ user.city ++ [0x0A] ++
    lit "Application ID: APP" ++ padStart (numberToString user.id) 4 0x30 ++ [0x0A] ++
    lit "Payment: " ++ user.paymentMethod ++ lit ", Status: " ++ user.status

/-- The template literal `content` written for a document. -/
def placeholderContent (customer : Customer) (doc : Document) : JSString :=
  lit "This is a placeholder for the document: " ++ doc.name ++ lit "." ++ [0x0A] ++
    lit "File: " ++ doc.filename ++ [0x0A] ++
    lit "User: " ++ customer.fullName

/-- The calls `zip.addTextFile(path, text)` of the export of one applicant, in
the order in which they are made. -/
def singleExportCalls (user : Customer) : List (JSString × JSString) :=
  (lit "_summary.txt", summaryText user) ::
    user.documents.map (fun doc => (doc.filename, placeholderContent user doc))

/-- The calls `zip.addTextFile(path, text)` of the export of all the filtered
customers, in the order in which they are made. -/
def batchExportCalls (stringify : List Customer → JSString) (filteredCustomers : List Customer) :
    List (JSString × JSString) :=
  (lit "summary_of_all_users.json", stringify filteredCustomers) ::
    (filteredCustomers.map (fun customer =>
      let safeName := replaceWhiteSpace customer.fullName
      customer.documents.map (fun doc =>
        (lit "user_documents/" ++ safeName ++ lit "/" ++ doc.filename,
          placeholderContent customer doc)))).flatten

/-- The builder after the calls `calls`; call number `k` reads the clock as
`clock k`. -/
def addTextFiles (clock : Nat → JSDate) : MiniZip → Nat → List (JSString × JSString) → MiniZip
  | zip, _, [] => zip
  | zip, k, call :: calls =>
    addTextFiles clock (MiniZip.addTextFile zip call.1 call.2 (clock k)) (k + 1) calls

/-- What an export hands to the download: the `addTextFile` calls made, the
builder they leave and the bytes `build()` returns. -/
structure ExportResult where
  calls : List (JSString × JSString)
  zip : MiniZip
  blob : List Byte
  deriving DecidableEq

/-- A new `MiniZip`, the calls `calls` and `build()`. -/
def exportZip (clock : Nat → JSDate) (calls : List (JSString × JSString)) : ExportResult :=
  let zip := addTextFiles clock MiniZip.new 0 calls
  { calls := calls, zip := zip, blob := (MiniZip.build zip).bytes }

/-- Method `handleZipDownload()`: the archive handed to `_triggerBlobDownload`,
or `none` when the method returns after an error notification.  The name of
the downloaded file is not modelled. -/
def handleZipDownload (toLowerCase : JSString → JSString)
    (stringify : List Customer → JSString) (clock : Nat → JSDate) (a : DocumentPortalAdmin) :
    Option ExportResult :=
  match a.elements.zipEmailInput with
  | none => none
  | some value =>
    let emailRaw := trim value
    let email := toLowerCase emailRaw
    if email ≠ [] then
      match a.customers.find? (fun c => toLowerCase c.email = email) with
      | none => none
      | some user => some (exportZip clock (singleExportCalls user))
    else if a.filteredCustomers.length = 0 then none
    else some (exportZip clock (batchExportCalls stringify a.filteredCustomers))

/-! ## Inputs used in the examples for the dashboard -/

/-- A lower-casing function for the examples: `A`..`Z` become `a`..`z`, as
`toLowerCase` does on ASCII strings. -/
def asciiLowerCase (s : JSString) : JSString :=
  s.map (fun u => if 0x41 ≤ u.val ∧ u.val ≤ 0x5A then u + 0x20 else u)

/-- A customer as `generateRealisticData` makes them when it draws the first
name `Aarav` and the last name `Sharma` in round `id - 1`, with two of the
six documents. -/
def aaravSharma (id : Nat) : Customer :=
  { id := id
    firstName := lit "Aarav"
    lastName := lit "Sharma"
    fullName := lit "Aarav Sharma"
    email := lit "aarav.sharma@example.com"
    phone := lit "+91 6100000000"
    city := lit "Mumbai"
    gender := lit "male"
    paymentMethod := lit "online"
    submissionDate := lit "2024-01-01T00:00:00.000Z"
    documents := [
      { type := lit "aadhaar", name := lit "Aadhaar Card",
        filename := lit "Aarav_Sharma_aadhaar.txt", size := 500 },
      { type := lit "photo", name := lit "Passport Photo",
        filename := lit "Aarav_Sharma_photo.txt", size := 600 }]
    status := lit "pending" }

/-- A second customer, with one document. -/
def diyaGupta (id : Nat) : Customer :=
  { id := id
    firstName := lit "Diya"
    lastName := lit "Gupta"
    fullName := lit "Diya Gupta"
    email := lit "diya.gupta@example.com"
    phone := lit "+91 7100000000"
    city := lit "Delhi"
    gender := lit "female"
    paymentMethod := lit "offline"
    submissionDate := lit "2024-01-02T00:00:00.000Z"
    documents := [
      { type := lit "aadhaar", name := lit "Aadhaar Card",
        filename := lit "Diya_Gupta_aadhaar.txt", size := 700 }]
    status := lit "completed" }

/-- A dashboard holding `customers`, all of them listed, with every element
present and `value` typed in the email input. -/
def sampleAdmin (customers : List Customer) (value : JSString) : DocumentPortalAdmin :=
  { customers := customers
    filteredCustomers := customers
    activeFilter := lit "all"
    searchTerm := []
    currentPage := 1
    rowsPerPage := 10
    stats := { total := 0, online := 0, offline := 0, completed := 0, documents := 0 }
    elements := {
      zipEmailInput := some value
      customersTableBody := true
      paginationControls := true } }

/-! ## The conditions of the listing, in the words of the specification -/

/-- Condition (a) of the listing: the search term is empty, or the lower-cased
full name or the lower-cased email contains the lower-cased search term. -/
def SearchCondition (toLowerCase : JSString → JSString) (searchTerm : JSString)
    (c : Customer) : Prop :=
  searchTerm = [] ∨ toLowerCase searchTerm <:+: toLowerCase c.fullName ∨
    toLowerCase searchTerm <:+: toLowerCase c.email

/-- Condition (b) of the listing: the active filter is `all` or is none of the
six known filters, or it is a payment method, a gender or a status and the
customer's field of that kind equals it. -/
def FilterCondition (activeFilter : JSString) (c : Customer) : Prop :=
  activeFilter = lit "all" ∨
    activeFilter ∉ [lit "online", lit "offline", lit "male", lit "female", lit "completed",
      lit "pending"] ∨
    (activeFilter ∈ [lit "online", lit "offline"] ∧ c.paymentMethod = activeFilter) ∨
    (activeFilter ∈ [lit "male", lit "female"] ∧ c.gender = activeFilter) ∨
    (activeFilter ∈ [lit "completed", lit "pending"] ∧ c.status = activeFilter)

instance (toLowerCase : JSString → JSString) (searchTerm : JSString) (c : Customer) :
    Decidable (SearchCondition toLowerCase searchTerm c) := by
  unfold SearchCondition
  infer_instance

instance (activeFilter : JSString) (c : Customer) : Decidable (FilterCondition activeFilter c) := by
  unfold FilterCondition
  infer_instance

/-- The rows `renderTable` shows on page `p`. -/
def pageRows (a : DocumentPortalAdmin) (p : Nat) : List Customer :=
  (renderTable { a with currentPage := p }).getD []

/-- The range `renderPagination` displays on page `p`. -/
def pageRange (a : DocumentPortalAdmin) (p : Nat) : Option (Nat × Nat) :=
  (renderPagination { a with currentPage := p }).2

end DocumentPortalAdmin

namespace MiniZip

/-! # Theorems -/

/-! ## Facts about the 32-bit operators -/

theorem toUint32_lt (x : Int) : toUint32 x < 4294967296 := by
  unfold toUint32
  have h1 : 0 ≤ x % 4294967296 := Int.emod_nonneg _ (by decide)
  have h2 : x % 4294967296 < 4294967296 := Int.emod_lt_of_pos _ (by decide)
  omega

theorem toUint32_natCast (n : Nat) : toUint32 (n : Int) = n % 4294967296 := by
  unfold toUint32; omega

theorem toUint32_of_lt {n : Nat} (h : n < 4294967296) : toUint32 (n : Int) = n := by
  rw [toUint32_natCast]; omega

theorem toUint32_toInt32 (x : Int) : toUint32 (toInt32 x) = toUint32 x := by
  unfold toUint32 toInt32
  split <;> omega

theorem toUint32_jsXor (a b : Int) : toUint32 (jsXor a b) = toUint32 a ^^^ toUint32 b := by
  unfold jsXor
  rw [toUint32_toInt32]
  exact toUint32_of_lt (Nat.xor_lt_two_pow (n := 32) (toUint32_lt a) (toUint32_lt b))

theorem toUint32_jsAnd (a b : Int) : toUint32 (jsAnd a b) = toUint32 a &&& toUint32 b := by
  unfold jsAnd
  rw [toUint32_toInt32]
  exact toUint32_of_lt (Nat.and_lt_two_pow (n := 32) _ (toUint32_lt b))

theorem toUint32_jsOr (a b : Int) : toUint32 (jsOr a b) = toUint32 a ||| toUint32 b := by
  unfold jsOr
  rw [toUint32_toInt32]
  exact toUint32_of_lt (Nat.or_lt_two_pow (n := 32) (toUint32_lt a) (toUint32_lt b))

theorem jsUshr_eq (a : Int) (k : Nat) (hk : k < 32) : jsUshr a k = toUint32 a / 2 ^ k := by
  unfold jsUshr
  rw [Nat.mod_eq_of_lt hk]
  exact Nat.shiftRight_eq_div_pow _ _

theorem jsUshr_lt (a : Int) (k : Nat) : jsUshr a k < 4294967296 := by
  unfold jsUshr
  have h := toUint32_lt a
  have : Nat.shiftRight (toUint32 a) (k % 32) = toUint32 a / 2 ^ (k % 32) :=
    Nat.shiftRight_eq_div_pow _ _
  rw [this]
  exact lt_of_le_of_lt (Nat.div_le_self _ _) h

/-! ## The shape of the output of `build` -/

theorem concatChunks_eq (chunks : List (List Byte)) : concatChunks chunks = chunks.flatten := by
  have h : ∀ (cs : List (List Byte)) (acc : List Byte),
      cs.foldl (fun out c => out ++ c) acc = acc ++ cs.flatten := by
    intro cs
    induction cs with
    | nil => intro acc; simp
    | cons c cs ih => intro acc; simp [ih]
  simpa [concatChunks] using h chunks []

theorem localHeader_withOffset (f : ZipEntry) (o : Nat) (nb : List Byte) :
    localHeader { f with localHeaderOffset := o } nb = localHeader f nb := rfl

theorem localLoop_files (todo : List ZipEntry) (s : BuildState) :
    (localLoop todo s).files = s.files ++ withOffsets todo s.offset := by
  induction todo generalizing s with
  | nil => simp [localLoop, withOffsets]
  | cons f todo ih =>
    simp only [localLoop, withOffsets, ih, localRecordSize, List.append_assoc, List.singleton_append]

theorem localLoop_offset (todo : List ZipEntry) (s : BuildState) :
    (localLoop todo s).offset = s.offset + localRecordsSize todo := by
  induction todo generalizing s with
  | nil => simp [localLoop, localRecordsSize]
  | cons f todo ih =>
    simp only [localLoop, ih, localRecordsSize, localRecordSize, List.map_cons, List.sum_cons]
    omega

theorem localLoop_chunks (todo : List ZipEntry) (s : BuildState) :
    (localLoop todo s).chunks.flatten = s.chunks.flatten ++ (todo.map localRecord).flatten := by
  induction todo generalizing s with
  | nil => simp [localLoop]
  | cons f todo ih =>
    simp only [localLoop, ih, localRecord, localHeader_withOffset, List.flatten_append,
      List.flatten_cons, List.flatten_nil, List.map_cons, List.append_assoc, List.append_nil]

theorem centralLoop_files (todo : List ZipEntry) (s : BuildState) :
    (centralLoop todo s).files = s.files := by
  induction todo generalizing s with
  | nil => simp [centralLoop]
  | cons f todo ih => simp only [centralLoop, ih]

theorem centralLoop_offset (todo : List ZipEntry) (s : BuildState) :
    (centralLoop todo s).offset = s.offset + centralRecordsSize todo := by
  induction todo generalizing s with
  | nil => simp [centralLoop, centralRecordsSize]
  | cons f todo ih =>
    simp only [centralLoop, ih, centralRecordsSize, centralRecordSize, List.map_cons, List.sum_cons]
    omega

theorem centralLoop_chunks (todo : List ZipEntry) (s : BuildState) :
    (centralLoop todo s).chunks.flatten = s.chunks.flatten ++ (todo.map centralRecord).flatten := by
  induction todo generalizing s with
  | nil => simp [centralLoop]
  | cons f todo ih =>
    simp only [centralLoop, ih, centralRecord, List.flatten_append,
      List.flatten_cons, List.flatten_nil, List.map_cons, List.append_assoc, List.append_nil]

theorem withOffsets_length (files : List ZipEntry) (o : Nat) :
    (withOffsets files o).length = files.length := by
  induction files generalizing o with
  | nil => rfl
  | cons f files ih => simp [withOffsets, ih]

theorem centralRecordSize_withOffset (f : ZipEntry) (o : Nat) :
    centralRecordSize { f with localHeaderOffset := o } = centralRecordSize f := rfl

theorem withOffsets_centralRecordsSize (files : List ZipEntry) (o : Nat) :
    centralRecordsSize (withOffsets files o) = centralRecordsSize files := by
  induction files generalizing o with
  | nil => rfl
  | cons f files ih =>
    have := ih (o + localRecordSize f)
    simp only [centralRecordsSize, withOffsets, List.map_cons, List.sum_cons,
      centralRecordSize_withOffset] at this ⊢
    rw [this]

/-- The bytes of `build`: local records, central records, trailer. -/
theorem build_bytes (z : MiniZip) :
    (build z).bytes =
      (z.files.map localRecord).flatten ++
        (((withOffsets z.files 0).map centralRecord).flatten ++
          eocdRecord z.files.length (centralRecordsSize z.files) (localRecordsSize z.files)) := by
  simp only [build, concatChunks_eq, List.flatten_append, centralLoop_chunks, localLoop_chunks,
    localLoop_files, localLoop_offset, centralLoop_offset, List.nil_append, List.flatten_nil,
    List.flatten_cons, List.append_nil, withOffsets_length, withOffsets_centralRecordsSize,
    Nat.zero_add, Nat.add_sub_cancel_left, List.append_assoc]

theorem build_files (z : MiniZip) : (build z).zip.files = withOffsets z.files 0 := by
  simp only [build, centralLoop_files, localLoop_files, List.nil_append]

/-! ## The bytes of the three headers -/

theorem toUint16_natCast (n : Nat) : toUint16 (n : Int) = n % 65536 := by
  unfold toUint16; omega

theorem eocdRecord_eq (n cs st : Nat) :
    eocdRecord n cs st =
      [0x50, 0x4B, 0x05, 0x06, 0, 0, 0, 0,
       byteOf (n % 65536), byteOf (n % 65536 / 256), byteOf (n % 65536), byteOf (n % 65536 / 256),
       byteOf (cs % 4294967296), byteOf (cs % 4294967296 / 256),
       byteOf (cs % 4294967296 / 65536), byteOf (cs % 4294967296 / 16777216),
       byteOf (st % 4294967296), byteOf (st % 4294967296 / 256),
       byteOf (st % 4294967296 / 65536), byteOf (st % 4294967296 / 16777216), 0, 0] := by
  have h0 : toUint16 0 = 0 := by decide
  have hs : toUint32 sigEOCD = 0x06054b50 := by decide
  simp only [eocdRecord, DataView.alloc, DataView.setUint16, DataView.setUint32, List.replicate,
    List.set_cons_zero, List.set_cons_succ, toUint16_natCast, toUint32_natCast, h0, hs]
  rfl

theorem localHeader_eq (f : ZipEntry) (nb : List Byte) :
    localHeader f nb =
      [0x50, 0x4B, 0x03, 0x04, 20, 0, 0, 0, 0, 0,
       byteOf (toUint16 f.dosTime), byteOf (toUint16 f.dosTime / 256),
       byteOf (toUint16 f.dosDate), byteOf (toUint16 f.dosDate / 256),
       byteOf (f.crc32 % 4294967296), byteOf (f.crc32 % 4294967296 / 256),
       byteOf (f.crc32 % 4294967296 / 65536), byteOf (f.crc32 % 4294967296 / 16777216),
       byteOf (f.dataUint8.length % 4294967296), byteOf (f.dataUint8.length % 4294967296 / 256),
       byteOf (f.dataUint8.length % 4294967296 / 65536),
       byteOf (f.dataUint8.length % 4294967296 / 16777216),
       byteOf (f.dataUint8.length % 4294967296), byteOf (f.dataUint8.length % 4294967296 / 256),
       byteOf (f.dataUint8.length % 4294967296 / 65536),
       byteOf (f.dataUint8.length % 4294967296 / 16777216),
       byteOf (nb.length % 65536), byteOf (nb.length % 65536 / 256), 0, 0] := by
  have h0 : toUint16 0 = 0 := by decide
  have hs : toUint32 sigLocal = 0x04034b50 := by decide
  have hv : toUint16 version = 20 := by decide
  have hg : toUint16 gpFlag = 0 := by decide
  have hm : toUint16 method = 0 := by decide
  simp only [localHeader, DataView.alloc, DataView.setUint16, DataView.setUint32, List.replicate,
    List.set_cons_zero, List.set_cons_succ, toUint16_natCast, toUint32_natCast, h0, hs, hv, hg, hm]
  rfl

theorem centralHeader_eq (f : ZipEntry) (nb : List Byte) :
    centralHeader f nb =
      [0x50, 0x4B, 0x01, 0x02, 20, 0, 20, 0, 0, 0, 0, 0,
       byteOf (toUint16 f.dosTime), byteOf (toUint16 f.dosTime / 256),
       byteOf (toUint16 f.dosDate), byteOf (toUint16 f.dosDate / 256),
       byteOf (f.crc32 % 4294967296), byteOf (f.crc32 % 4294967296 / 256),
       byteOf (f.crc32 % 4294967296 / 65536), byteOf (f.crc32 % 4294967296 / 16777216),
       byteOf (f.dataUint8.length % 4294967296), byteOf (f.dataUint8.length % 4294967296 / 256),
       byteOf (f.dataUint8.length % 4294967296 / 65536),
       byteOf (f.dataUint8.length % 4294967296 / 16777216),
       byteOf (f.dataUint8.length % 4294967296), byteOf (f.dataUint8.length % 4294967296 / 256),
       byteOf (f.dataUint8.length % 4294967296 / 65536),
       byteOf (f.dataUint8.length % 4294967296 / 16777216),
       byteOf (nb.length % 65536), byteOf (nb.length % 65536 / 256),
       0, 0, 0, 0, 0, 0, 0, 0, 0, 0, 0, 0,
       byteOf (f.localHeaderOffset % 4294967296), byteOf (f.localHeaderOffset % 4294967296 / 256),
       byteOf (f.localHeaderOffset % 4294967296 / 65536),
       byteOf (f.localHeaderOffset % 4294967296 / 16777216)] := by
  have h0 : toUint16 0 = 0 := by decide
  have hs : toUint32 sigCentral = 0x02014b50 := by decide
  have hv : toUint16 version = 20 := by decide
  have hvm : toUint16 versionMadeBy = 20 := by decide
  have hg : toUint16 gpFlag = 0 := by decide
  have hm : toUint16 method = 0 := by decide
  have he : toUint32 externalAttrs = 0 := by decide
  simp only [centralHeader, DataView.alloc, DataView.setUint16, DataView.setUint32, List.replicate,
    List.set_cons_zero, List.set_cons_succ, toUint16_natCast, toUint32_natCast, h0, hs, hv, hvm,
    hg, hm, he]
  rfl

theorem localHeader_length (f : ZipEntry) (nb : List Byte) : (localHeader f nb).length = 30 := by
  rw [localHeader_eq]; rfl

theorem centralHeader_length (f : ZipEntry) (nb : List Byte) :
    (centralHeader f nb).length = 46 := by
  rw [centralHeader_eq]; rfl

theorem eocdRecord_length (n cs st : Nat) : (eocdRecord n cs st).length = 22 := by
  rw [eocdRecord_eq]; rfl

theorem localRecord_length (f : ZipEntry) : (localRecord f).length = localRecordSize f := by
  simp only [localRecord, List.length_append, localHeader_length, localRecordSize]
  omega

theorem centralRecord_length (f : ZipEntry) : (centralRecord f).length = centralRecordSize f := by
  simp only [centralRecord, List.length_append, centralHeader_length, centralRecordSize]

theorem localRecords_length (files : List ZipEntry) :
    ((files.map localRecord).flatten).length = localRecordsSize files := by
  induction files with
  | nil => rfl
  | cons f files ih =>
    simp only [List.map_cons, List.flatten_cons, List.length_append, ih, localRecord_length,
      localRecordsSize, List.sum_cons]

theorem centralRecords_length (files : List ZipEntry) :
    ((files.map centralRecord).flatten).length = centralRecordsSize files := by
  induction files with
  | nil => rfl
  | cons f files ih =>
    simp only [List.map_cons, List.flatten_cons, List.length_append, ih, centralRecord_length,
      centralRecordsSize, List.sum_cons]

/-! ## Reading numbers back -/

theorem byteOf_val (n : Nat) : (byteOf n).val = n % 256 := rfl

theorem readUint16_append_right (a r : List Byte) (k : Nat) :
    readUint16 (a ++ r) (a.length + k) = readUint16 r k := by
  unfold readUint16
  rw [List.getD_append_right _ _ _ _ (by omega), List.getD_append_right _ _ _ _ (by omega)]
  congr 3 <;> congr 1 <;> omega

theorem readUint32_append_right (a r : List Byte) (k : Nat) :
    readUint32 (a ++ r) (a.length + k) = readUint32 r k := by
  unfold readUint32
  rw [List.getD_append_right _ _ _ _ (by omega), List.getD_append_right _ _ _ _ (by omega),
    List.getD_append_right _ _ _ _ (by omega), List.getD_append_right _ _ _ _ (by omega)]
  have e0 : a.length + k - a.length = k := by omega
  have e1 : a.length + k + 1 - a.length = k + 1 := by omega
  have e2 : a.length + k + 2 - a.length = k + 2 := by omega
  have e3 : a.length + k + 3 - a.length = k + 3 := by omega
  rw [e0, e1, e2, e3]

theorem readUint16_append_left (r b : List Byte) (k : Nat) (h : k + 2 ≤ r.length) :
    readUint16 (r ++ b) k = readUint16 r k := by
  unfold readUint16
  rw [List.getD_append _ _ _ _ (by omega), List.getD_append _ _ _ _ (by omega)]

theorem readUint32_append_left (r b : List Byte) (k : Nat) (h : k + 4 ≤ r.length) :
    readUint32 (r ++ b) k = readUint32 r k := by
  unfold readUint32
  rw [List.getD_append _ _ _ _ (by omega), List.getD_append _ _ _ _ (by omega),
    List.getD_append _ _ _ _ (by omega), List.getD_append _ _ _ _ (by omega)]

theorem slice_append_right (a r : List Byte) (k n : Nat) :
    slice (a ++ r) (a.length + k) n = slice r k n := by
  unfold slice
  rw [List.drop_append]

theorem slice_head (b c : List Byte) : slice (b ++ c) 0 b.length = b := by
  unfold slice
  rw [List.drop_zero, List.take_left]

theorem eocdOf_append (a e : List Byte) (h : e.length = 22) : eocdOf (a ++ e) = e := by
  unfold eocdOf
  rw [List.length_append, h, Nat.add_sub_cancel]
  exact List.drop_left _ _

/-! ## The table-driven CRC equals the reference CRC -/

theorem crcRefBit_lt {r : Nat} (h : r < 4294967296) : crcRefBit r < 4294967296 := by
  unfold crcRefBit
  split
  · exact Nat.xor_lt_two_pow (n := 32) (by omega) (by decide)
  · omega

theorem toUint32_crc32TableStep (c : Int) :
    toUint32 (crc32TableStep c) = crcRefBit (toUint32 c) := by
  have hc := toUint32_lt c
  have hand : jsAnd c 1 = ((toUint32 c % 2 : Nat) : Int) := by
    unfold jsAnd toInt32
    have h1 : toUint32 1 = 1 := by decide
    have h2 : Nat.land (toUint32 c) 1 = toUint32 c % 2 := Nat.and_one_is_mod _
    rw [h1, h2]
    split <;> omega
  have hshr : jsUshr c 1 = toUint32 c / 2 := by
    rw [jsUshr_eq c 1 (by decide)]; rfl
  unfold crc32TableStep crcRefBit
  rw [hand, hshr]
  by_cases h : toUint32 c % 2 = 1
  · have h0 : ((toUint32 c % 2 : Nat) : Int) ≠ 0 := by omega
    rw [if_pos h0, if_pos h, toUint32_jsXor, toUint32_of_lt (by omega : toUint32 c / 2 < 4294967296)]
    have : toUint32 (crcPoly : Int) = 0xEDB88320 := by decide
    rw [this, Nat.xor_comm]
  · have h0 : ¬ ((toUint32 c % 2 : Nat) : Int) ≠ 0 := by omega
    rw [if_neg h0, if_neg h, toUint32_of_lt (by omega : toUint32 c / 2 < 4294967296)]

theorem toUint32_iterate_crc32TableStep (k : Nat) (c : Int) :
    toUint32 (Nat.iterate crc32TableStep k c) = Nat.iterate crcRefBit k (toUint32 c) := by
  induction k generalizing c with
  | zero => simp only [Function.iterate_zero, id_eq]
  | succ k ih =>
    rw [Function.iterate_succ_apply, Function.iterate_succ_apply, ih, toUint32_crc32TableStep]

theorem crc32TableEntry_eq {n : Nat} (h : n < 4294967296) :
    crc32TableEntry n = Nat.iterate crcRefBit 8 n := by
  unfold crc32TableEntry
  rw [jsUshr_eq _ 0 (by decide), toUint32_iterate_crc32TableStep, toUint32_of_lt h]
  simp

theorem crc32Table_getD {i : Nat} (h : i < 256) :
    crc32Table.getD i 0 = Nat.iterate crcRefBit 8 i := by
  unfold crc32Table
  rw [List.getD_eq_getElem _ _ (by simpa using h)]
  simp only [List.getElem_map, List.getElem_range]
  exact crc32TableEntry_eq (by omega)

theorem crcRefBit_xor (x y : Nat) : crcRefBit (x ^^^ y) = crcRefBit x ^^^ crcRefBit y := by
  unfold crcRefBit
  have hx : x % 2 = 0 ∨ x % 2 = 1 := by omega
  have hy : y % 2 = 0 ∨ y % 2 = 1 := by omega
  have hxy : (x ^^^ y) % 2 = (x + y) % 2 := Nat.xor_mod_two_eq
  rw [Nat.xor_div_two]
  rcases hx with hx | hx <;> rcases hy with hy | hy
  · rw [if_neg (by omega), if_neg (by omega), if_neg (by omega)]
  · rw [if_pos (by omega), if_neg (by omega), if_pos (by omega), Nat.xor_assoc]
  · rw [if_pos (by omega), if_pos (by omega), if_neg (by omega), Nat.xor_assoc,
      Nat.xor_comm (y / 2), Nat.xor_assoc]
  · rw [if_neg (by omega), if_pos (by omega), if_pos (by omega), Nat.xor_assoc,
      ← Nat.xor_assoc 3988292384, Nat.xor_comm 3988292384 (y / 2), Nat.xor_assoc (y / 2),
      Nat.xor_self, Nat.xor_zero]

theorem iterate_crcRefBit_xor (k x y : Nat) :
    Nat.iterate crcRefBit k (x ^^^ y) = Nat.iterate crcRefBit k x ^^^ Nat.iterate crcRefBit k y := by
  induction k generalizing x y with
  | zero => simp only [Function.iterate_zero, id_eq]
  | succ k ih => simp only [Function.iterate_succ, Function.comp_apply]; rw [crcRefBit_xor, ih]

theorem iterate_crcRefBit_mul (k y : Nat) : Nat.iterate crcRefBit k (2 ^ k * y) = y := by
  induction k generalizing y with
  | zero => simp
  | succ k ih =>
    simp only [Function.iterate_succ, Function.comp_apply]
    have h : crcRefBit (2 ^ (k + 1) * y) = 2 ^ k * y := by
      unfold crcRefBit
      have : 2 ^ (k + 1) * y = 2 * (2 ^ k * y) := by ring
      rw [this, if_neg (by omega)]
      omega
    rw [h, ih]

theorem div_256_eq_shiftRight (x : Nat) : x / 256 = x >>> 8 := by
  rw [Nat.shiftRight_eq_div_pow]

theorem split_low_byte (x : Nat) : x = (x &&& 255) ^^^ (256 * (x / 256)) := by
  apply Nat.eq_of_testBit_eq
  intro i
  have h255 : (255 : Nat) = 2 ^ 8 - 1 := by decide
  have h256 : (256 : Nat) = 2 ^ 8 := by decide
  rw [div_256_eq_shiftRight, Nat.testBit_xor, Nat.testBit_and, h255, Nat.testBit_two_pow_sub_one,
    h256, Nat.testBit_mul_pow_two, Nat.testBit_shiftRight]
  by_cases hi : i < 8
  · simp [hi, Nat.not_le.mpr hi]
  · have h8 : 8 ≤ i := by omega
    have e : 8 + (i - 8) = i := by omega
    simp [hi, h8, e]

theorem xor_div_256 (a b : Nat) : (a ^^^ b) / 256 = a / 256 ^^^ b / 256 := by
  rw [div_256_eq_shiftRight, div_256_eq_shiftRight, div_256_eq_shiftRight]
  apply Nat.eq_of_testBit_eq
  intro i
  simp only [Nat.testBit_shiftRight, Nat.testBit_xor]

theorem crc_table_identity (u : Nat) (b : Byte) :
    (u / 256) ^^^ Nat.iterate crcRefBit 8 ((u ^^^ b.val) &&& 255)
      = Nat.iterate crcRefBit 8 (u ^^^ b.val) := by
  have hb : b.val / 256 = 0 := by have := b.isLt; omega
  have hdiv : (u ^^^ b.val) / 256 = u / 256 := by
    rw [xor_div_256, hb, Nat.xor_zero]
  conv_rhs => rw [split_low_byte (u ^^^ b.val)]
  rw [iterate_crcRefBit_xor, hdiv]
  have := iterate_crcRefBit_mul 8 (u / 256)
  have e : (2:Nat) ^ 8 = 256 := by decide
  rw [e] at this
  rw [this, Nat.xor_comm]

theorem toUint32_crc32Step (crc : Int) (b : Byte) :
    toUint32 (crc32Step crc b) = crcRefByte (toUint32 crc) b := by
  have hb : toUint32 ((b.val : Nat) : Int) = b.val := toUint32_of_lt (by have := b.isLt; omega)
  have hidx : (jsAnd (jsXor crc b.val) 0xFF).toNat = (toUint32 crc ^^^ b.val) &&& 255 := by
    have h1 := toUint32_jsAnd (jsXor crc b.val) 0xFF
    rw [toUint32_jsXor, hb] at h1
    have h2 : toUint32 0xFF = 255 := by decide
    rw [h2] at h1
    have hlt : (toUint32 crc ^^^ b.val) &&& 255 < 2 ^ 8 := Nat.and_lt_two_pow _ (by decide)
    have h3 : jsAnd (jsXor crc b.val) 0xFF = (((toUint32 crc ^^^ b.val) &&& 255 : Nat) : Int) := by
      unfold jsAnd toInt32
      rw [toUint32_jsXor, hb, h2]
      have : Nat.land (toUint32 crc ^^^ b.val) 255 = (toUint32 crc ^^^ b.val) &&& 255 := rfl
      rw [this]
      split <;> omega
    rw [h3]; rfl
  have hlt : (toUint32 crc ^^^ b.val) &&& 255 < 256 := Nat.and_lt_two_pow (n := 8) _ (by decide)
  unfold crc32Step crcRefByte
  rw [toUint32_jsXor, hidx, crc32Table_getD hlt, jsUshr_eq _ 8 (by decide),
    toUint32_of_lt (by have := toUint32_lt crc; omega)]
  have hT : Nat.iterate crcRefBit 8 ((toUint32 crc ^^^ b.val) &&& 255) < 4294967296 := by
    have hi : ∀ k x, x < 4294967296 → Nat.iterate crcRefBit k x < 4294967296 := by
      intro k
      induction k with
      | zero => intro x hx; simpa using hx
      | succ k ih => intro x hx; rw [Function.iterate_succ_apply]; exact ih _ (crcRefBit_lt hx)
    exact hi 8 _ (by omega)
  rw [toUint32_of_lt hT]
  have e : (2:Nat) ^ 8 = 256 := by decide
  rw [e]
  exact crc_table_identity _ _

theorem toUint32_foldl_crc32Step (bs : List Byte) (crc : Int) :
    toUint32 (bs.foldl crc32Step crc) = bs.foldl crcRefByte (toUint32 crc) := by
  induction bs generalizing crc with
  | nil => rfl
  | cons b bs ih => rw [List.foldl_cons, List.foldl_cons, ih, toUint32_crc32Step]

theorem crc32_eq_reference (bs : List Byte) : crc32 bs = crc32Reference bs := by
  unfold crc32 crc32Reference
  rw [jsUshr_eq _ 0 (by decide), toUint32_jsXor, toUint32_foldl_crc32Step]
  have h1 : toUint32 (jsXor 0 (-1)) = 0xFFFFFFFF := by decide
  have h2 : toUint32 (-1) = 0xFFFFFFFF := by decide
  rw [h1, h2]
  simp

theorem crc32_lt (bs : List Byte) : crc32 bs < 4294967296 := jsUshr_lt _ _

/-! ## The trailer -/

theorem build_eocd (z : MiniZip) :
    eocdOf (build z).bytes =
      eocdRecord z.files.length (centralRecordsSize z.files) (localRecordsSize z.files) := by
  rw [build_bytes, ← List.append_assoc]
  exact eocdOf_append _ _ (eocdRecord_length _ _ _)

theorem eocd_entriesOnThisDisk (z : MiniZip) :
    readUint16 (eocdOf (build z).bytes) 8 = z.files.length % 65536 := by
  rw [build_eocd, eocdRecord_eq]
  simp only [readUint16, List.getD_cons_succ, List.getD_cons_zero, byteOf_val]
  omega

theorem eocd_totalEntries (z : MiniZip) :
    readUint16 (eocdOf (build z).bytes) 10 = z.files.length % 65536 := by
  rw [build_eocd, eocdRecord_eq]
  simp only [readUint16, List.getD_cons_succ, List.getD_cons_zero, byteOf_val]
  omega

theorem eocd_centralDirSize (z : MiniZip) :
    readUint32 (eocdOf (build z).bytes) 12 = centralRecordsSize z.files % 4294967296 := by
  rw [build_eocd, eocdRecord_eq]
  simp only [readUint32, List.getD_cons_succ, List.getD_cons_zero, byteOf_val]
  omega

theorem eocd_centralDirOffset (z : MiniZip) :
    readUint32 (eocdOf (build z).bytes) 16 = localRecordsSize z.files % 4294967296 := by
  rw [build_eocd, eocdRecord_eq]
  simp only [readUint32, List.getD_cons_succ, List.getD_cons_zero, byteOf_val]
  omega

theorem addTextFile_files (z : MiniZip) (path text : JSString) (now : JSDate) :
    (addTextFile z path text now).files = z.files ++ [newEntry (path, text, now)] := rfl

theorem addAll_files (z : MiniZip) (adds : List (JSString × JSString × JSDate)) :
    (addAll z adds).files = z.files ++ adds.map newEntry := by
  induction adds generalizing z with
  | nil => simp [addAll]
  | cons a adds ih =>
    simp only [addAll, ih, addTextFile_files, List.map_cons, List.append_assoc,
      List.singleton_append]

theorem textToUint8_repeatA (n : Nat) : textToUint8 (repeatA n) = List.replicate n 0x61 := by
  unfold textToUint8 repeatA
  induction n with
  | zero => rfl
  | succ n ih =>
    rw [List.replicate_succ, List.replicate_succ]
    have h1 : isHighSurrogate 0x61 = false := by decide
    have h2 : isLowSurrogate 0x61 = false := by decide
    have h3 : utf8EncodeScalar (0x61 : CodeUnit).val = [0x61] := by decide
    simp only [utf8EncodeFrom, h1, h2, h3, ih, Bool.false_eq_true, if_false, List.singleton_append]

theorem replaceBackslashes_repeatA (n : Nat) : replaceBackslashes (repeatA n) = repeatA n := by
  unfold replaceBackslashes repeatA
  rw [List.map_replicate]
  rfl

theorem uniformZip_files (count nameLen textLen : Nat) :
    (uniformZip count nameLen textLen).files =
      List.replicate count (newEntry (repeatA nameLen, repeatA textLen, sampleDate)) := by
  unfold uniformZip uniformAdds
  rw [addAll_files, List.map_replicate]
  rfl

theorem localRecordSize_uniform (nameLen textLen : Nat) :
    localRecordSize (newEntry (repeatA nameLen, repeatA textLen, sampleDate))
      = 30 + nameLen + textLen := by
  simp only [localRecordSize, newEntry, replaceBackslashes_repeatA, textToUint8_repeatA,
    List.length_replicate]

theorem centralRecordSize_uniform (nameLen textLen : Nat) :
    centralRecordSize (newEntry (repeatA nameLen, repeatA textLen, sampleDate))
      = 46 + nameLen := by
  simp only [centralRecordSize, newEntry, replaceBackslashes_repeatA, textToUint8_repeatA,
    List.length_replicate]

theorem localRecordsSize_replicate (k : Nat) (f : ZipEntry) :
    localRecordsSize (List.replicate k f) = k * localRecordSize f := by
  unfold localRecordsSize
  rw [List.map_replicate, List.sum_replicate, smul_eq_mul]

theorem centralRecordsSize_replicate (k : Nat) (f : ZipEntry) :
    centralRecordsSize (List.replicate k f) = k * centralRecordSize f := by
  unfold centralRecordsSize
  rw [List.map_replicate, List.sum_replicate, smul_eq_mul]

/-! ## Offsets -/

theorem localRecordsSize_append (a b : List ZipEntry) :
    localRecordsSize (a ++ b) = localRecordsSize a + localRecordsSize b := by
  simp only [localRecordsSize, List.map_append, List.sum_append]

theorem centralRecordsSize_append (a b : List ZipEntry) :
    centralRecordsSize (a ++ b) = centralRecordsSize a + centralRecordsSize b := by
  simp only [centralRecordsSize, List.map_append, List.sum_append]

theorem withOffsets_append (a b : List ZipEntry) (o : Nat) :
    withOffsets (a ++ b) o = withOffsets a o ++ withOffsets b (o + localRecordsSize a) := by
  induction a generalizing o with
  | nil => simp [withOffsets, localRecordsSize]
  | cons f a ih =>
    have e : localRecordsSize (f :: a) = localRecordSize f + localRecordsSize a := rfl
    rw [List.cons_append, withOffsets, ih, e, withOffsets, Nat.add_assoc, List.cons_append]

theorem slice_append_right_of_length (a r : List Byte) (p k n : Nat) (h : a.length = p) :
    slice (a ++ r) (p + k) n = slice r k n := by
  subst h; exact slice_append_right _ _ _ _

theorem slice_head_of_length (b c : List Byte) (n : Nat) (h : b.length = n) :
    slice (b ++ c) 0 n = b := by
  subst h; exact slice_head _ _

/-- The central header found in the archive for the entry behind `pre`. -/
theorem centralHeaderAt_split (pre post : List ZipEntry) (f : ZipEntry) :
    centralHeaderAt (pre ++ f :: post) (build { files := pre ++ f :: post }).bytes pre.length =
      centralHeader { f with localHeaderOffset := localRecordsSize pre } (textToUint8 f.name) := by
  unfold centralHeaderAt
  rw [build_bytes, List.take_left]
  rw [← Nat.add_zero (localRecordsSize (pre ++ f :: post) + centralRecordsSize pre), Nat.add_assoc,
    slice_append_right_of_length _ _ _ _ _ (localRecords_length _)]
  rw [withOffsets_append, List.map_append, List.flatten_append, List.append_assoc,
    slice_append_right_of_length _ _ _ _ _
      ((centralRecords_length _).trans (withOffsets_centralRecordsSize _ _))]
  simp only [withOffsets, List.map_cons, List.flatten_cons, centralRecord, List.append_assoc,
    Nat.zero_add]
  exact slice_head_of_length _ _ _ (centralHeader_length _ _)

theorem split_at_index (files : List ZipEntry) (i : Nat) (h : i < files.length) :
    files = files.take i ++ files[i] :: files.drop (i + 1) := by
  rw [← List.drop_eq_getElem_cons h, List.take_append_drop]

theorem centralHeaderAt_build (z : MiniZip) (i : Nat) (h : i < z.files.length) :
    centralHeaderAt z.files (build z).bytes i =
      centralHeader { z.files[i] with localHeaderOffset := localRecordsSize (z.files.take i) }
        (textToUint8 z.files[i].name) := by
  have hs := split_at_index z.files i h
  have hl : (z.files.take i).length = i := by
    rw [List.length_take]; omega
  have := centralHeaderAt_split (z.files.take i) (z.files.drop (i + 1)) z.files[i]
  rw [← hs, hl] at this
  exact this

theorem centralHeader_localHeaderOffset (f : ZipEntry) (nb : List Byte) :
    readUint32 (centralHeader f nb) 42 = f.localHeaderOffset % 4294967296 := by
  rw [centralHeader_eq]
  simp only [readUint32, List.getD_cons_succ, List.getD_cons_zero, byteOf_val]
  omega

theorem central_offset_field (z : MiniZip) (i : Nat) (h : i < z.files.length) :
    readUint32 (centralHeaderAt z.files (build z).bytes i) 42
      = localRecordsSize (z.files.take i) % 4294967296 := by
  rw [centralHeaderAt_build z i h, centralHeader_localHeaderOffset]

/-! ## Reading the archive back -/

theorem readUint32_inside (x hdr t : List Byte) (p k : Nat) (hx : x.length = p)
    (hk : k + 4 ≤ hdr.length) : readUint32 (x ++ (hdr ++ t)) (p + k) = readUint32 hdr k := by
  subst hx
  rw [readUint32_append_right, readUint32_append_left _ _ _ hk]

theorem readUint16_inside (x hdr t : List Byte) (p k : Nat) (hx : x.length = p)
    (hk : k + 2 ≤ hdr.length) : readUint16 (x ++ (hdr ++ t)) (p + k) = readUint16 hdr k := by
  subst hx
  rw [readUint16_append_right, readUint16_append_left _ _ _ hk]

theorem slice_inside (x a b t : List Byte) (p : Nat) (hx : x.length + a.length = p) :
    slice (x ++ (a ++ (b ++ t))) p b.length = b := by
  subst hx
  rw [← List.append_assoc, ← List.length_append, ← Nat.add_zero (x ++ a).length,
    slice_append_right, slice_head]

/-- One step of the walk over the central directory. -/
theorem readCentral_succ (bytes x t y u : List Byte) (f : ZipEntry) (nb : List Byte) (k pos : Nat)
    (hC : bytes = x ++ (centralHeader f nb ++ (nb ++ t))) (hx : x.length = pos)
    (hL : bytes = y ++ (localHeader f nb ++ (nb ++ (f.dataUint8 ++ u))))
    (hy : y.length = f.localHeaderOffset)
    (hn : nb.length < 65536) (ho : f.localHeaderOffset < 4294967296)
    (hd : f.dataUint8.length < 4294967296) :
    readCentral bytes (k + 1) pos =
      match readCentral bytes k (pos + 46 + nb.length) with
      | none => none
      | some rest =>
        some ({ name := nb, data := f.dataUint8, crc32 := f.crc32 % 4294967296 } :: rest) := by
  have hlenC := centralHeader_length f nb
  have hlenL := localHeader_length f nb
  have c0 : readUint32 bytes pos = 0x02014b50 := by
    have := readUint32_inside x (centralHeader f nb) (nb ++ t) pos 0 hx (by omega)
    rw [Nat.add_zero, ← hC] at this
    rw [this, centralHeader_eq]
    simp only [readUint32, List.getD_cons_succ, List.getD_cons_zero]
    decide
  have c16 : readUint32 bytes (pos + 16) = f.crc32 % 4294967296 := by
    rw [hC, readUint32_inside x _ _ pos 16 hx (by omega), centralHeader_eq]
    simp only [readUint32, List.getD_cons_succ, List.getD_cons_zero, byteOf_val]
    omega
  have c20 : readUint32 bytes (pos + 20) = f.dataUint8.length := by
    rw [hC, readUint32_inside x _ _ pos 20 hx (by omega), centralHeader_eq]
    simp only [readUint32, List.getD_cons_succ, List.getD_cons_zero, byteOf_val]
    omega
  have c28 : readUint16 bytes (pos + 28) = nb.length := by
    rw [hC, readUint16_inside x _ _ pos 28 hx (by omega), centralHeader_eq]
    simp only [readUint16, List.getD_cons_succ, List.getD_cons_zero, byteOf_val]
    omega
  have c30 : readUint16 bytes (pos + 30) = 0 := by
    rw [hC, readUint16_inside x _ _ pos 30 hx (by omega), centralHeader_eq]
    simp only [readUint16, List.getD_cons_succ, List.getD_cons_zero]
    decide
  have c32 : readUint16 bytes (pos + 32) = 0 := by
    rw [hC, readUint16_inside x _ _ pos 32 hx (by omega), centralHeader_eq]
    simp only [readUint16, List.getD_cons_succ, List.getD_cons_zero]
    decide
  have c42 : readUint32 bytes (pos + 42) = f.localHeaderOffset := by
    rw [hC, readUint32_inside x _ _ pos 42 hx (by omega), centralHeader_eq]
    simp only [readUint32, List.getD_cons_succ, List.getD_cons_zero, byteOf_val]
    omega
  have cname : slice bytes (pos + 46) nb.length = nb := by
    rw [hC]; exact slice_inside x _ nb t _ (by omega)
  have l0 : readUint32 bytes f.localHeaderOffset = 0x04034b50 := by
    have := readUint32_inside y (localHeader f nb) (nb ++ (f.dataUint8 ++ u)) _ 0 hy (by omega)
    rw [Nat.add_zero, ← hL] at this
    rw [this, localHeader_eq]
    simp only [readUint32, List.getD_cons_succ, List.getD_cons_zero]
    decide
  have l26 : readUint16 bytes (f.localHeaderOffset + 26) = nb.length := by
    rw [hL, readUint16_inside y _ _ _ 26 hy (by omega), localHeader_eq]
    simp only [readUint16, List.getD_cons_succ, List.getD_cons_zero, byteOf_val]
    omega
  have l28 : readUint16 bytes (f.localHeaderOffset + 28) = 0 := by
    rw [hL, readUint16_inside y _ _ _ 28 hy (by omega), localHeader_eq]
    simp only [readUint16, List.getD_cons_succ, List.getD_cons_zero]
    decide
  have ldata : slice bytes (f.localHeaderOffset + 30 + nb.length) f.dataUint8.length
      = f.dataUint8 := by
    rw [hL]
    have e : y ++ (localHeader f nb ++ (nb ++ (f.dataUint8 ++ u)))
        = y ++ ((localHeader f nb ++ nb) ++ (f.dataUint8 ++ u)) := by
      simp only [List.append_assoc]
    rw [e]
    exact slice_inside y _ _ u _ (by rw [List.length_append]; omega)
  rw [readCentral]
  simp only [c0, c16, c20, c28, c30, c32, c42, cname, l0, l26, l28, ldata, ne_eq,
    not_true_eq_false, if_false, Nat.add_zero]

theorem build_central_view (done rest : List ZipEntry) (f : ZipEntry) :
    ∃ x t, (build { files := done ++ f :: rest }).bytes =
        x ++ (centralHeader { f with localHeaderOffset := localRecordsSize done }
                (textToUint8 f.name) ++ (textToUint8 f.name ++ t)) ∧
      x.length = localRecordsSize (done ++ f :: rest) + centralRecordsSize done := by
  refine ⟨((done ++ f :: rest).map localRecord).flatten ++
      ((withOffsets done 0).map centralRecord).flatten,
    ((withOffsets rest (0 + localRecordsSize done + localRecordSize f)).map centralRecord).flatten
      ++ eocdRecord (done ++ f :: rest).length (centralRecordsSize (done ++ f :: rest))
          (localRecordsSize (done ++ f :: rest)), ?_, ?_⟩
  · rw [build_bytes, withOffsets_append]
    simp only [withOffsets, List.map_append, List.map_cons, List.flatten_append, List.flatten_cons,
      centralRecord, List.append_assoc, Nat.zero_add]
  · rw [List.length_append, localRecords_length, centralRecords_length,
      withOffsets_centralRecordsSize]

theorem build_local_view (done rest : List ZipEntry) (f : ZipEntry) :
    ∃ y u, (build { files := done ++ f :: rest }).bytes =
        y ++ (localHeader f (textToUint8 f.name) ++ (textToUint8 f.name ++ (f.dataUint8 ++ u))) ∧
      y.length = localRecordsSize done := by
  refine ⟨(done.map localRecord).flatten,
    (rest.map localRecord).flatten ++
      (((withOffsets (done ++ f :: rest) 0).map centralRecord).flatten ++
        eocdRecord (done ++ f :: rest).length (centralRecordsSize (done ++ f :: rest))
          (localRecordsSize (done ++ f :: rest))), ?_, ?_⟩
  · rw [build_bytes]
    simp only [List.map_append, List.map_cons, List.flatten_append, List.flatten_cons,
      localRecord, List.append_assoc]
  · exact localRecords_length _

theorem dataLength_le_localRecordSize (f : ZipEntry) : f.dataUint8.length ≤ localRecordSize f := by
  unfold localRecordSize; omega

/-- The walk over the central directory of a built archive returns the entries
that are still to be visited, in order. -/
theorem readCentral_build (todo done : List ZipEntry)
    (hn : ∀ f ∈ done ++ todo, (textToUint8 f.name).length < 65536)
    (hs : localRecordsSize (done ++ todo) < 4294967296) :
    readCentral (build { files := done ++ todo }).bytes todo.length
        (localRecordsSize (done ++ todo) + centralRecordsSize done)
      = some (todo.map readBack) := by
  induction todo generalizing done with
  | nil => rfl
  | cons f rest ih =>
    obtain ⟨x, t, hC, hx⟩ := build_central_view done rest f
    obtain ⟨y, u, hL, hy⟩ := build_local_view done rest f
    have hsz : localRecordsSize (done ++ f :: rest)
        = localRecordsSize done + (localRecordSize f + localRecordsSize rest) := by
      rw [localRecordsSize_append]; rfl
    have hd := dataLength_le_localRecordSize f
    have step := readCentral_succ _ x t y u
      { f with localHeaderOffset := localRecordsSize done } (textToUint8 f.name) rest.length _
      hC hx hL hy (hn f (by simp)) (by show localRecordsSize done < _; omega)
      (by show f.dataUint8.length < _; omega)
    rw [List.length_cons, step]
    have e1 : done ++ f :: rest = (done ++ [f]) ++ rest := by simp
    have e2 : localRecordsSize (done ++ f :: rest) + centralRecordsSize done + 46
          + (textToUint8 f.name).length
        = localRecordsSize (done ++ f :: rest) + centralRecordsSize (done ++ [f]) := by
      rw [centralRecordsSize_append]
      simp only [centralRecordsSize, centralRecordSize, List.map_cons, List.map_nil, List.sum_cons,
        List.sum_nil]
      omega
    rw [e2]
    have ih' := ih (done ++ [f]) (by rw [← e1]; exact hn) (by rw [← e1]; exact hs)
    rw [← e1] at ih'
    rw [ih']
    rfl

/-- Reading back the archive of any builder whose entries fit the field widths. -/
theorem readArchive_build (z : MiniZip) (hc : z.files.length < 65536)
    (hn : ∀ f ∈ z.files, (textToUint8 f.name).length < 65536)
    (hs : localRecordsSize z.files < 4294967296) :
    readArchive (build z).bytes = some (z.files.map readBack) := by
  have hb := build_bytes z
  have hlen : (build z).bytes.length
      = localRecordsSize z.files + centralRecordsSize z.files + 22 := by
    rw [hb, List.length_append, List.length_append, localRecords_length, centralRecords_length,
      withOffsets_centralRecordsSize, eocdRecord_length]
    omega
  have hx : ((z.files.map localRecord).flatten ++
      ((withOffsets z.files 0).map centralRecord).flatten).length
        = localRecordsSize z.files + centralRecordsSize z.files := by
    rw [List.length_append, localRecords_length, centralRecords_length,
      withOffsets_centralRecordsSize]
  have hb' : (build z).bytes = ((z.files.map localRecord).flatten ++
      ((withOffsets z.files 0).map centralRecord).flatten) ++
        (eocdRecord z.files.length (centralRecordsSize z.files) (localRecordsSize z.files)
          ++ []) := by
    rw [hb, List.append_nil, List.append_assoc]
  have hl := eocdRecord_length z.files.length (centralRecordsSize z.files)
    (localRecordsSize z.files)
  have e0 : readUint32 (build z).bytes (localRecordsSize z.files + centralRecordsSize z.files)
      = 0x06054b50 := by
    have := readUint32_inside _ (eocdRecord z.files.length (centralRecordsSize z.files)
      (localRecordsSize z.files)) [] _ 0 hx (by omega)
    rw [Nat.add_zero, ← hb'] at this
    rw [this, eocdRecord_eq]
    simp only [readUint32, List.getD_cons_succ, List.getD_cons_zero]
    decide
  have e10 : readUint16 (build z).bytes
      (localRecordsSize z.files + centralRecordsSize z.files + 10) = z.files.length := by
    rw [hb', readUint16_inside _ _ _ _ 10 hx (by omega), eocdRecord_eq]
    simp only [readUint16, List.getD_cons_succ, List.getD_cons_zero, byteOf_val]
    omega
  have e16 : readUint32 (build z).bytes
      (localRecordsSize z.files + centralRecordsSize z.files + 16) = localRecordsSize z.files := by
    rw [hb', readUint32_inside _ _ _ _ 16 hx (by omega), eocdRecord_eq]
    simp only [readUint32, List.getD_cons_succ, List.getD_cons_zero, byteOf_val]
    omega
  have hwalk := readCentral_build z.files [] (by simpa using hn) (by simpa using hs)
  simp only [List.nil_append, centralRecordsSize, List.map_nil, List.sum_nil, Nat.add_zero]
    at hwalk
  unfold readArchive
  rw [if_neg (by omega), hlen]
  simp only [Nat.add_sub_cancel, e0, e10, e16, ne_eq, not_true_eq_false, if_false]
  exact hwalk

/-! ## Lengths and entry counts -/

theorem build_length (z : MiniZip) :
    (build z).bytes.length = localRecordsSize z.files + centralRecordsSize z.files + 22 := by
  rw [build_bytes, List.length_append, List.length_append, localRecords_length,
    centralRecords_length, withOffsets_centralRecordsSize, eocdRecord_length]
  omega

theorem readCentral_length (bytes : List Byte) (k pos : Nat) (l : List ReadEntry)
    (h : readCentral bytes k pos = some l) : l.length = k := by
  induction k generalizing pos l with
  | zero =>
    rw [readCentral] at h
    cases h; rfl
  | succ k ih =>
    rw [readCentral] at h
    split at h
    · cases h
    · simp only at h
      split at h
      · cases h
      · split at h
        · cases h
        · rename_i rest hrest
          cases h
          rw [List.length_cons, ih _ _ hrest]

theorem readArchive_length (bytes : List Byte) (l : List ReadEntry)
    (h : readArchive bytes = some l) :
    l.length = readUint16 bytes (bytes.length - 22 + 10) := by
  unfold readArchive at h
  split at h
  · cases h
  · simp only at h
    split at h
    · cases h
    · exact readCentral_length _ _ _ _ h

theorem readUint16_eocdOf (bytes : List Byte) (k : Nat) :
    readUint16 bytes (bytes.length - 22 + k) = readUint16 (eocdOf bytes) k := by
  unfold readUint16 eocdOf
  simp only [List.getD_eq_getElem?_getD, List.getElem?_drop, Nat.add_assoc]

theorem readBack_newEntry (a : JSString × JSString × JSDate) :
    readBack (newEntry a) = expectedEntry a := by
  unfold readBack newEntry expectedEntry
  simp only [Nat.mod_eq_of_lt (crc32_lt _)]
  rw [crc32_eq_reference]

theorem localRecordsSize_eq_sum (files : List ZipEntry) :
    (files.map (fun f => 30 + (textToUint8 f.name).length + f.dataUint8.length)).sum
      = localRecordsSize files := rfl

theorem centralRecordsSize_eq_sum (files : List ZipEntry) :
    (files.map (fun f => 46 + (textToUint8 f.name).length)).sum = centralRecordsSize files := rfl

theorem uniformZip_length (count nameLen textLen : Nat) :
    (uniformZip count nameLen textLen).files.length = count := by
  rw [uniformZip_files, List.length_replicate]

theorem uniformZip_localRecordsSize_take (count nameLen textLen i : Nat) (h : i ≤ count) :
    localRecordsSize ((uniformZip count nameLen textLen).files.take i)
      = i * (30 + nameLen + textLen) := by
  rw [uniformZip_files, List.take_replicate, Nat.min_eq_left h, localRecordsSize_replicate,
    localRecordSize_uniform]

theorem uniformZip_localRecordsSize (count nameLen textLen : Nat) :
    localRecordsSize (uniformZip count nameLen textLen).files
      = count * (30 + nameLen + textLen) := by
  rw [uniformZip_files, localRecordsSize_replicate, localRecordSize_uniform]

theorem uniformZip_centralRecordsSize (count nameLen textLen : Nat) :
    centralRecordsSize (uniformZip count nameLen textLen).files = count * (46 + nameLen) := by
  rw [uniformZip_files, centralRecordsSize_replicate, centralRecordSize_uniform]

/-! ## Decoding the names -/

theorem unitOf_val (u : CodeUnit) : unitOf u.val = u := by
  apply Fin.ext
  show u.val % 65536 = u.val
  exact Nat.mod_eq_of_lt u.isLt

theorem utf16Encode_unit (u : CodeUnit) : utf16Encode u.val = [u] := by
  unfold utf16Encode
  rw [if_pos u.isLt, unitOf_val]

theorem utf16Encode_pair (h u : CodeUnit) (hh : isHighSurrogate h = true)
    (hu : isLowSurrogate u = true) :
    utf16Encode (0x10000 + (h.val - 0xD800) * 0x400 + (u.val - 0xDC00)) = [h, u] := by
  simp only [isHighSurrogate, isLowSurrogate, Bool.and_eq_true, decide_eq_true_eq] at hh hu
  unfold utf16Encode
  rw [if_neg (by omega)]
  have h1 : unitOf (0xD800 + (0x10000 + (h.val - 0xD800) * 0x400 + (u.val - 0xDC00) - 0x10000)
      / 0x400) = h := by
    apply Fin.ext
    show (0xD800 + (0x10000 + (h.val - 0xD800) * 0x400 + (u.val - 0xDC00) - 0x10000) / 0x400)
      % 65536 = h.val
    omega
  have h2 : unitOf (0xDC00 + (0x10000 + (h.val - 0xD800) * 0x400 + (u.val - 0xDC00) - 0x10000)
      % 0x400) = u := by
    apply Fin.ext
    show (0xDC00 + (0x10000 + (h.val - 0xD800) * 0x400 + (u.val - 0xDC00) - 0x10000) % 0x400)
      % 65536 = u.val
    omega
  rw [h1, h2]

theorem utf8DecodeFrom_one (c : Nat) (t : List Byte) (hc : c < 0x80) :
    utf8DecodeFrom none (byteOf c :: t) = utf16Encode c ++ utf8DecodeFrom none t := by
  have hv : (byteOf c).val = c := by
    rw [byteOf_val]
    omega
  rw [utf8DecodeFrom, if_pos (by omega), hv]
  unfold utf16Encode
  rw [if_pos (by omega)]
  rfl

theorem utf8DecodeFrom_continue (value missing c : Nat) (t : List Byte)
    (hm : 1 < missing) :
    utf8DecodeFrom (some (value, missing)) (byteOf (0x80 + c % 64) :: t)
      = utf8DecodeFrom (some (value * 64 + c % 64, missing - 1)) t := by
  have hv : (byteOf (0x80 + c % 64)).val % 64 = c % 64 := by
    rw [byteOf_val]
    omega
  rw [utf8DecodeFrom, if_neg (by omega), hv]

theorem utf8DecodeFrom_last (value c : Nat) (t : List Byte) :
    utf8DecodeFrom (some (value, 1)) (byteOf (0x80 + c % 64) :: t)
      = utf16Encode (value * 64 + c % 64) ++ utf8DecodeFrom none t := by
  have hv : (byteOf (0x80 + c % 64)).val % 64 = c % 64 := by
    rw [byteOf_val]
    omega
  rw [utf8DecodeFrom, if_pos (Nat.le_refl 1), hv]

theorem utf8DecodeFrom_two (c : Nat) (t : List Byte) (h1 : 0x80 ≤ c) (h2 : c < 0x800) :
    utf8DecodeFrom none (byteOf (0xC0 + c / 64) :: byteOf (0x80 + c % 64) :: t)
      = utf16Encode c ++ utf8DecodeFrom none t := by
  have hv : (byteOf (0xC0 + c / 64)).val = 0xC0 + c / 64 := by
    rw [byteOf_val]
    omega
  rw [utf8DecodeFrom, if_neg (by omega), if_neg (by omega), if_pos (by omega), hv,
    utf8DecodeFrom_last]
  congr 2
  omega

theorem utf8DecodeFrom_three (c : Nat) (t : List Byte) (h1 : 0x800 ≤ c) (h2 : c < 0x10000) :
    utf8DecodeFrom none
        (byteOf (0xE0 + c / 4096) :: byteOf (0x80 + c / 64 % 64) :: byteOf (0x80 + c % 64) :: t)
      = utf16Encode c ++ utf8DecodeFrom none t := by
  have hv : (byteOf (0xE0 + c / 4096)).val = 0xE0 + c / 4096 := by
    rw [byteOf_val]
    omega
  rw [utf8DecodeFrom, if_neg (by omega), if_neg (by omega), if_neg (by omega),
    if_pos (by omega), hv, utf8DecodeFrom_continue _ _ _ _ (by decide), utf8DecodeFrom_last]
  congr 2
  omega

theorem utf8DecodeFrom_four (c : Nat) (t : List Byte) (h1 : 0x10000 ≤ c) (h2 : c < 0x110000) :
    utf8DecodeFrom none
        (byteOf (0xF0 + c / 262144) :: byteOf (0x80 + c / 4096 % 64) ::
          byteOf (0x80 + c / 64 % 64) :: byteOf (0x80 + c % 64) :: t)
      = utf16Encode c ++ utf8DecodeFrom none t := by
  have hv : (byteOf (0xF0 + c / 262144)).val = 0xF0 + c / 262144 := by
    rw [byteOf_val]
    omega
  rw [utf8DecodeFrom, if_neg (by omega), if_neg (by omega), if_neg (by omega),
    if_neg (by omega), hv, utf8DecodeFrom_continue _ _ _ _ (by decide),
    utf8DecodeFrom_continue _ _ _ _ (by decide), utf8DecodeFrom_last]
  congr 2
  omega

theorem utf8DecodeFrom_scalar (c : Nat) (t : List Byte) (hc : c < 0x110000) :
    utf8DecodeFrom none (utf8EncodeScalar c ++ t) = utf16Encode c ++ utf8DecodeFrom none t := by
  unfold utf8EncodeScalar
  split_ifs with h1 h2 h3
  · exact utf8DecodeFrom_one c t h1
  · exact utf8DecodeFrom_two c t (by omega) h2
  · exact utf8DecodeFrom_three c t (by omega) h3
  · exact utf8DecodeFrom_four c t (by omega) hc

theorem utf8Decode_utf8EncodeFrom (s : JSString) :
    ∀ pending : Option CodeUnit,
      (∀ h, pending = some h → isHighSurrogate h = true) →
      isWellFormedFrom pending s = true →
      utf8DecodeFrom none (utf8EncodeFrom pending s) = pending.toList ++ s := by
  induction s with
  | nil =>
    intro pending _ hw
    cases pending with
    | none => rfl
    | some h => exact absurd hw (by simp [isWellFormedFrom])
  | cons u rest ih =>
    intro pending hp hw
    cases pending with
    | none =>
      rw [isWellFormedFrom] at hw
      rw [utf8EncodeFrom]
      by_cases hh : isHighSurrogate u = true
      · rw [if_pos hh] at hw ⊢
        exact ih (some u) (fun h e => by cases e; exact hh) hw
      · rw [if_neg hh] at hw ⊢
        by_cases hl : isLowSurrogate u = true
        · rw [if_pos hl] at hw
          exact absurd hw (by simp)
        · rw [if_neg hl] at hw ⊢
          rw [utf8DecodeFrom_scalar _ _ (by have := u.isLt; omega), utf16Encode_unit,
            ih none (fun h e => by cases e) hw]
          rfl
    | some h =>
      have hh := hp h rfl
      rw [isWellFormedFrom] at hw
      rw [utf8EncodeFrom]
      by_cases hl : isLowSurrogate u = true
      · rw [if_pos hl] at hw ⊢
        have hb : 0x10000 + (h.val - 0xD800) * 0x400 + (u.val - 0xDC00) < 0x110000 := by
          simp only [isHighSurrogate, isLowSurrogate, Bool.and_eq_true, decide_eq_true_eq]
            at hh hl
          omega
        rw [utf8DecodeFrom_scalar _ _ hb, utf16Encode_pair h u hh hl,
          ih none (fun h e => by cases e) hw]
        rfl
      · rw [if_neg hl] at hw
        exact absurd hw (by simp)

theorem utf8Decode_textToUint8 (s : JSString) (hw : isWellFormed s = true) :
    utf8Decode (textToUint8 s) = s :=
  utf8Decode_utf8EncodeFrom s none (fun h e => by cases e) hw

theorem textToUint8_ascii (s : JSString) (ha : ∀ u ∈ s, u.val < 0x80) :
    textToUint8 s = s.map (fun u => byteOf u.val) := by
  unfold textToUint8
  induction s with
  | nil => rfl
  | cons u rest ih =>
    have hu := ha u (List.mem_cons_self u rest)
    have hh : ¬ isHighSurrogate u = true := by
      simp only [isHighSurrogate, Bool.and_eq_true, decide_eq_true_eq]
      omega
    have hl : ¬ isLowSurrogate u = true := by
      simp only [isLowSurrogate, Bool.and_eq_true, decide_eq_true_eq]
      omega
    rw [utf8EncodeFrom, if_neg hh, if_neg hl, ih (fun v hv => ha v (List.mem_cons_of_mem u hv))]
    unfold utf8EncodeScalar
    rw [if_pos hu]
    rfl

theorem roundtrip_bytes_of_bounds (adds : List (JSString × JSString × JSDate))
    (hc : adds.length < 65536)
    (hn : ∀ a ∈ adds, (textToUint8 (replaceBackslashes a.1)).length < 65536)
    (hs : (adds.map (fun a => 30 + (textToUint8 (replaceBackslashes a.1)).length
            + (textToUint8 a.2.1).length)).sum < 4294967296) :
    readArchive (build (addAll new adds)).bytes = some (adds.map expectedEntry) := by
  have hf : (addAll new adds).files = adds.map newEntry := by
    rw [addAll_files]; rfl
  have h := readArchive_build (addAll new adds)
    (by rw [hf, List.length_map]; exact hc)
    (by
      intro f hfm
      rw [hf, List.mem_map] at hfm
      obtain ⟨a, ha, rfl⟩ := hfm
      exact hn a ha)
    (by
      rw [hf]
      unfold localRecordsSize
      rw [List.map_map]
      exact hs)
  rw [h, hf, List.map_map]
  refine congrArg some ?_
  apply List.map_congr_left
  intro a _
  exact readBack_newEntry a

theorem readArchiveNames_of_readArchive (bytes : List Byte)
    (adds : List (JSString × JSString × JSDate))
    (h : readArchive bytes = some (adds.map expectedEntry))
    (hw : ∀ a ∈ adds, isWellFormed (replaceBackslashes a.1) = true) :
    readArchiveNames bytes = some (adds.map expectedNamedEntry) := by
  unfold readArchiveNames
  rw [h, Option.map_some', List.map_map]
  refine congrArg some ?_
  apply List.map_congr_left
  intro a ha
  show ({ name := utf8Decode (textToUint8 (replaceBackslashes a.1))
          data := textToUint8 a.2.1
          crc32 := crc32Reference (textToUint8 a.2.1) } : NamedEntry) = expectedNamedEntry a
  rw [utf8Decode_textToUint8 _ (hw a ha)]
  rfl

theorem readArchive_too_many_entries :
    readArchive (build (addAll new (uniformAdds 65536 1 0))).bytes
      ≠ some ((uniformAdds 65536 1 0).map expectedEntry) := by
  intro h
  have hl := readArchive_length _ _ h
  rw [readUint16_eocdOf] at hl
  have hz : addAll new (uniformAdds 65536 1 0) = uniformZip 65536 1 0 := rfl
  rw [hz, eocd_totalEntries, uniformZip_length, List.length_map] at hl
  unfold uniformAdds at hl
  rw [List.length_replicate] at hl
  exact absurd hl (by decide)

set_option maxRecDepth 100000 in
theorem unpaired_surrogate_same_bytes :
    (build (addAll new [([0xD800], [], sampleDate)])).bytes
      = (build (addAll new [([0xFFFD], [], sampleDate)])).bytes := by
  decide

/-! ## The claims -/

/-- C1 (amended): round trip.  For every sequence of `addTextFile` calls on a
fresh builder with fewer than 65536 calls, every normalized name shorter than
65536 UTF-8 bytes and all local records together shorter than 2^32 bytes, a
reader that takes the end-of-central-directory record from the last 22 bytes,
walks the central directory and follows each local header offset gets back, in
insertion order, the UTF-8 bytes of the normalized names, the UTF-8 bytes of
the texts, and CRC fields equal to the reference CRC-32 of those bytes.  When
moreover no normalized name has an unpaired surrogate, the reader that decodes
the name bytes as UTF-8 gets back exactly the normalized names; and the bytes
of a name of ASCII characters are its code units one by one. -/
theorem readArchive_build_addAll (adds : List (JSString × JSString × JSDate))
    (hc : adds.length < 65536)
    (hn : ∀ a ∈ adds, (textToUint8 (replaceBackslashes a.1)).length < 65536)
    (hs : (adds.map (fun a => 30 + (textToUint8 (replaceBackslashes a.1)).length
            + (textToUint8 a.2.1).length)).sum < 4294967296) :
    readArchive (build (addAll new adds)).bytes = some (adds.map expectedEntry) ∧
      ((∀ a ∈ adds, isWellFormed (replaceBackslashes a.1) = true) →
        readArchiveNames (build (addAll new adds)).bytes
          = some (adds.map expectedNamedEntry)) ∧
      (∀ a ∈ adds, (∀ u ∈ replaceBackslashes a.1, u.val < 0x80) →
        (expectedEntry a).name = (replaceBackslashes a.1).map (fun u => byteOf u.val)) :=
  ⟨roundtrip_bytes_of_bounds adds hc hn hs,
    fun hw => readArchiveNames_of_readArchive _ adds
      (roundtrip_bytes_of_bounds adds hc hn hs) hw,
    fun a _ ha => textToUint8_ascii (replaceBackslashes a.1) ha⟩

set_option maxRecDepth 100000 in
/-- Witness for C1: the two sample calls, whose names have no surrogate. -/
theorem readArchive_build_addAll_witness :
    readArchiveNames (build (addAll new sampleAdds)).bytes
      = some (sampleAdds.map expectedNamedEntry) :=
  (readArchive_build_addAll sampleAdds (by decide) (by decide) (by decide)).2.1 (by decide)

set_option maxRecDepth 100000 in
/-- Counterexample for C1 as stated.  After 65536 calls `addTextFile("a", "")`
the entry count in the trailer is 0, so the reader cannot return 65536
entries.  And the two different names `"\uD800"` (an unpaired surrogate) and
`"\uFFFD"`, added with the same text under the same clock, give the same
archive bytes, so no reader can return exactly the name for both; the reader
that decodes the names as UTF-8 returns `"\uFFFD"` for the name `"\uD800"`. -/
theorem readArchive_build_addAll_counterexample :
    readArchive (build (addAll new (uniformAdds 65536 1 0))).bytes
        ≠ some ((uniformAdds 65536 1 0).map expectedEntry) ∧
      (replaceBackslashes [0xD800] ≠ replaceBackslashes [0xFFFD] ∧
        (build (addAll new [([0xD800], [], sampleDate)])).bytes
          = (build (addAll new [([0xFFFD], [], sampleDate)])).bytes) ∧
      readArchiveNames (build (addAll new [([0xD800], [], sampleDate)])).bytes
        = some [{ name := [0xFFFD], data := [], crc32 := 0 }] := by
  refine ⟨readArchive_too_many_entries, ⟨by decide, unpaired_surrogate_same_bytes⟩, ?_⟩
  unfold readArchiveNames
  rw [roundtrip_bytes_of_bounds [([0xD800], [], sampleDate)] (by decide)
    (by decide) (by decide)]
  decide

/-- C2: for every byte sequence the table-driven `crc32` equals the reference
CRC-32 (bit-by-bit reflected division by `0xEDB88320`, register preset to all
ones, result XORed with all ones). -/
theorem crc32_matches_reference (bytes : List Byte) : crc32 bytes = crc32Reference bytes :=
  crc32_eq_reference bytes

set_option maxRecDepth 100000 in
/-- C3: `crc32` of the nine bytes of `"123456789"` is `0xCBF43926`. -/
theorem crc32_check_value :
    crc32 [0x31, 0x32, 0x33, 0x34, 0x35, 0x36, 0x37, 0x38, 0x39] = 0xCBF43926 := by
  decide

/-- C4: `crc32` of the empty byte sequence is 0. -/
theorem crc32_empty : crc32 [] = 0x00000000 := by
  decide

/-- C5 (amended): for every entry list and every entry in it, the
`localHeaderOffset` field (4 bytes at position 42) of that entry's central
directory header in the output of `build` is the sum of
`30 + name byte length + content byte length` over the preceding entries,
reduced modulo 2^32; it is that sum itself whenever the sum is below 2^32. -/
theorem central_localHeaderOffset (z : MiniZip) (i : Nat) (h : i < z.files.length) :
    readUint32 (centralHeaderAt z.files (build z).bytes i) 42
        = ((z.files.take i).map
            (fun f => 30 + (textToUint8 f.name).length + f.dataUint8.length)).sum % 4294967296 ∧
      (((z.files.take i).map
            (fun f => 30 + (textToUint8 f.name).length + f.dataUint8.length)).sum < 4294967296 →
        readUint32 (centralHeaderAt z.files (build z).bytes i) 42
          = ((z.files.take i).map
              (fun f => 30 + (textToUint8 f.name).length + f.dataUint8.length)).sum) := by
  rw [localRecordsSize_eq_sum, central_offset_field z i h]
  exact ⟨rfl, fun hlt => Nat.mod_eq_of_lt hlt⟩

set_option maxRecDepth 100000 in
/-- Witness for C5: the second entry of the sample builder starts at byte 41. -/
theorem central_localHeaderOffset_witness :
    1 < sampleZip.files.length ∧
      readUint32 (centralHeaderAt sampleZip.files (build sampleZip).bytes 1) 42 = 41 :=
  ⟨by decide,
    ((central_localHeaderOffset sampleZip 1 (by decide)).2 (by decide)).trans (by decide)⟩

/-- Counterexample for C5 as stated: after 17 calls
`addTextFile("a", "a".repeat(2 ** 28))` the local records before the last
entry take 4294967792 bytes, and the offset field of its central header is 496. -/
theorem central_localHeaderOffset_counterexample :
    16 < (uniformZip 17 1 268435456).files.length ∧
      readUint32 (centralHeaderAt (uniformZip 17 1 268435456).files
        (build (uniformZip 17 1 268435456)).bytes 16) 42 = 496 ∧
      (((uniformZip 17 1 268435456).files.take 16).map
        (fun f => 30 + (textToUint8 f.name).length + f.dataUint8.length)).sum = 4294967792 := by
  have hl : 16 < (uniformZip 17 1 268435456).files.length := by
    rw [uniformZip_length]; decide
  refine ⟨hl, ?_, ?_⟩
  · rw [central_offset_field _ _ hl, uniformZip_localRecordsSize_take _ _ _ _ (by decide)]
  · rw [localRecordsSize_eq_sum, uniformZip_localRecordsSize_take _ _ _ _ (by decide)]

/-- C6 (amended): for every entry list of `n` entries, the two entry-count
fields of the end-of-central-directory record (2 bytes at positions 8 and 10)
are equal to each other and both equal `n` modulo 65536; both equal `n`
whenever `n < 65536`. -/
theorem eocd_entry_counts (z : MiniZip) :
    readUint16 (eocdOf (build z).bytes) 8 = readUint16 (eocdOf (build z).bytes) 10 ∧
      readUint16 (eocdOf (build z).bytes) 8 = z.files.length % 65536 ∧
      (z.files.length < 65536 →
        readUint16 (eocdOf (build z).bytes) 8 = z.files.length ∧
        readUint16 (eocdOf (build z).bytes) 10 = z.files.length) := by
  rw [eocd_entriesOnThisDisk, eocd_totalEntries]
  exact ⟨rfl, rfl, fun h => ⟨Nat.mod_eq_of_lt h, Nat.mod_eq_of_lt h⟩⟩

set_option maxRecDepth 100000 in
/-- Witness for C6: the sample builder has two entries. -/
theorem eocd_entry_counts_witness :
    sampleZip.files.length < 65536 ∧
      readUint16 (eocdOf (build sampleZip).bytes) 8 = 2 ∧
      readUint16 (eocdOf (build sampleZip).bytes) 10 = 2 :=
  ⟨by decide, (eocd_entry_counts sampleZip).2.2 (by decide)⟩

/-- Counterexample for C6 as stated: after 65536 calls `addTextFile("a", "")`
both entry-count fields are 0. -/
theorem eocd_entry_counts_counterexample :
    (uniformZip 65536 1 0).files.length = 65536 ∧
      readUint16 (eocdOf (build (uniformZip 65536 1 0)).bytes) 8 = 0 ∧
      readUint16 (eocdOf (build (uniformZip 65536 1 0)).bytes) 10 = 0 := by
  rw [eocd_entriesOnThisDisk, eocd_totalEntries, uniformZip_length]
  exact ⟨rfl, rfl, rfl⟩

theorem replaceBackslashes_length (path : JSString) :
    (replaceBackslashes path).length = path.length := by
  unfold replaceBackslashes
  exact List.length_map _ _

theorem replaceBackslashes_getElem? (path : JSString) (i : Nat) :
    (replaceBackslashes path)[i]? = (path[i]?).map (fun u => if u = 0x5C then 0x2F else u) := by
  unfold replaceBackslashes
  exact List.getElem?_map _ _ _

theorem backslash_not_mem_replaceBackslashes (path : JSString) :
    (0x5C : CodeUnit) ∉ replaceBackslashes path := by
  unfold replaceBackslashes
  intro h
  rw [List.mem_map] at h
  obtain ⟨u, _, hu⟩ := h
  by_cases hc : u = 0x5C
  · rw [if_pos hc] at hu
    exact absurd hu (by decide)
  · rw [if_neg hc] at hu
    exact hc hu

/-- The name bytes behind the local header and behind the central header of
the entry that was added last. -/
theorem build_last_name (z : MiniZip) (f : ZipEntry) :
    slice (build { files := z.files ++ [f] }).bytes (localRecordsSize z.files + 30)
        (textToUint8 f.name).length = textToUint8 f.name ∧
      slice (build { files := z.files ++ [f] }).bytes
        (localRecordsSize (z.files ++ [f]) + centralRecordsSize z.files + 46)
        (textToUint8 f.name).length = textToUint8 f.name := by
  obtain ⟨x, t, hC, hx⟩ := build_central_view z.files [] f
  obtain ⟨y, u, hL, hy⟩ := build_local_view z.files [] f
  constructor
  · rw [hL]
    exact slice_inside y _ _ _ _ (by rw [localHeader_length, hy])
  · rw [hC]
    exact slice_inside x _ _ _ _ (by rw [centralHeader_length, hx])

/-- C10: name normalization.  For every path, `addTextFile` appends one entry
whose name has the length of the path, has at every position the code unit of
the path, with `/` in place of `\`, and holds no `\`.  For the path
`a\b\c.txt` the stored name is `a/b/c.txt`, and `build` writes the bytes of
`a/b/c.txt` behind the local header and behind the central header of that entry. -/
theorem addTextFile_name_normalized (z : MiniZip) (path text : JSString) (now : JSDate) :
    (∃ e : ZipEntry, (addTextFile z path text now).files = z.files ++ [e] ∧
      e.name.length = path.length ∧
      (∀ i : Nat, e.name[i]? = (path[i]?).map (fun u => if u = 0x5C then 0x2F else u)) ∧
      (0x5C : CodeUnit) ∉ e.name) ∧
    (∃ e : ZipEntry, (addTextFile z samplePath text now).files = z.files ++ [e] ∧
      e.name = [0x61, 0x2F, 0x62, 0x2F, 0x63, 0x2E, 0x74, 0x78, 0x74] ∧
      slice (build (addTextFile z samplePath text now)).bytes
        (localRecordsSize z.files + 30) 9
          = [0x61, 0x2F, 0x62, 0x2F, 0x63, 0x2E, 0x74, 0x78, 0x74] ∧
      slice (build (addTextFile z samplePath text now)).bytes
        (localRecordsSize (z.files ++ [e]) + centralRecordsSize z.files + 46) 9
          = [0x61, 0x2F, 0x62, 0x2F, 0x63, 0x2E, 0x74, 0x78, 0x74]) := by
  constructor
  · exact ⟨newEntry (path, text, now), rfl, replaceBackslashes_length path,
      replaceBackslashes_getElem? path, backslash_not_mem_replaceBackslashes path⟩
  · have hname : (newEntry (samplePath, text, now)).name
        = [0x61, 0x2F, 0x62, 0x2F, 0x63, 0x2E, 0x74, 0x78, 0x74] := by
      show replaceBackslashes samplePath = _
      decide
    have hbytes : textToUint8 (newEntry (samplePath, text, now)).name
        = [0x61, 0x2F, 0x62, 0x2F, 0x63, 0x2E, 0x74, 0x78, 0x74] := by
      rw [hname]; decide
    have h := build_last_name z (newEntry (samplePath, text, now))
    rw [hbytes] at h
    exact ⟨newEntry (samplePath, text, now), rfl, hname, h.1, h.2⟩

/-- C7 (amended): for every entry list, the `centralDirOffset` field of the
end-of-central-directory record (4 bytes at position 16) is the total byte
length of the local records, the sum of
`30 + name byte length + content byte length`, reduced modulo 2^32; it is that
total itself whenever the total is below 2^32. -/
theorem eocd_centralDirOffset_field (z : MiniZip) :
    readUint32 (eocdOf (build z).bytes) 16
        = (z.files.map
            (fun f => 30 + (textToUint8 f.name).length + f.dataUint8.length)).sum % 4294967296 ∧
      ((z.files.map
            (fun f => 30 + (textToUint8 f.name).length + f.dataUint8.length)).sum < 4294967296 →
        readUint32 (eocdOf (build z).bytes) 16
          = (z.files.map
              (fun f => 30 + (textToUint8 f.name).length + f.dataUint8.length)).sum) := by
  rw [localRecordsSize_eq_sum, eocd_centralDirOffset]
  exact ⟨rfl, fun hlt => Nat.mod_eq_of_lt hlt⟩

set_option maxRecDepth 100000 in
/-- Witness for C7: the local records of the sample builder take 75 bytes. -/
theorem eocd_centralDirOffset_field_witness :
    (sampleZip.files.map
        (fun f => 30 + (textToUint8 f.name).length + f.dataUint8.length)).sum < 4294967296 ∧
      readUint32 (eocdOf (build sampleZip).bytes) 16 = 75 :=
  ⟨by decide, ((eocd_centralDirOffset_field sampleZip).2 (by decide)).trans (by decide)⟩

/-- Counterexample for C7 as stated: after 17 calls
`addTextFile("a", "a".repeat(2 ** 28))` the local records take 4563403279
bytes and the `centralDirOffset` field is 268435983. -/
theorem eocd_centralDirOffset_field_counterexample :
    readUint32 (eocdOf (build (uniformZip 17 1 268435456)).bytes) 16 = 268435983 ∧
      ((uniformZip 17 1 268435456).files.map
        (fun f => 30 + (textToUint8 f.name).length + f.dataUint8.length)).sum = 4563403279 := by
  refine ⟨?_, ?_⟩
  · rw [eocd_centralDirOffset, uniformZip_localRecordsSize]
  · rw [localRecordsSize_eq_sum, uniformZip_localRecordsSize]

/-- C8 (amended): for every entry list, the `centralDirSize` field of the
end-of-central-directory record (4 bytes at position 12) is the total byte
length of the central directory records, the sum of `46 + name byte length`,
reduced modulo 2^32; it is that total itself whenever the total is below 2^32. -/
theorem eocd_centralDirSize_field (z : MiniZip) :
    readUint32 (eocdOf (build z).bytes) 12
        = (z.files.map (fun f => 46 + (textToUint8 f.name).length)).sum % 4294967296 ∧
      ((z.files.map (fun f => 46 + (textToUint8 f.name).length)).sum < 4294967296 →
        readUint32 (eocdOf (build z).bytes) 12
          = (z.files.map (fun f => 46 + (textToUint8 f.name).length)).sum) := by
  rw [centralRecordsSize_eq_sum, eocd_centralDirSize]
  exact ⟨rfl, fun hlt => Nat.mod_eq_of_lt hlt⟩

set_option maxRecDepth 100000 in
/-- Witness for C8: the central directory of the sample builder takes 102 bytes. -/
theorem eocd_centralDirSize_field_witness :
    (sampleZip.files.map (fun f => 46 + (textToUint8 f.name).length)).sum < 4294967296 ∧
      readUint32 (eocdOf (build sampleZip).bytes) 12 = 102 :=
  ⟨by decide, ((eocd_centralDirSize_field sampleZip).2 (by decide)).trans (by decide)⟩

/-- Counterexample for C8 as stated: after 17 calls
`addTextFile("a".repeat(2 ** 28), "")` the central directory records take
4563403534 bytes and the `centralDirSize` field is 268436238. -/
theorem eocd_centralDirSize_field_counterexample :
    readUint32 (eocdOf (build (uniformZip 17 268435456 0)).bytes) 12 = 268436238 ∧
      ((uniformZip 17 268435456 0).files.map
        (fun f => 46 + (textToUint8 f.name).length)).sum = 4563403534 := by
  refine ⟨?_, ?_⟩
  · rw [eocd_centralDirSize, uniformZip_centralRecordsSize]
  · rw [centralRecordsSize_eq_sum, uniformZip_centralRecordsSize]

/-- C9: `build` on a builder with no entries gives exactly 22 bytes:
`50 4B 05 06` followed by 18 zero bytes. -/
theorem build_empty :
    (build new).bytes = [0x50, 0x4B, 0x05, 0x06] ++ List.replicate 18 0 ∧
      (build new).bytes.length = 22 := by
  decide


/-! ## MS-DOS date and time packing -/

theorem toInt32_of_lt {n : Nat} (h : n < 2147483648) : toInt32 (n : Int) = n := by
  unfold toInt32
  split <;> omega

theorem jsShl_natCast (a k : Nat) (hk : k < 32) (h : a * 2 ^ k < 2147483648) :
    jsShl (a : Int) k = ((a * 2 ^ k : Nat) : Int) := by
  unfold jsShl
  have hp : 0 < 2 ^ k := Nat.two_pow_pos k
  have ha : a < 4294967296 := by
    have : a ≤ a * 2 ^ k := Nat.le_mul_of_pos_right a hp
    omega
  have e : Nat.shiftLeft (toUint32 (a : Int)) (k % 32) = a * 2 ^ k := by
    rw [toUint32_of_lt ha, Nat.mod_eq_of_lt hk]
    exact Nat.shiftLeft_eq a k
  rw [e]
  exact toInt32_of_lt h

theorem jsOr_natCast (a b : Nat) (ha : a < 2147483648) (hb : b < 2147483648) :
    jsOr (a : Int) (b : Int) = ((a ||| b : Nat) : Int) := by
  unfold jsOr
  rw [toUint32_of_lt (by omega), toUint32_of_lt (by omega)]
  exact toInt32_of_lt (Nat.or_lt_two_pow (n := 31) ha hb)

/-- Packing three bit fields `a`, `b`, `c` with `b < 2^j`-style bounds: the
ORs of the shifted parts add up. -/
theorem pack_three (a b c i j : Nat) (hb : b * 2 ^ j < 2 ^ i) (hc : c < 2 ^ j)
    (hj : j ≤ i) :
    (a * 2 ^ i ||| b * 2 ^ j) ||| c = a * 2 ^ i + b * 2 ^ j + c := by
  have h1 : a * 2 ^ i ||| b * 2 ^ j = a * 2 ^ i + b * 2 ^ j := by
    rw [Nat.mul_comm a, Nat.mul_add_lt_is_or hb]
  obtain ⟨d, rfl⟩ : ∃ d, i = j + d := ⟨i - j, by omega⟩
  have h2 : a * 2 ^ (j + d) + b * 2 ^ j = 2 ^ j * (a * 2 ^ d + b) := by
    rw [Nat.pow_add]; ring
  rw [h1, h2, ← Nat.mul_add_lt_is_or hc]

theorem msDosDateTime_dosTime (d : JSDate) (hh : d.getHours < 24) (hm : d.getMinutes < 60)
    (hs : d.getSeconds < 60) :
    (msDosDateTime d).dosTime
      = ((2048 * d.getHours + 32 * d.getMinutes + d.getSeconds / 2 : Nat) : Int) := by
  unfold msDosDateTime
  simp only
  rw [jsShl_natCast _ 11 (by decide) (by omega), jsShl_natCast _ 5 (by decide) (by omega),
    jsOr_natCast _ _ (by omega) (by omega)]
  have hp := pack_three d.getHours d.getMinutes (d.getSeconds / 2) 11 5 (by omega) (by omega)
    (by decide)
  have hlt : d.getHours * 2 ^ 11 ||| d.getMinutes * 2 ^ 5 < 2147483648 := by
    have := Nat.or_lt_two_pow (n := 16) (x := d.getHours * 2 ^ 11) (y := d.getMinutes * 2 ^ 5)
      (by omega) (by omega)
    omega
  rw [jsOr_natCast _ _ hlt (by omega), hp]
  congr 1
  omega

theorem msDosDateTime_dosDate (d : JSDate) (hy1 : 1980 ≤ d.getFullYear)
    (hy2 : d.getFullYear ≤ 2107) (hm : d.getMonth < 12) (hd : d.getDate ≤ 31) :
    (msDosDateTime d).dosDate
      = 512 * (d.getFullYear - 1980) + ((32 * (d.getMonth + 1) + d.getDate : Nat) : Int) := by
  obtain ⟨y, hy⟩ : ∃ y : Nat, d.getFullYear - 1980 = (y : Int) :=
    ⟨(d.getFullYear - 1980).toNat, by omega⟩
  have hy128 : y < 128 := by omega
  unfold msDosDateTime
  simp only
  rw [hy, jsShl_natCast _ 9 (by decide) (by omega), jsShl_natCast _ 5 (by decide) (by omega),
    jsOr_natCast _ _ (by omega) (by omega)]
  have hp := pack_three y (d.getMonth + 1) d.getDate 9 5 (by omega) (by omega) (by decide)
  have hlt : y * 2 ^ 9 ||| (d.getMonth + 1) * 2 ^ 5 < 2147483648 := by
    have := Nat.or_lt_two_pow (n := 16) (x := y * 2 ^ 9) (y := (d.getMonth + 1) * 2 ^ 5)
      (by omega) (by omega)
    omega
  rw [jsOr_natCast _ _ hlt (by omega), hp]
  push_cast
  omega

theorem toInt32_neg_of_ge {n : Nat} (h1 : 2147483648 ≤ n) (h2 : n < 4294967296) :
    toInt32 (n : Int) < 0 := by
  unfold toInt32
  split <;> omega

theorem toUint32_of_neg {a : Int} (h1 : -2147483648 ≤ a) (h2 : a < 0) :
    2147483648 ≤ toUint32 a := by
  unfold toUint32; omega

theorem le_lor_left (a b : Nat) : a ≤ a ||| b :=
  Nat.le_of_testBit (by intro i h; simp [h])

theorem jsOr_neg (a b : Int) (h1 : -2147483648 ≤ a) (h2 : a < 0) : jsOr a b < 0 := by
  unfold jsOr
  have ha := toUint32_of_neg h1 h2
  have hle : toUint32 a ≤ Nat.lor (toUint32 a) (toUint32 b) := le_lor_left _ _
  have hlt : Nat.lor (toUint32 a) (toUint32 b) < 4294967296 :=
    Nat.or_lt_two_pow (n := 32) (toUint32_lt a) (toUint32_lt b)
  exact toInt32_neg_of_ge (by omega) hlt

theorem toInt32_ge (x : Int) : -2147483648 ≤ toInt32 x := by
  unfold toInt32
  split <;> omega

theorem jsOr_ge (a b : Int) : -2147483648 ≤ jsOr a b := toInt32_ge _

theorem jsShl_nine_neg (y : Int) (h1 : -273801 ≤ y) (h2 : y < 0) : jsShl y 9 < 0 := by
  unfold jsShl
  have hu : toUint32 y = (4294967296 + y).toNat := by unfold toUint32; omega
  have e : Nat.shiftLeft (toUint32 y) (9 % 32) = toUint32 y * 512 := Nat.shiftLeft_eq _ 9
  rw [e, hu]
  unfold toInt32
  split <;> omega

theorem msDosDateTime_dosDate_neg (d : JSDate) (h1 : -271821 ≤ d.getFullYear)
    (h2 : d.getFullYear < 1980) : (msDosDateTime d).dosDate < 0 := by
  unfold msDosDateTime
  simp only
  have hs := jsShl_nine_neg (d.getFullYear - 1980) (by omega) (by omega)
  have ho := jsOr_neg (jsShl (d.getFullYear - 1980) 9) (jsShl ((d.getMonth + 1 : Nat) : Int) 5)
    (toInt32_ge _) hs
  exact jsOr_neg _ _ (jsOr_ge _ _) ho

theorem msDosDateTime_dosDate_big (d : JSDate) (h1 : 2108 ≤ d.getFullYear)
    (h2 : d.getFullYear ≤ 275760) (hm : d.getMonth < 12) (hd : d.getDate ≤ 31) :
    65536 ≤ (msDosDateTime d).dosDate := by
  obtain ⟨y, hy⟩ : ∃ y : Nat, d.getFullYear - 1980 = (y : Int) :=
    ⟨(d.getFullYear - 1980).toNat, by omega⟩
  have hy1 : 128 ≤ y := by omega
  have hy2 : y ≤ 273780 := by omega
  unfold msDosDateTime
  simp only
  rw [hy, jsShl_natCast _ 9 (by decide) (by omega), jsShl_natCast _ 5 (by decide) (by omega),
    jsOr_natCast _ _ (by omega) (by omega)]
  have hlt : y * 2 ^ 9 ||| (d.getMonth + 1) * 2 ^ 5 < 2147483648 := by
    have := Nat.or_lt_two_pow (n := 28) (x := y * 2 ^ 9) (y := (d.getMonth + 1) * 2 ^ 5)
      (by omega) (by omega)
    omega
  rw [jsOr_natCast _ _ hlt (by omega)]
  have hle1 := le_lor_left (y * 2 ^ 9) ((d.getMonth + 1) * 2 ^ 5)
  have hle2 := le_lor_left (y * 2 ^ 9 ||| (d.getMonth + 1) * 2 ^ 5) d.getDate
  omega

/-! ## Little-endian encodings of the header fields -/

theorem byteOf_congr {a b : Nat} (h : a % 256 = b % 256) : byteOf a = byteOf b :=
  Fin.ext h

theorem littleEndian_two (n : Nat) (h : n < 65536) :
    littleEndian 2 (n : Int) = some [byteOf n, byteOf (n / 256)] := by
  unfold littleEndian
  rw [if_pos ⟨by omega, by norm_num; omega⟩]
  rfl

theorem littleEndian_four (n : Nat) (h : n < 4294967296) :
    littleEndian 4 (n : Int)
      = some [byteOf n, byteOf (n / 256), byteOf (n / 65536), byteOf (n / 16777216)] := by
  unfold littleEndian
  rw [if_pos ⟨by omega, by norm_num; omega⟩]
  simp only [leBytes, Int.toNat_ofNat, Nat.div_div_eq_div_mul, Nat.reduceMul]

theorem littleEndian_two_int (v : Int) (h0 : 0 ≤ v) (h1 : v < 65536) :
    littleEndian 2 v = some [byteOf (toUint16 v), byteOf (toUint16 v / 256)] := by
  obtain ⟨n, rfl⟩ : ∃ n : Nat, v = (n : Int) := ⟨v.toNat, by omega⟩
  have hn : n < 65536 := by omega
  rw [littleEndian_two n hn, toUint16_natCast, Nat.mod_eq_of_lt hn]

theorem littleEndian_none_of_ge (w : Nat) (v : Int) (h : (256 : Int) ^ w ≤ v) :
    littleEndian w v = none := by
  unfold littleEndian
  rw [if_neg (by intro hc; omega)]

theorem encodeFields_cons {w : Nat} {v : Int} {rest : List (Nat × Int)} {a b : List Byte}
    (ha : littleEndian w v = some a) (hb : encodeFields rest = some b) :
    encodeFields ((w, v) :: rest) = some (a ++ b) := by
  rw [encodeFields, ha, hb]

theorem encodeFields_nil : encodeFields [] = some [] := rfl

theorem littleEndian_sigLocal : littleEndian 4 0x04034b50 = some [0x50, 0x4B, 0x03, 0x04] := by
  decide

theorem littleEndian_sigCentral : littleEndian 4 0x02014b50 = some [0x50, 0x4B, 0x01, 0x02] := by
  decide

theorem littleEndian_sigEOCD : littleEndian 4 0x06054b50 = some [0x50, 0x4B, 0x05, 0x06] := by
  decide

theorem littleEndian_two_twenty : littleEndian 2 20 = some [20, 0] := by decide

theorem littleEndian_two_zero : littleEndian 2 0 = some [0, 0] := by decide

theorem littleEndian_four_zero : littleEndian 4 0 = some [0, 0, 0, 0] := by decide

theorem encodeFields_localHeader (f : ZipEntry) (nb : List Byte)
    (hn : nb.length < 65536) (hc : f.dataUint8.length < 4294967296)
    (hcrc : f.crc32 < 4294967296) (ht0 : 0 ≤ f.dosTime) (ht1 : f.dosTime < 65536)
    (hd0 : 0 ≤ f.dosDate) (hd1 : f.dosDate < 65536) :
    encodeFields (localHeaderFields f nb.length) = some (localHeader f nb) := by
  have h := encodeFields_cons littleEndian_sigLocal (encodeFields_cons littleEndian_two_twenty
    (encodeFields_cons littleEndian_two_zero (encodeFields_cons littleEndian_two_zero
    (encodeFields_cons (littleEndian_two_int _ ht0 ht1)
    (encodeFields_cons (littleEndian_two_int _ hd0 hd1)
    (encodeFields_cons (littleEndian_four _ hcrc) (encodeFields_cons (littleEndian_four _ hc)
    (encodeFields_cons (littleEndian_four _ hc) (encodeFields_cons (littleEndian_two _ hn)
    (encodeFields_cons littleEndian_two_zero encodeFields_nil))))))))))
  simp only [List.cons_append, List.nil_append, List.append_nil] at h
  rw [localHeader_eq, Nat.mod_eq_of_lt hcrc, Nat.mod_eq_of_lt hc, Nat.mod_eq_of_lt hn]
  exact h

theorem encodeFields_centralHeader (f : ZipEntry) (nb : List Byte)
    (hn : nb.length < 65536) (hc : f.dataUint8.length < 4294967296)
    (ho : f.localHeaderOffset < 4294967296)
    (hcrc : f.crc32 < 4294967296) (ht0 : 0 ≤ f.dosTime) (ht1 : f.dosTime < 65536)
    (hd0 : 0 ≤ f.dosDate) (hd1 : f.dosDate < 65536) :
    encodeFields (centralHeaderFields f nb.length) = some (centralHeader f nb) := by
  have h := encodeFields_cons littleEndian_sigCentral (encodeFields_cons littleEndian_two_twenty
    (encodeFields_cons littleEndian_two_twenty
    (encodeFields_cons littleEndian_two_zero (encodeFields_cons littleEndian_two_zero
    (encodeFields_cons (littleEndian_two_int _ ht0 ht1)
    (encodeFields_cons (littleEndian_two_int _ hd0 hd1)
    (encodeFields_cons (littleEndian_four _ hcrc) (encodeFields_cons (littleEndian_four _ hc)
    (encodeFields_cons (littleEndian_four _ hc) (encodeFields_cons (littleEndian_two _ hn)
    (encodeFields_cons littleEndian_two_zero (encodeFields_cons littleEndian_two_zero
    (encodeFields_cons littleEndian_two_zero (encodeFields_cons littleEndian_two_zero
    (encodeFields_cons littleEndian_four_zero
    (encodeFields_cons (littleEndian_four _ ho) encodeFields_nil))))))))))))))))
  simp only [List.cons_append, List.nil_append, List.append_nil] at h
  rw [centralHeader_eq, Nat.mod_eq_of_lt hcrc, Nat.mod_eq_of_lt hc, Nat.mod_eq_of_lt hn,
    Nat.mod_eq_of_lt ho]
  exact h

theorem encodeFields_eocdRecord (n cs st : Nat) (hn : n < 65536) (hcs : cs < 4294967296)
    (hst : st < 4294967296) :
    encodeFields (eocdFields n cs st) = some (eocdRecord n cs st) := by
  have h := encodeFields_cons littleEndian_sigEOCD (encodeFields_cons littleEndian_two_zero
    (encodeFields_cons littleEndian_two_zero (encodeFields_cons (littleEndian_two _ hn)
    (encodeFields_cons (littleEndian_two _ hn) (encodeFields_cons (littleEndian_four _ hcs)
    (encodeFields_cons (littleEndian_four _ hst)
    (encodeFields_cons littleEndian_two_zero encodeFields_nil)))))))
  simp only [List.cons_append, List.nil_append, List.append_nil] at h
  rw [eocdRecord_eq, Nat.mod_eq_of_lt hn, Nat.mod_eq_of_lt hcs, Nat.mod_eq_of_lt hst]
  exact h

/-! ## What `build` keeps and what it writes -/

theorem withOffsets_core (files : List ZipEntry) (o : Nat) :
    (withOffsets files o).map entryCore = files.map entryCore := by
  induction files generalizing o with
  | nil => rfl
  | cons f files ih => rw [withOffsets, List.map_cons, ih, List.map_cons]; rfl

theorem localRecordSize_of_core {f g : ZipEntry} (h : entryCore f = entryCore g) :
    localRecordSize f = localRecordSize g := by
  simp only [entryCore, Prod.mk.injEq] at h
  unfold localRecordSize
  rw [h.1, h.2.1]

theorem withOffset_of_core {f g : ZipEntry} (h : entryCore f = entryCore g) (o : Nat) :
    ({ f with localHeaderOffset := o } : ZipEntry) = { g with localHeaderOffset := o } := by
  simp only [entryCore, Prod.mk.injEq] at h
  obtain ⟨h1, h2, h3, h4, h5⟩ := h
  simp only [h1, h2, h3, h4, h5]

theorem withOffsets_congr (fs gs : List ZipEntry) (o : Nat)
    (h : fs.map entryCore = gs.map entryCore) : withOffsets fs o = withOffsets gs o := by
  induction fs generalizing gs o with
  | nil =>
    cases gs with
    | nil => rfl
    | cons g gs => simp at h
  | cons f fs ih =>
    cases gs with
    | nil => simp at h
    | cons g gs =>
      simp only [List.map_cons, List.cons.injEq] at h
      rw [withOffsets, withOffsets, withOffset_of_core h.1, localRecordSize_of_core h.1,
        ih gs _ h.2]

theorem localRecord_withOffset (f : ZipEntry) (o : Nat) :
    localRecord { f with localHeaderOffset := o } = localRecord f := rfl

theorem localRecordSize_withOffset (f : ZipEntry) (o : Nat) :
    localRecordSize { f with localHeaderOffset := o } = localRecordSize f := rfl

theorem withOffsets_localRecords (files : List ZipEntry) (o : Nat) :
    (withOffsets files o).map localRecord = files.map localRecord := by
  induction files generalizing o with
  | nil => rfl
  | cons f files ih =>
    rw [withOffsets, List.map_cons, ih, List.map_cons, localRecord_withOffset]

theorem withOffsets_localRecordsSize (files : List ZipEntry) (o : Nat) :
    localRecordsSize (withOffsets files o) = localRecordsSize files := by
  unfold localRecordsSize
  induction files generalizing o with
  | nil => rfl
  | cons f files ih =>
    rw [withOffsets, List.map_cons, List.sum_cons, ih, List.map_cons, List.sum_cons,
      localRecordSize_withOffset]

/-- The bytes of `build` in terms of the entries with their assigned offsets only. -/
theorem build_bytes_of_withOffsets (z : MiniZip) :
    (build z).bytes =
      ((withOffsets z.files 0).map localRecord).flatten ++
        (((withOffsets z.files 0).map centralRecord).flatten ++
          eocdRecord (withOffsets z.files 0).length (centralRecordsSize (withOffsets z.files 0))
            (localRecordsSize (withOffsets z.files 0))) := by
  rw [build_bytes, withOffsets_localRecords, withOffsets_length, withOffsets_centralRecordsSize,
    withOffsets_localRecordsSize]

theorem build_bytes_congr (z1 z2 : MiniZip)
    (h : z1.files.map entryCore = z2.files.map entryCore) :
    (build z1).bytes = (build z2).bytes := by
  rw [build_bytes_of_withOffsets, build_bytes_of_withOffsets, withOffsets_congr _ _ 0 h]

theorem build_core (z : MiniZip) :
    (build z).zip.files.map entryCore = z.files.map entryCore := by
  rw [build_files, withOffsets_core]

theorem addAll_core_congr (z1 z2 : MiniZip) (adds : List (JSString × JSString × JSDate))
    (h : z1.files.map entryCore = z2.files.map entryCore) :
    (addAll z1 adds).files.map entryCore = (addAll z2 adds).files.map entryCore := by
  rw [addAll_files, addAll_files, List.map_append, List.map_append, h]

theorem withOffsets_getElem? (files : List ZipEntry) (o i : Nat) :
    (withOffsets files o)[i]? =
      (files[i]?).map
        (fun f => { f with localHeaderOffset := o + localRecordsSize (files.take i) }) := by
  induction files generalizing o i with
  | nil => simp [withOffsets]
  | cons f files ih =>
    cases i with
    | zero => simp [withOffsets, localRecordsSize]
    | succ i =>
      simp only [withOffsets, List.getElem?_cons_succ, ih, List.take_succ_cons]
      have e : localRecordsSize (f :: files.take i)
          = localRecordSize f + localRecordsSize (files.take i) := rfl
      rw [e, Nat.add_assoc]

theorem localHeaderAt_split (pre post : List ZipEntry) (f : ZipEntry) :
    localHeaderAt (pre ++ f :: post) (build { files := pre ++ f :: post }).bytes pre.length =
      localHeader f (textToUint8 f.name) := by
  obtain ⟨y, u, hL, hy⟩ := build_local_view pre post f
  unfold localHeaderAt
  rw [List.take_left, hL, ← Nat.add_zero (localRecordsSize pre),
    slice_append_right_of_length _ _ _ _ _ hy]
  exact slice_head_of_length _ _ _ (localHeader_length _ _)

theorem localHeaderAt_build (z : MiniZip) (i : Nat) (f : ZipEntry) (hf : z.files[i]? = some f) :
    localHeaderAt z.files (build z).bytes i = localHeader f (textToUint8 f.name) := by
  obtain ⟨h, rfl⟩ := List.getElem?_eq_some_iff.mp hf
  have hs := split_at_index z.files i h
  have hl : (z.files.take i).length = i := by
    rw [List.length_take]; omega
  have := localHeaderAt_split (z.files.take i) (z.files.drop (i + 1)) z.files[i]
  rw [← hs, hl] at this
  exact this

theorem set_append_middle (pre todo : List ZipEntry) (f g : ZipEntry) :
    (pre ++ f :: todo).set pre.length g = pre ++ g :: todo := by
  induction pre with
  | nil => rfl
  | cons p pre ih =>
    simp only [List.cons_append, List.length_cons, List.set_cons_succ, ih]

theorem setOffset_append (pre todo : List ZipEntry) (f : ZipEntry) (o : Nat) :
    setOffset (pre ++ f :: todo) (pre.length, o)
      = (pre ++ [{ f with localHeaderOffset := o }]) ++ todo := by
  unfold setOffset
  have h : (pre ++ f :: todo)[pre.length]? = some f := by
    rw [List.getElem?_append_right (Nat.le_refl _)]
    simp
  simp only [h, set_append_middle, List.append_assoc, List.singleton_append]

theorem applyWrites_localLoopWrites (todo pre : List ZipEntry) (o : Nat) :
    applyWrites (pre ++ todo) (localLoopWrites todo pre.length o) = pre ++ withOffsets todo o := by
  induction todo generalizing pre o with
  | nil => simp [localLoopWrites, applyWrites, withOffsets]
  | cons f todo ih =>
    have hlen : (pre ++ [{ f with localHeaderOffset := o }]).length = pre.length + 1 := by
      simp
    have := ih (pre ++ [{ f with localHeaderOffset := o }])
      (o + (30 + (textToUint8 f.name).length + f.dataUint8.length))
    rw [hlen] at this
    unfold applyWrites at this ⊢
    rw [localLoopWrites, List.foldl_cons, setOffset_append, this, withOffsets]
    simp [localRecordSize]

theorem localLoopWrites_indices (todo : List ZipEntry) (i o : Nat) :
    (localLoopWrites todo i o).map Prod.fst = List.range' i todo.length := by
  induction todo generalizing i o with
  | nil => rfl
  | cons f todo ih =>
    rw [localLoopWrites, List.map_cons, ih, List.length_cons, List.range'_succ]

theorem localLoopWrites_values (todo : List ZipEntry) (i o k : Nat) :
    ((localLoopWrites todo i o).map Prod.snd)[k]? =
      if k < todo.length then some (o + localRecordsSize (todo.take k)) else none := by
  induction todo generalizing i o k with
  | nil => simp [localLoopWrites]
  | cons f todo ih =>
    cases k with
    | zero => simp [localLoopWrites, localRecordsSize]
    | succ k =>
      rw [localLoopWrites, List.map_cons, List.getElem?_cons_succ, ih]
      have e : localRecordsSize ((f :: todo).take (k + 1))
          = localRecordSize f + localRecordsSize (todo.take k) := rfl
      rw [e]
      simp only [List.length_cons, Nat.add_lt_add_iff_right, localRecordSize, Nat.add_assoc]

/-! ## The claims on determinism, structure and layout -/

/-- C11: determinism.  The bytes of `build` depend only on the ordered list of
the entries' name, content, crc32, dosTime and dosDate, not on the
`localHeaderOffset` values held before the call.  Hence building twice gives
the same bytes, builders with the same entries that receive the same calls
under the same clock give the same bytes, and building after further appends
gives what a builder that was never built gives. -/
theorem build_deterministic (z1 z2 : MiniZip) (adds : List (JSString × JSString × JSDate))
    (h : z1.files.map entryCore = z2.files.map entryCore) :
    (build z1).bytes = (build z2).bytes ∧
      (build (build z1).zip).bytes = (build z1).bytes ∧
      (build (addAll z1 adds)).bytes = (build (addAll z2 adds)).bytes ∧
      (build (addAll (build z1).zip adds)).bytes = (build (addAll z1 adds)).bytes :=
  ⟨build_bytes_congr z1 z2 h,
    build_bytes_congr _ _ (build_core z1),
    build_bytes_congr _ _ (addAll_core_congr z1 z2 adds h),
    build_bytes_congr _ _ (addAll_core_congr _ _ adds (build_core z1))⟩

set_option maxRecDepth 100000 in
/-- Witness for C11: the sample builder before and after a `build` call; the
two differ in the stored offsets and give the same bytes. -/
theorem build_deterministic_witness :
    sampleZip.files.map entryCore = (build sampleZip).zip.files.map entryCore ∧
      sampleZip.files ≠ (build sampleZip).zip.files ∧
      (build sampleZip).bytes = (build (build sampleZip).zip).bytes :=
  ⟨by decide, by decide,
    (build_deterministic sampleZip (build sampleZip).zip [] (by decide)).1⟩

/-- C12: archive structure.  The output of `build` is the local records in
insertion order (30-byte header, name bytes, content bytes each), then the
central records in insertion order (46-byte header, name bytes each, for the
same names), then the 22-byte trailer; its length is the sum of
`30 + name + content`, plus the sum of `46 + name`, plus 22. -/
theorem build_structure (z : MiniZip) :
    (build z).bytes =
        (z.files.map (fun f =>
          localHeader f (textToUint8 f.name) ++ (textToUint8 f.name ++ f.dataUint8))).flatten ++
        (((build z).zip.files.map (fun f =>
          centralHeader f (textToUint8 f.name) ++ textToUint8 f.name)).flatten ++
        eocdOf (build z).bytes) ∧
      (build z).zip.files.map entryCore = z.files.map entryCore ∧
      (∀ (f : ZipEntry) (nb : List Byte), (localHeader f nb).length = 30) ∧
      (∀ (f : ZipEntry) (nb : List Byte), (centralHeader f nb).length = 46) ∧
      (eocdOf (build z).bytes).length = 22 ∧
      (build z).bytes.length =
        (z.files.map (fun f => 30 + (textToUint8 f.name).length + f.dataUint8.length)).sum
          + (z.files.map (fun f => 46 + (textToUint8 f.name).length)).sum + 22 := by
  refine ⟨?_, build_core z, localHeader_length, centralHeader_length, ?_, build_length z⟩
  · rw [build_eocd, build_files]
    exact build_bytes z
  · rw [build_eocd]
    exact eocdRecord_length _ _ _

/-- C13 (amended): local file header layout.  For every entry whose name is
shorter than 65536 bytes, whose content is shorter than 2^32 bytes and whose
crc32, dosTime and dosDate fit their fields (below 2^32, in 0..65535, in
0..65535), the 30-byte local header in the output of `build` is the
concatenation of the little-endian encodings of signature `0x04034b50` (4),
version 20 (2), flags 0 (2), method 0 (2), dosTime (2), dosDate (2), crc32 (4),
content length (4), content length (4), name byte length (2), extra length 0
(2); it starts with `50 4B 03 04`. -/
theorem localHeader_layout (z : MiniZip) (i : Nat) (f : ZipEntry) (hf : z.files[i]? = some f)
    (hn : (textToUint8 f.name).length < 65536) (hc : f.dataUint8.length < 4294967296)
    (hcrc : f.crc32 < 4294967296) (ht : 0 ≤ f.dosTime ∧ f.dosTime < 65536)
    (hd : 0 ≤ f.dosDate ∧ f.dosDate < 65536) :
    encodeFields (localHeaderFields f (textToUint8 f.name).length)
        = some (localHeaderAt z.files (build z).bytes i) ∧
      (localHeaderAt z.files (build z).bytes i).take 4 = [0x50, 0x4B, 0x03, 0x04] := by
  rw [localHeaderAt_build z i f hf]
  refine ⟨encodeFields_localHeader f _ hn hc hcrc ht.1 ht.2 hd.1 hd.2, ?_⟩
  rw [localHeader_eq]
  rfl

set_option maxRecDepth 100000 in
/-- Witness for C13: the first entry of the sample builder. -/
theorem localHeader_layout_witness :
    sampleZip.files[0]? = some (newEntry (samplePath, [0x68, 0x69], sampleDate)) ∧
      encodeFields (localHeaderFields (newEntry (samplePath, [0x68, 0x69], sampleDate)) 9)
        = some (localHeaderAt sampleZip.files (build sampleZip).bytes 0) :=
  ⟨by decide,
    (localHeader_layout sampleZip 0 (newEntry (samplePath, [0x68, 0x69], sampleDate))
      (by decide) (by decide) (by decide) (by decide) (by decide) (by decide)).1⟩

set_option maxRecDepth 100000 in
/-- Counterexample for C13 as stated: the entry made by `addTextFile("a", "")`
under a clock in the year 2108 has a 1-byte name and no content, its dosDate
is 65569, the date field of its local header holds 33, and the header is not
the concatenation of the encodings (dosDate has no 2-byte encoding). -/
theorem localHeader_layout_counterexample :
    zip2108.files[0]? = some entry2108 ∧
      (textToUint8 entry2108.name).length < 65536 ∧
      entry2108.dataUint8.length < 4294967296 ∧
      entry2108.dosDate = 65569 ∧
      readUint16 (localHeaderAt zip2108.files (build zip2108).bytes 0) 12 = 33 ∧
      encodeFields (localHeaderFields entry2108 (textToUint8 entry2108.name).length)
        ≠ some (localHeaderAt zip2108.files (build zip2108).bytes 0) := by
  decide

theorem build_files_getElem? (z : MiniZip) (i : Nat) :
    (build z).zip.files[i]? =
      (z.files[i]?).map
        (fun f => { f with localHeaderOffset := localRecordsSize (z.files.take i) }) := by
  rw [build_files, withOffsets_getElem?]
  simp only [Nat.zero_add]

theorem centralHeaderAt_build_entry (z : MiniZip) (i : Nat) (f : ZipEntry)
    (hf : (build z).zip.files[i]? = some f) :
    centralHeaderAt z.files (build z).bytes i = centralHeader f (textToUint8 f.name) := by
  rw [build_files_getElem?] at hf
  cases hg : z.files[i]? with
  | none => rw [hg] at hf; cases hf
  | some g =>
    rw [hg] at hf
    simp only [Option.map_some', Option.some.injEq] at hf
    obtain ⟨h, rfl⟩ := List.getElem?_eq_some_iff.mp hg
    rw [centralHeaderAt_build z i h, ← hf]

/-- C14 (amended): central directory record layout.  For every entry whose
name is shorter than 65536 bytes, whose content and local header offset are
below 2^32 and whose crc32, dosTime and dosDate fit their fields (below 2^32,
in 0..65535, in 0..65535), the 46-byte central header in the output of `build`
is the concatenation of the little-endian encodings of signature `0x02014b50`
(4), versionMadeBy 20 (2), versionNeeded 20 (2), flags 0 (2), method 0 (2),
dosTime (2), dosDate (2), crc32 (4), content length (4), content length (4),
name byte length (2), extra length 0 (2), comment length 0 (2), disk start 0
(2), internal attributes 0 (2), external attributes 0 (4), localHeaderOffset
(4), where the entry is taken as `build` leaves it. -/
theorem centralHeader_layout (z : MiniZip) (i : Nat) (f : ZipEntry)
    (hf : (build z).zip.files[i]? = some f)
    (hn : (textToUint8 f.name).length < 65536) (hc : f.dataUint8.length < 4294967296)
    (ho : f.localHeaderOffset < 4294967296)
    (hcrc : f.crc32 < 4294967296) (ht : 0 ≤ f.dosTime ∧ f.dosTime < 65536)
    (hd : 0 ≤ f.dosDate ∧ f.dosDate < 65536) :
    encodeFields (centralHeaderFields f (textToUint8 f.name).length)
        = some (centralHeaderAt z.files (build z).bytes i) := by
  rw [centralHeaderAt_build_entry z i f hf]
  exact encodeFields_centralHeader f _ hn hc ho hcrc ht.1 ht.2 hd.1 hd.2

set_option maxRecDepth 100000 in
/-- Witness for C14: the second entry of the sample builder, at offset 41. -/
theorem centralHeader_layout_witness :
    (build sampleZip).zip.files[1]?
        = some { newEntry ([0x78], [0x20AC], sampleDate) with localHeaderOffset := 41 } ∧
      encodeFields (centralHeaderFields
          { newEntry ([0x78], [0x20AC], sampleDate) with localHeaderOffset := 41 } 1)
        = some (centralHeaderAt sampleZip.files (build sampleZip).bytes 1) :=
  ⟨by decide,
    centralHeader_layout sampleZip 1
      { newEntry ([0x78], [0x20AC], sampleDate) with localHeaderOffset := 41 }
      (by decide) (by decide) (by decide) (by decide) (by decide) (by decide) (by decide)⟩

set_option maxRecDepth 100000 in
/-- Counterexample for C14 as stated: the entry made by `addTextFile("a", "")`
under a clock in the year 2108 has a 1-byte name, no content and offset 0, its
dosDate is 65569, the date field of its central header holds 33, and the
header is not the concatenation of the encodings. -/
theorem centralHeader_layout_counterexample :
    (build zip2108).zip.files[0]? = some entry2108 ∧
      (textToUint8 entry2108.name).length < 65536 ∧
      entry2108.dataUint8.length < 4294967296 ∧
      entry2108.localHeaderOffset < 4294967296 ∧
      entry2108.dosDate = 65569 ∧
      readUint16 (centralHeaderAt zip2108.files (build zip2108).bytes 0) 14 = 33 ∧
      encodeFields (centralHeaderFields entry2108 (textToUint8 entry2108.name).length)
        ≠ some (centralHeaderAt zip2108.files (build zip2108).bytes 0) := by
  decide

/-- C15: layout of the end-of-central-directory record.  For every entry list
with fewer than 65536 entries and an archive shorter than 2^32 bytes, the last
22 bytes of the output of `build` are the concatenation of the little-endian
encodings of signature `0x06054b50` (4), disk number 0 (2), disk with central
directory 0 (2), entry count (2), entry count (2), central directory size (4),
central directory offset (4), comment length 0 (2). -/
theorem eocd_layout (z : MiniZip) (hn : z.files.length < 65536)
    (hs : (build z).bytes.length < 4294967296) :
    encodeFields (eocdFields z.files.length
        (z.files.map (fun f => 46 + (textToUint8 f.name).length)).sum
        (z.files.map (fun f => 30 + (textToUint8 f.name).length + f.dataUint8.length)).sum)
      = some ((build z).bytes.drop ((build z).bytes.length - 22)) := by
  have hl := build_length z
  have e : (build z).bytes.drop ((build z).bytes.length - 22) = eocdOf (build z).bytes := rfl
  rw [e, build_eocd, centralRecordsSize_eq_sum, localRecordsSize_eq_sum]
  exact encodeFields_eocdRecord _ _ _ hn (by omega) (by omega)

set_option maxRecDepth 100000 in
/-- Witness for C15: the sample builder, with 2 entries and 199 bytes of output. -/
theorem eocd_layout_witness :
    sampleZip.files.length < 65536 ∧ (build sampleZip).bytes.length < 4294967296 ∧
      encodeFields (eocdFields sampleZip.files.length
          (sampleZip.files.map (fun f => 46 + (textToUint8 f.name).length)).sum
          (sampleZip.files.map
            (fun f => 30 + (textToUint8 f.name).length + f.dataUint8.length)).sum)
        = some ((build sampleZip).bytes.drop ((build sampleZip).bytes.length - 22)) :=
  ⟨by decide, by decide, eocd_layout sampleZip (by decide) (by decide)⟩

/-! ## The claims on timestamps and on the effect of `addTextFile` and `build` -/

/-- C16: MS-DOS time packing.  For every hour `h` in 0..23, minute `m` in
0..59 and second `s` in 0..59, `msDosDateTime` returns
`dosTime = 2048 * h + 32 * m + s / 2`; bits 11-15 of it are `h`, bits 5-10 are
`m` and bits 0-4 are `s / 2`, so the three parts can be read back. -/
theorem msDosDateTime_time_packing (d : JSDate) (hh : d.getHours ≤ 23)
    (hm : d.getMinutes ≤ 59) (hs : d.getSeconds ≤ 59) :
    (msDosDateTime d).dosTime
        = ((2048 * d.getHours + 32 * d.getMinutes + d.getSeconds / 2 : Nat) : Int) ∧
      (msDosDateTime d).dosTime.toNat / 2048 % 32 = d.getHours ∧
      (msDosDateTime d).dosTime.toNat / 32 % 64 = d.getMinutes ∧
      (msDosDateTime d).dosTime.toNat % 32 = d.getSeconds / 2 := by
  rw [msDosDateTime_dosTime d (by omega) (by omega) (by omega), Int.toNat_ofNat]
  refine ⟨rfl, ?_, ?_, ?_⟩ <;> omega

/-- Witness for C16: 13:45:31 packs to 28079. -/
theorem msDosDateTime_time_packing_witness :
    dateMay2024.getHours ≤ 23 ∧ dateMay2024.getMinutes ≤ 59 ∧ dateMay2024.getSeconds ≤ 59 ∧
      (msDosDateTime dateMay2024).dosTime = 28079 :=
  ⟨by decide, by decide, by decide,
    (msDosDateTime_time_packing dateMay2024 (by decide) (by decide) (by decide)).1.trans
      (by decide)⟩

/-- C17: MS-DOS date packing.  For every year `y` in 1980..2107, month number
`mon = getMonth() + 1` in 1..12 and day `d` in 1..31, `msDosDateTime` returns
`dosDate = 512 * (y - 1980) + 32 * mon + d`; bits 9-15 of it are `y - 1980`,
bits 5-8 are `mon` and bits 0-4 are `d`, so the three parts can be read back. -/
theorem msDosDateTime_date_packing (d : JSDate)
    (hy : 1980 ≤ d.getFullYear ∧ d.getFullYear ≤ 2107)
    (hm : 1 ≤ d.getMonth + 1 ∧ d.getMonth + 1 ≤ 12)
    (hd : 1 ≤ d.getDate ∧ d.getDate ≤ 31) :
    (msDosDateTime d).dosDate
        = 512 * (d.getFullYear - 1980) + ((32 * (d.getMonth + 1) + d.getDate : Nat) : Int) ∧
      (((msDosDateTime d).dosDate.toNat / 512 % 128 : Nat) : Int) = d.getFullYear - 1980 ∧
      (msDosDateTime d).dosDate.toNat / 32 % 16 = d.getMonth + 1 ∧
      (msDosDateTime d).dosDate.toNat % 32 = d.getDate := by
  rw [msDosDateTime_dosDate d hy.1 hy.2 (by omega) hd.2]
  refine ⟨rfl, ?_, ?_, ?_⟩ <;> omega

/-- Witness for C17: 17 May 2024 packs to 22705. -/
theorem msDosDateTime_date_packing_witness :
    (1980 ≤ dateMay2024.getFullYear ∧ dateMay2024.getFullYear ≤ 2107) ∧
      (msDosDateTime dateMay2024).dosDate = 22705 :=
  ⟨by decide,
    (msDosDateTime_date_packing dateMay2024 (by decide) (by decide) (by decide)).1.trans
      (by decide)⟩

theorem toUint16_of_range {v : Int} (h0 : 0 ≤ v) (h1 : v < 65536) :
    ((toUint16 v : Nat) : Int) = v := by
  unfold toUint16; omega

theorem localHeader_dosTime (f : ZipEntry) (nb : List Byte) :
    readUint16 (localHeader f nb) 10 = toUint16 f.dosTime := by
  have hlt : toUint16 f.dosTime < 65536 := by unfold toUint16; omega
  rw [localHeader_eq]
  simp only [readUint16, List.getD_cons_succ, List.getD_cons_zero, byteOf_val]
  omega

theorem localHeader_dosDate (f : ZipEntry) (nb : List Byte) :
    readUint16 (localHeader f nb) 12 = toUint16 f.dosDate := by
  have hlt : toUint16 f.dosDate < 65536 := by unfold toUint16; omega
  rw [localHeader_eq]
  simp only [readUint16, List.getD_cons_succ, List.getD_cons_zero, byteOf_val]
  omega

theorem centralHeader_dosTime (f : ZipEntry) (nb : List Byte) :
    readUint16 (centralHeader f nb) 12 = toUint16 f.dosTime := by
  have hlt : toUint16 f.dosTime < 65536 := by unfold toUint16; omega
  rw [centralHeader_eq]
  simp only [readUint16, List.getD_cons_succ, List.getD_cons_zero, byteOf_val]
  omega

theorem centralHeader_dosDate (f : ZipEntry) (nb : List Byte) :
    readUint16 (centralHeader f nb) 14 = toUint16 f.dosDate := by
  have hlt : toUint16 f.dosDate < 65536 := by unfold toUint16; omega
  rw [centralHeader_eq]
  simp only [readUint16, List.getD_cons_succ, List.getD_cons_zero, byteOf_val]
  omega

theorem dosTime_sixteen_bit (d : JSDate) (h : d.InRange) :
    0 ≤ (msDosDateTime d).dosTime ∧ (msDosDateTime d).dosTime ≤ 65535 := by
  obtain ⟨_, _, _, _, _, hh, hmi, hs⟩ := h
  rw [msDosDateTime_dosTime d hh hmi hs]
  omega

theorem dosDate_sixteen_bit_of_year (d : JSDate) (h : d.InRange)
    (hy : 1980 ≤ d.getFullYear ∧ d.getFullYear ≤ 2107) :
    0 ≤ (msDosDateTime d).dosDate ∧ (msDosDateTime d).dosDate ≤ 65535 := by
  obtain ⟨_, _, hmo, _, hd2, _, _, _⟩ := h
  rw [msDosDateTime_dosDate d hy.1 hy.2 hmo hd2]
  omega

theorem year_of_dosDate_sixteen_bit (d : JSDate) (h : d.InRange)
    (hr : 0 ≤ (msDosDateTime d).dosDate ∧ (msDosDateTime d).dosDate ≤ 65535) :
    1980 ≤ d.getFullYear ∧ d.getFullYear ≤ 2107 := by
  obtain ⟨hy1, hy2, hmo, _, hd2, _, _, _⟩ := h
  by_cases hlo : d.getFullYear < 1980
  · have := msDosDateTime_dosDate_neg d hy1 hlo
    omega
  · by_cases hhi : 2108 ≤ d.getFullYear
    · have := msDosDateTime_dosDate_big d hhi hy2 hmo hd2
      omega
    · omega

theorem header_timestamp_fields (f : ZipEntry) (nb : List Byte)
    (ht : 0 ≤ f.dosTime ∧ f.dosTime ≤ 65535) (hd : 0 ≤ f.dosDate ∧ f.dosDate ≤ 65535) :
    ((readUint16 (localHeader f nb) 10 : Nat) : Int) = f.dosTime ∧
      ((readUint16 (localHeader f nb) 12 : Nat) : Int) = f.dosDate ∧
      ((readUint16 (centralHeader f nb) 12 : Nat) : Int) = f.dosTime ∧
      ((readUint16 (centralHeader f nb) 14 : Nat) : Int) = f.dosDate := by
  rw [localHeader_dosTime, localHeader_dosDate, centralHeader_dosTime, centralHeader_dosDate]
  exact ⟨toUint16_of_range ht.1 (by omega), toUint16_of_range hd.1 (by omega),
    toUint16_of_range ht.1 (by omega), toUint16_of_range hd.1 (by omega)⟩

/-- C18 (amended): for every date passed to `msDosDateTime`, the returned
dosTime is a 16-bit value (an integer in 0..65535), and the returned dosDate
is one exactly when the year is in 1980..2107; for such a year the 2-byte
fields that `build` writes in the local and the central header hold exactly
the values stored in the entry. -/
theorem msDosDateTime_sixteen_bit (d : JSDate) (h : d.InRange) :
    (0 ≤ (msDosDateTime d).dosTime ∧ (msDosDateTime d).dosTime ≤ 65535) ∧
      ((0 ≤ (msDosDateTime d).dosDate ∧ (msDosDateTime d).dosDate ≤ 65535) ↔
        (1980 ≤ d.getFullYear ∧ d.getFullYear ≤ 2107)) ∧
      ((1980 ≤ d.getFullYear ∧ d.getFullYear ≤ 2107) →
        ∀ (f : ZipEntry) (nb : List Byte),
          f.dosTime = (msDosDateTime d).dosTime → f.dosDate = (msDosDateTime d).dosDate →
            ((readUint16 (localHeader f nb) 10 : Nat) : Int) = f.dosTime ∧
            ((readUint16 (localHeader f nb) 12 : Nat) : Int) = f.dosDate ∧
            ((readUint16 (centralHeader f nb) 12 : Nat) : Int) = f.dosTime ∧
            ((readUint16 (centralHeader f nb) 14 : Nat) : Int) = f.dosDate) :=
  ⟨dosTime_sixteen_bit d h,
    ⟨year_of_dosDate_sixteen_bit d h, dosDate_sixteen_bit_of_year d h⟩,
    fun hy f nb hft hfd =>
      header_timestamp_fields f nb (hft ▸ dosTime_sixteen_bit d h)
        (hfd ▸ dosDate_sixteen_bit_of_year d h hy)⟩

/-- Witness for C18: 17 May 2024, 13:45:31. -/
theorem msDosDateTime_sixteen_bit_witness :
    dateMay2024.InRange ∧
      (0 ≤ (msDosDateTime dateMay2024).dosTime ∧ (msDosDateTime dateMay2024).dosTime ≤ 65535) ∧
      (0 ≤ (msDosDateTime dateMay2024).dosDate ∧ (msDosDateTime dateMay2024).dosDate ≤ 65535) :=
  ⟨by decide, (msDosDateTime_sixteen_bit dateMay2024 (by decide)).1,
    (msDosDateTime_sixteen_bit dateMay2024 (by decide)).2.1.mpr (by decide)⟩

set_option maxRecDepth 100000 in
/-- Counterexample for C18 as stated: for 1 January 2108 the returned dosDate
is 65569 and the date field of the local header holds 33; for 1 January 1970
the returned dosDate is -5087 and the field holds 60449. -/
theorem msDosDateTime_sixteen_bit_counterexample :
    date2108.InRange ∧ (msDosDateTime date2108).dosDate = 65569 ∧
      readUint16 (localHeader (newEntry ([0x61], [], date2108)) [0x61]) 12 = 33 ∧
      date1970.InRange ∧ (msDosDateTime date1970).dosDate = -5087 ∧
      readUint16 (localHeader (newEntry ([0x61], [], date1970)) [0x61]) 12 = 60449 := by
  decide

/-- C19: `addTextFile(path, text)` appends exactly one entry at the end of the
entry list and leaves the earlier entries unchanged and in place; the new
entry's content is the UTF-8 encoding of `text`, its crc32 is `crc32` of that
content, and its `localHeaderOffset` is 0. -/
theorem addTextFile_appends (z : MiniZip) (path text : JSString) (now : JSDate) :
    (addTextFile z path text now).files.length = z.files.length + 1 ∧
      (addTextFile z path text now).files.take z.files.length = z.files ∧
      ∃ e : ZipEntry, (addTextFile z path text now).files = z.files ++ [e] ∧
        e.dataUint8 = textToUint8 text ∧ e.crc32 = crc32 (textToUint8 text) ∧
        e.localHeaderOffset = 0 := by
  rw [addTextFile_files]
  refine ⟨by simp, List.take_left _ _, newEntry (path, text, now), rfl, ?_⟩
  simp only [newEntry, and_self]

/-- C20: `build` keeps the number and the order of the entries and every
entry's name, content, crc32, dosTime and dosDate; the entry list after the
call is the list before it with the assignments to `localHeaderOffset` of the
first loop applied, one assignment per entry, in insertion order (positions
0, 1, .., n-1); each entry gets the total length of the local records before
it, and the offset field of its central header holds that new value (modulo
2^32), so the second loop reads the offset after it was assigned. -/
theorem build_frame (z : MiniZip) :
    (build z).zip.files.length = z.files.length ∧
      (build z).zip.files.map entryCore = z.files.map entryCore ∧
      (build z).zip.files = applyWrites z.files (localLoopWrites z.files 0 0) ∧
      (localLoopWrites z.files 0 0).map Prod.fst = List.range z.files.length ∧
      (∀ (i : Nat) (f : ZipEntry), (build z).zip.files[i]? = some f →
        f.localHeaderOffset
            = ((z.files.take i).map
                (fun g => 30 + (textToUint8 g.name).length + g.dataUint8.length)).sum ∧
          readUint32 (centralHeaderAt z.files (build z).bytes i) 42
            = f.localHeaderOffset % 4294967296) := by
  refine ⟨?_, build_core z, ?_, ?_, ?_⟩
  · rw [build_files, withOffsets_length]
  · have := applyWrites_localLoopWrites z.files [] 0
    simp only [List.nil_append, List.length_nil] at this
    rw [this, build_files]
  · rw [localLoopWrites_indices, List.range_eq_range']
  · intro i f hf
    have hc := centralHeaderAt_build_entry z i f hf
    rw [hc, centralHeader_localHeaderOffset]
    refine ⟨?_, rfl⟩
    rw [build_files_getElem?] at hf
    cases hg : z.files[i]? with
    | none => rw [hg] at hf; cases hf
    | some g =>
      rw [hg] at hf
      simp only [Option.map_some', Option.some.injEq] at hf
      rw [← hf, localRecordsSize_eq_sum]

set_option maxRecDepth 100000 in
/-- Witness for C20: the second entry of the sample builder gets offset 41. -/
theorem build_frame_witness :
    (build sampleZip).zip.files[1]?
        = some { newEntry ([0x78], [0x20AC], sampleDate) with localHeaderOffset := 41 } ∧
      readUint32 (centralHeaderAt sampleZip.files (build sampleZip).bytes 1) 42 = 41 :=
  ⟨by decide,
    ((build_frame sampleZip).2.2.2.2 1
      { newEntry ([0x78], [0x20AC], sampleDate) with localHeaderOffset := 41 }
      (by decide)).2.trans (by decide)⟩


/-! ## Name bytes never hold a backslash -/

theorem byteOf_ne_of_ge {n : Nat} (h1 : 128 ≤ n) (h2 : n < 256) : byteOf n ≠ (0x5C : Byte) := by
  intro h
  have := congrArg Fin.val h
  rw [byteOf_val, Nat.mod_eq_of_lt h2] at this
  have e : ((0x5C : Byte) : Nat) = 92 := rfl
  omega

theorem backslash_not_mem_utf8EncodeScalar (c : Nat) (hc : c ≠ 0x5C) (hlt : c < 0x110000) :
    (0x5C : Byte) ∉ utf8EncodeScalar c := by
  unfold utf8EncodeScalar
  have e : ((0x5C : Byte) : Nat) = 92 := rfl
  split
  · intro h
    rw [List.mem_singleton] at h
    have := congrArg Fin.val h
    rw [byteOf_val, e] at this
    omega
  · split
    · intro h
      simp only [List.mem_cons, List.mem_singleton, List.not_mem_nil, or_false] at h
      rcases h with h | h
      · exact byteOf_ne_of_ge (by omega) (by omega) h.symm
      · exact byteOf_ne_of_ge (by omega) (by omega) h.symm
    · split
      · intro h
        simp only [List.mem_cons, List.mem_singleton, List.not_mem_nil, or_false] at h
        rcases h with h | h | h
        · exact byteOf_ne_of_ge (by omega) (by omega) h.symm
        · exact byteOf_ne_of_ge (by omega) (by omega) h.symm
        · exact byteOf_ne_of_ge (by omega) (by omega) h.symm
      · intro h
        simp only [List.mem_cons, List.mem_singleton, List.not_mem_nil, or_false] at h
        rcases h with h | h | h | h
        · exact byteOf_ne_of_ge (by omega) (by omega) h.symm
        · exact byteOf_ne_of_ge (by omega) (by omega) h.symm
        · exact byteOf_ne_of_ge (by omega) (by omega) h.symm
        · exact byteOf_ne_of_ge (by omega) (by omega) h.symm

theorem backslash_not_mem_utf8EncodeFrom (s : JSString) (pending : Option CodeUnit)
    (hp : ∀ h, pending = some h → isHighSurrogate h = true)
    (hs : (0x5C : CodeUnit) ∉ s) : (0x5C : Byte) ∉ utf8EncodeFrom pending s := by
  have hrep : (0x5C : Byte) ∉ utf8EncodeScalar 0xFFFD :=
    backslash_not_mem_utf8EncodeScalar _ (by decide) (by decide)
  induction s generalizing pending with
  | nil =>
    cases pending with
    | none => simp [utf8EncodeFrom]
    | some h => rw [utf8EncodeFrom]; exact hrep
  | cons u rest ih =>
    have hu : u ≠ 0x5C := fun h => hs (by rw [h]; exact List.mem_cons_self _ _)
    have huv : u.val ≠ 0x5C := fun h => hu (Fin.ext h)
    have hrest : (0x5C : CodeUnit) ∉ rest := fun h => hs (List.mem_cons_of_mem _ h)
    have hnone := ih none (by intro h hh; cases hh) hrest
    have hself : (0x5C : Byte) ∉ utf8EncodeScalar u.val :=
      backslash_not_mem_utf8EncodeScalar _ huv (by have := u.isLt; omega)
    cases pending with
    | none =>
      rw [utf8EncodeFrom]
      split
      · rename_i hhigh
        exact ih (some u) (by intro h hh; cases hh; exact hhigh) hrest
      · split
        · exact fun h => (List.mem_append.mp h).elim hrep hnone
        · exact fun h => (List.mem_append.mp h).elim hself hnone
    | some h =>
      have hh := hp h rfl
      rw [utf8EncodeFrom]
      split
      · rename_i hlow
        have hpair : (0x5C : Byte) ∉
            utf8EncodeScalar (0x10000 + (h.val - 0xD800) * 0x400 + (u.val - 0xDC00)) := by
          unfold isHighSurrogate at hh
          unfold isLowSurrogate at hlow
          simp only [Bool.and_eq_true, decide_eq_true_eq] at hh hlow
          exact backslash_not_mem_utf8EncodeScalar _ (by omega) (by omega)
        exact fun hm => (List.mem_append.mp hm).elim hpair hnone
      · split
        · rename_i hhigh
          have := ih (some u) (by intro h' hh'; cases hh'; exact hhigh) hrest
          exact fun hm => (List.mem_append.mp hm).elim hrep this
        · exact fun hm => (List.mem_append.mp hm).elim hrep
            (fun hm' => (List.mem_append.mp hm').elim hself hnone)

theorem backslash_not_mem_textToUint8 (s : JSString) (hs : (0x5C : CodeUnit) ∉ s) :
    (0x5C : Byte) ∉ textToUint8 s :=
  backslash_not_mem_utf8EncodeFrom s none (by intro h hh; cases hh) hs

/-! ## The local header and the central header of one entry -/

theorem build_name_bytes_split (pre post : List ZipEntry) (f : ZipEntry) :
    slice (build { files := pre ++ f :: post }).bytes (localRecordsSize pre + 30)
        (textToUint8 f.name).length = textToUint8 f.name ∧
      slice (build { files := pre ++ f :: post }).bytes
        (localRecordsSize (pre ++ f :: post) + centralRecordsSize pre + 46)
        (textToUint8 f.name).length = textToUint8 f.name := by
  obtain ⟨x, t, hC, hx⟩ := build_central_view pre post f
  obtain ⟨y, u, hL, hy⟩ := build_local_view pre post f
  constructor
  · rw [hL]
    exact slice_inside y _ _ _ _ (by rw [localHeader_length, hy])
  · rw [hC]
    exact slice_inside x _ _ _ _ (by rw [centralHeader_length, hx])

theorem build_name_bytes (z : MiniZip) (i : Nat) (f : ZipEntry) (hf : z.files[i]? = some f) :
    slice (build z).bytes (localRecordsSize (z.files.take i) + 30)
        (textToUint8 f.name).length = textToUint8 f.name ∧
      slice (build z).bytes
        (localRecordsSize z.files + centralRecordsSize (z.files.take i) + 46)
        (textToUint8 f.name).length = textToUint8 f.name := by
  obtain ⟨h, rfl⟩ := List.getElem?_eq_some_iff.mp hf
  have hs := split_at_index z.files i h
  have := build_name_bytes_split (z.files.take i) (z.files.drop (i + 1)) z.files[i]
  rw [← hs] at this
  exact this

theorem centralHeaderAt_build_of_getElem? (z : MiniZip) (i : Nat) (f : ZipEntry)
    (hf : z.files[i]? = some f) :
    centralHeaderAt z.files (build z).bytes i =
      centralHeader { f with localHeaderOffset := localRecordsSize (z.files.take i) }
        (textToUint8 f.name) := by
  obtain ⟨h, rfl⟩ := List.getElem?_eq_some_iff.mp hf
  exact centralHeaderAt_build z i h

theorem shared_fields_agree (f g : ZipEntry) (nb : List Byte)
    (h : entryCore f = entryCore g) :
    slice (localHeader f nb) 4 24 = slice (centralHeader g nb) 6 24 := by
  simp only [entryCore, Prod.mk.injEq] at h
  obtain ⟨_, h2, h3, h4, h5⟩ := h
  rw [localHeader_eq, centralHeader_eq, h2, h3, h4, h5]
  rfl

theorem readUint16_slice (bs : List Byte) (p n k : Nat) (h : k + 2 ≤ n) :
    readUint16 (slice bs p n) k = readUint16 bs (p + k) := by
  unfold readUint16 slice
  simp only [List.getD_eq_getElem?_getD, List.getElem?_take, List.getElem?_drop]
  rw [if_pos (by omega), if_pos (by omega), Nat.add_assoc]

theorem readUint32_slice (bs : List Byte) (p n k : Nat) (h : k + 4 ≤ n) :
    readUint32 (slice bs p n) k = readUint32 bs (p + k) := by
  unfold readUint32 slice
  simp only [List.getD_eq_getElem?_getD, List.getElem?_take, List.getElem?_drop]
  rw [if_pos (by omega), if_pos (by omega), if_pos (by omega), if_pos (by omega)]
  simp only [Nat.add_assoc]

/-- C25: for every entry of every entry list, the local header and the central
header that `build` writes for it hold the same bytes in their shared fields
(version needed, flags, method, dosTime, dosDate, crc32, compressed size,
uncompressed size, name length: 24 bytes from position 4 of the local header
and from position 6 of the central header), so each shared field reads the
same number in both, and both headers are followed by the same name bytes.
No bound on the lengths is needed. -/
theorem local_central_shared_fields (z : MiniZip) (i : Nat) (f : ZipEntry)
    (hf : z.files[i]? = some f) :
    slice (localHeaderAt z.files (build z).bytes i) 4 24
        = slice (centralHeaderAt z.files (build z).bytes i) 6 24 ∧
      readUint16 (localHeaderAt z.files (build z).bytes i) 4
        = readUint16 (centralHeaderAt z.files (build z).bytes i) 6 ∧
      readUint16 (localHeaderAt z.files (build z).bytes i) 6
        = readUint16 (centralHeaderAt z.files (build z).bytes i) 8 ∧
      readUint16 (localHeaderAt z.files (build z).bytes i) 8
        = readUint16 (centralHeaderAt z.files (build z).bytes i) 10 ∧
      readUint16 (localHeaderAt z.files (build z).bytes i) 10
        = readUint16 (centralHeaderAt z.files (build z).bytes i) 12 ∧
      readUint16 (localHeaderAt z.files (build z).bytes i) 12
        = readUint16 (centralHeaderAt z.files (build z).bytes i) 14 ∧
      readUint32 (localHeaderAt z.files (build z).bytes i) 14
        = readUint32 (centralHeaderAt z.files (build z).bytes i) 16 ∧
      readUint32 (localHeaderAt z.files (build z).bytes i) 18
        = readUint32 (centralHeaderAt z.files (build z).bytes i) 20 ∧
      readUint32 (localHeaderAt z.files (build z).bytes i) 22
        = readUint32 (centralHeaderAt z.files (build z).bytes i) 24 ∧
      readUint16 (localHeaderAt z.files (build z).bytes i) 26
        = readUint16 (centralHeaderAt z.files (build z).bytes i) 28 ∧
      slice (build z).bytes (localRecordsSize (z.files.take i) + 30) (textToUint8 f.name).length
        = slice (build z).bytes
            (localRecordsSize z.files + centralRecordsSize (z.files.take i) + 46)
            (textToUint8 f.name).length := by
  have hn := build_name_bytes z i f hf
  rw [localHeaderAt_build z i f hf, centralHeaderAt_build_of_getElem? z i f hf, hn.1, hn.2]
  refine ⟨shared_fields_agree _ _ _ rfl, ?_⟩
  rw [localHeader_eq, centralHeader_eq]
  simp only [readUint16, readUint32, List.getD_cons_succ, List.getD_cons_zero, and_self]

set_option maxRecDepth 100000 in
/-- Witness for C25: the second entry of the sample builder. -/
theorem local_central_shared_fields_witness :
    sampleZip.files[1]? = some (newEntry ([0x78], [0x20AC], sampleDate)) ∧
      slice (localHeaderAt sampleZip.files (build sampleZip).bytes 1) 4 24
        = slice (centralHeaderAt sampleZip.files (build sampleZip).bytes 1) 6 24 :=
  ⟨by decide,
    (local_central_shared_fields sampleZip 1 (newEntry ([0x78], [0x20AC], sampleDate))
      (by decide)).1⟩

theorem localHeader_nameLength (f : ZipEntry) (nb : List Byte) :
    readUint16 (localHeader f nb) 26 = nb.length % 65536 := by
  rw [localHeader_eq]
  simp only [readUint16, List.getD_cons_succ, List.getD_cons_zero, byteOf_val]
  omega

theorem centralHeader_nameLength (f : ZipEntry) (nb : List Byte) :
    readUint16 (centralHeader f nb) 28 = nb.length % 65536 := by
  rw [centralHeader_eq]
  simp only [readUint16, List.getD_cons_succ, List.getD_cons_zero, byteOf_val]
  omega

/-- C26: for every entry, the 2-byte name length field of the local header
(position 26) and of the central header (position 28) holds the UTF-8 byte
length of the name modulo 65536, while all the name bytes follow each header;
the field equals the number of name bytes that follow if and only if the name
is shorter than 65536 bytes.  `build` is a total function: it gives an archive
for a longer name as well. -/
theorem nameLength_field (z : MiniZip) (i : Nat) (f : ZipEntry) (hf : z.files[i]? = some f) :
    readUint16 (localHeaderAt z.files (build z).bytes i) 26
        = (textToUint8 f.name).length % 65536 ∧
      readUint16 (centralHeaderAt z.files (build z).bytes i) 28
        = (textToUint8 f.name).length % 65536 ∧
      slice (build z).bytes (localRecordsSize (z.files.take i) + 30) (textToUint8 f.name).length
        = textToUint8 f.name ∧
      slice (build z).bytes (localRecordsSize z.files + centralRecordsSize (z.files.take i) + 46)
        (textToUint8 f.name).length = textToUint8 f.name ∧
      (readUint16 (localHeaderAt z.files (build z).bytes i) 26 = (textToUint8 f.name).length ↔
        (textToUint8 f.name).length < 65536) ∧
      (readUint16 (centralHeaderAt z.files (build z).bytes i) 28 = (textToUint8 f.name).length ↔
        (textToUint8 f.name).length < 65536) := by
  have hn := build_name_bytes z i f hf
  rw [localHeaderAt_build z i f hf, centralHeaderAt_build_of_getElem? z i f hf,
    localHeader_nameLength, centralHeader_nameLength]
  refine ⟨rfl, rfl, hn.1, hn.2, ?_, ?_⟩ <;> constructor <;> intro h <;> omega

theorem uniformZip_getElem?_zero (nameLen textLen : Nat) :
    (uniformZip 1 nameLen textLen).files[0]?
      = some (newEntry (repeatA nameLen, repeatA textLen, sampleDate)) := by
  rw [uniformZip_files]
  rfl

theorem newEntry_repeatA_nameLength (nameLen textLen : Nat) :
    (textToUint8 (newEntry (repeatA nameLen, repeatA textLen, sampleDate)).name).length
      = nameLen := by
  show (textToUint8 (replaceBackslashes (repeatA nameLen))).length = nameLen
  rw [replaceBackslashes_repeatA, textToUint8_repeatA, List.length_replicate]

/-- Witness for C26: after `addTextFile("a".repeat(65536), "")` the name length
field of the local header holds 0 and 65536 name bytes follow the header. -/
theorem nameLength_field_witness :
    (uniformZip 1 65536 0).files[0]?
        = some (newEntry (repeatA 65536, repeatA 0, sampleDate)) ∧
      readUint16 (localHeaderAt (uniformZip 1 65536 0).files
        (build (uniformZip 1 65536 0)).bytes 0) 26 = 0 ∧
      (slice (build (uniformZip 1 65536 0)).bytes 30 65536).length = 65536 := by
  have h := nameLength_field (uniformZip 1 65536 0) 0 _ (uniformZip_getElem?_zero 65536 0)
  rw [newEntry_repeatA_nameLength] at h
  refine ⟨uniformZip_getElem?_zero 65536 0, h.1, ?_⟩
  have h3 := h.2.2.1
  have e : localRecordsSize ((uniformZip 1 65536 0).files.take 0) + 30 = 30 := rfl
  rw [e] at h3
  rw [h3]
  exact newEntry_repeatA_nameLength 65536 0

/-- C27: for every path given to `addTextFile`, the name bytes that `build`
writes behind the local header and behind the central header of the new entry
are the UTF-8 encoding of the normalized name and hold no byte `0x5C`:
normalization leaves no `\` in the name, a one-byte UTF-8 sequence is the code
unit itself, and every byte of a longer sequence is `0x80` or above. -/
theorem name_bytes_without_backslash (z : MiniZip) (path text : JSString) (now : JSDate) :
    slice (build (addTextFile z path text now)).bytes (localRecordsSize z.files + 30)
        (textToUint8 (replaceBackslashes path)).length = textToUint8 (replaceBackslashes path) ∧
      slice (build (addTextFile z path text now)).bytes
        (localRecordsSize (addTextFile z path text now).files + centralRecordsSize z.files + 46)
        (textToUint8 (replaceBackslashes path)).length = textToUint8 (replaceBackslashes path) ∧
      (0x5C : Byte) ∉ textToUint8 (replaceBackslashes path) ∧
      (∀ c : Nat, 0x80 ≤ c → c < 0x110000 → ∀ b ∈ utf8EncodeScalar c, 0x80 ≤ b.val) := by
  have h := build_last_name z (newEntry (path, text, now))
  refine ⟨h.1, h.2, backslash_not_mem_textToUint8 _ (backslash_not_mem_replaceBackslashes path),
    ?_⟩
  intro c h1 h2 b hb
  unfold utf8EncodeScalar at hb
  rw [if_neg (by omega)] at hb
  split at hb
  · simp only [List.mem_cons, List.mem_singleton, List.not_mem_nil, or_false] at hb
    rcases hb with rfl | rfl <;> rw [byteOf_val] <;> omega
  · split at hb
    · simp only [List.mem_cons, List.mem_singleton, List.not_mem_nil, or_false] at hb
      rcases hb with rfl | rfl | rfl <;> rw [byteOf_val] <;> omega
    · simp only [List.mem_cons, List.mem_singleton, List.not_mem_nil, or_false] at hb
      rcases hb with rfl | rfl | rfl | rfl <;> rw [byteOf_val] <;> omega

/-! ## A change of one bit changes the checksum -/

theorem crcRefBit_ne_zero {d : Nat} (h0 : d ≠ 0) (hlt : d < 4294967296) : crcRefBit d ≠ 0 := by
  unfold crcRefBit
  split
  · intro h
    have := Nat.xor_eq_zero.mp h
    omega
  · omega

theorem crcRefBit_injective {a b : Nat} (ha : a < 4294967296) (hb : b < 4294967296)
    (h : crcRefBit a = crcRefBit b) : a = b := by
  by_contra hne
  have hx : a ^^^ b ≠ 0 := Nat.xor_ne_zero.mpr hne
  have hlt : a ^^^ b < 4294967296 := Nat.xor_lt_two_pow (n := 32) ha hb
  have := crcRefBit_ne_zero hx hlt
  rw [crcRefBit_xor, h, Nat.xor_self] at this
  exact this rfl

theorem iterate_crcRefBit_lt (k : Nat) {x : Nat} (hx : x < 4294967296) :
    Nat.iterate crcRefBit k x < 4294967296 := by
  induction k generalizing x with
  | zero => simpa using hx
  | succ k ih => rw [Function.iterate_succ_apply]; exact ih (crcRefBit_lt hx)

theorem iterate_crcRefBit_injective (k : Nat) {a b : Nat} (ha : a < 4294967296)
    (hb : b < 4294967296) (h : Nat.iterate crcRefBit k a = Nat.iterate crcRefBit k b) :
    a = b := by
  induction k generalizing a b with
  | zero => simpa using h
  | succ k ih =>
    rw [Function.iterate_succ_apply, Function.iterate_succ_apply] at h
    exact crcRefBit_injective ha hb (ih (crcRefBit_lt ha) (crcRefBit_lt hb) h)

theorem crcRefByte_lt {r : Nat} (hr : r < 4294967296) (b : Byte) :
    crcRefByte r b < 4294967296 := by
  unfold crcRefByte
  exact iterate_crcRefBit_lt 8
    (Nat.xor_lt_two_pow (n := 32) hr (by have := b.isLt; omega))

theorem foldl_crcRefByte_lt (bs : List Byte) {r : Nat} (hr : r < 4294967296) :
    bs.foldl crcRefByte r < 4294967296 := by
  induction bs generalizing r with
  | nil => exact hr
  | cons b bs ih => rw [List.foldl_cons]; exact ih (crcRefByte_lt hr b)

theorem crcRefByte_injective_left {r s : Nat} (hr : r < 4294967296) (hs : s < 4294967296)
    (b : Byte) (h : crcRefByte r b = crcRefByte s b) : r = s := by
  unfold crcRefByte at h
  have hb : b.val < 4294967296 := by have := b.isLt; omega
  have := iterate_crcRefBit_injective 8 (Nat.xor_lt_two_pow (n := 32) hr hb)
    (Nat.xor_lt_two_pow (n := 32) hs hb) h
  exact Nat.xor_left_inj.mp this

theorem crcRefByte_injective_right {r : Nat} (hr : r < 4294967296) (x y : Byte)
    (h : crcRefByte r x = crcRefByte r y) : x = y := by
  unfold crcRefByte at h
  have hx : x.val < 4294967296 := by have := x.isLt; omega
  have hy : y.val < 4294967296 := by have := y.isLt; omega
  have := iterate_crcRefBit_injective 8 (Nat.xor_lt_two_pow (n := 32) hr hx)
    (Nat.xor_lt_two_pow (n := 32) hr hy) h
  exact Fin.ext (Nat.xor_right_inj.mp this)

theorem foldl_crcRefByte_injective (bs : List Byte) {r s : Nat} (hr : r < 4294967296)
    (hs : s < 4294967296) (h : bs.foldl crcRefByte r = bs.foldl crcRefByte s) : r = s := by
  induction bs generalizing r s with
  | nil => exact h
  | cons b bs ih =>
    rw [List.foldl_cons, List.foldl_cons] at h
    exact crcRefByte_injective_left hr hs b (ih (crcRefByte_lt hr b) (crcRefByte_lt hs b) h)

/-- Two byte sequences that differ in one byte only have different checksums. -/
theorem crc32Reference_ne_of_one_byte (pre post : List Byte) (x y : Byte) (hxy : x ≠ y) :
    crc32Reference (pre ++ x :: post) ≠ crc32Reference (pre ++ y :: post) := by
  unfold crc32Reference
  intro h
  have h' := Nat.xor_left_inj.mp h
  rw [List.foldl_append, List.foldl_append, List.foldl_cons, List.foldl_cons] at h'
  have hr : pre.foldl crcRefByte 0xFFFFFFFF < 4294967296 := foldl_crcRefByte_lt pre (by decide)
  have := foldl_crcRefByte_injective post (crcRefByte_lt hr x) (crcRefByte_lt hr y) h'
  exact hxy (crcRefByte_injective_right hr x y this)

set_option maxRecDepth 1000000 in
theorem bitsSet_eq_zero : ∀ n : Fin 256, bitsSet n.val = 0 → n.val = 0 := by
  decide

theorem bitsSet_zero : bitsSet 0 = 0 := by decide

theorem eq_of_bitsSet_xor_eq_zero (x y : Byte) (h : bitsSet (x.val ^^^ y.val) = 0) : x = y := by
  have hlt : x.val ^^^ y.val < 256 :=
    Nat.xor_lt_two_pow (n := 8) x.isLt y.isLt
  have := bitsSet_eq_zero ⟨x.val ^^^ y.val, hlt⟩ h
  exact Fin.ext (Nat.xor_eq_zero.mp this)

theorem eq_of_bitDistance_eq_zero (a b : List Byte) (hl : a.length = b.length)
    (h : bitDistance a b = 0) : a = b := by
  induction a generalizing b with
  | nil =>
    cases b with
    | nil => rfl
    | cons y b => simp at hl
  | cons x a ih =>
    cases b with
    | nil => simp at hl
    | cons y b =>
      rw [bitDistance] at h
      have h1 : bitsSet (x.val ^^^ y.val) = 0 := by omega
      have h2 : bitDistance a b = 0 := by omega
      rw [eq_of_bitsSet_xor_eq_zero x y h1, ih b (by simpa using hl) h2]

/-- Sequences of equal length at bit distance 1 agree except at one byte. -/
theorem one_byte_of_bitDistance_one (a b : List Byte) (hl : a.length = b.length)
    (h : bitDistance a b = 1) :
    ∃ (pre post : List Byte) (x y : Byte), x ≠ y ∧ a = pre ++ x :: post ∧ b = pre ++ y :: post := by
  induction a generalizing b with
  | nil =>
    cases b with
    | nil => simp [bitDistance] at h
    | cons y b => simp at hl
  | cons x a ih =>
    cases b with
    | nil => simp at hl
    | cons y b =>
      rw [bitDistance] at h
      have hl' : a.length = b.length := by simpa using hl
      by_cases hxy : x = y
      · subst hxy
        rw [Nat.xor_self, bitsSet_zero, Nat.zero_add] at h
        obtain ⟨pre, post, u, v, huv, ha, hb⟩ := ih b hl' h
        exact ⟨x :: pre, post, u, v, huv, by rw [ha]; rfl, by rw [hb]; rfl⟩
      · have h1 : bitsSet (x.val ^^^ y.val) ≠ 0 := fun h0 =>
          hxy (eq_of_bitsSet_xor_eq_zero x y h0)
        have h2 : bitDistance a b = 0 := by omega
        have := eq_of_bitDistance_eq_zero a b hl' h2
        exact ⟨[], a, x, y, hxy, rfl, by rw [this]; rfl⟩

set_option maxRecDepth 100000 in
/-- C28: single-bit error detection.  For all byte sequences `a` and `b` of the
same length that differ in exactly one bit, `crc32 a` is different from
`crc32 b`. -/
theorem crc32_detects_one_bit (a b : List Byte) (hl : a.length = b.length)
    (h : bitDistance a b = 1) : crc32 a ≠ crc32 b := by
  obtain ⟨pre, post, x, y, hxy, ha, hb⟩ := one_byte_of_bitDistance_one a b hl h
  rw [crc32_eq_reference, crc32_eq_reference, ha, hb]
  exact crc32Reference_ne_of_one_byte pre post x y hxy

set_option maxRecDepth 100000 in
/-- Witness for C28: `"123456789"` and the same bytes with the lowest bit of
the fifth byte flipped. -/
theorem crc32_detects_one_bit_witness :
    bitDistance [0x31, 0x32, 0x33, 0x34, 0x35, 0x36, 0x37, 0x38, 0x39]
        [0x31, 0x32, 0x33, 0x34, 0x34, 0x36, 0x37, 0x38, 0x39] = 1 ∧
      crc32 [0x31, 0x32, 0x33, 0x34, 0x35, 0x36, 0x37, 0x38, 0x39]
        ≠ crc32 [0x31, 0x32, 0x33, 0x34, 0x34, 0x36, 0x37, 0x38, 0x39] :=
  ⟨by decide, crc32_detects_one_bit _ _ (by decide) (by decide)⟩

/-! ## Values that are not strings -/

/-- C21 (amended): `addTextFile` called with a name that is not a string
(`undefined`, or a number, a boolean or `null`) raises a `TypeError` and
leaves the builder as it was, whatever the content is.  Called with a string
name and a content that is not a string it raises no error: the content is
converted to a string (`undefined` to the empty string) and the entry is
stored as for that string. -/
theorem addTextFileValue_non_string (z : MiniZip) (now : JSDate) :
    (∀ text : JSValue,
        addTextFileValue z JSValue.undefined text now
          = { error := some JSError.typeError, zip := z }) ∧
      (∀ (n : JSString) (text : JSValue),
        addTextFileValue z (JSValue.primitive n) text now
          = { error := some JSError.typeError, zip := z }) ∧
      (∀ p t : JSString,
        addTextFileValue z (JSValue.string p) (JSValue.string t) now
          = { error := none, zip := addTextFile z p t now }) ∧
      (∀ p n : JSString,
        addTextFileValue z (JSValue.string p) (JSValue.primitive n) now
          = { error := none, zip := addTextFile z p n now }) ∧
      (∀ p : JSString,
        addTextFileValue z (JSValue.string p) JSValue.undefined now
          = { error := none, zip := addTextFile z p [] now }) :=
  ⟨fun _ => rfl, fun _ _ => rfl, fun _ _ => rfl, fun _ _ => rfl, fun _ => rfl⟩

set_option maxRecDepth 100000 in
/-- Counterexample for C21 as stated: `addTextFile("a", 123)` raises no error
and stores an entry whose content is the three bytes of `"123"`. -/
theorem addTextFileValue_non_string_counterexample :
    (addTextFileValue new (JSValue.string [0x61]) (JSValue.primitive [0x31, 0x32, 0x33])
        sampleDate).error = none ∧
      (addTextFileValue new (JSValue.string [0x61]) (JSValue.primitive [0x31, 0x32, 0x33])
        sampleDate).zip.files.map (fun f => f.dataUint8) = [[0x31, 0x32, 0x33]] := by
  decide

/-! ## The two copies of `MiniZip` agree -/

theorem dashboard_textToUint8 : Dashboard.textToUint8 = textToUint8 := rfl

theorem dashboard_crc32TableStep : Dashboard.crc32TableStep = crc32TableStep := rfl

theorem dashboard_crc32TableEntry : Dashboard.crc32TableEntry = crc32TableEntry := by
  funext n
  unfold Dashboard.crc32TableEntry crc32TableEntry
  rw [dashboard_crc32TableStep]

theorem dashboard_crc32Table : Dashboard.crc32Table = crc32Table := by
  unfold Dashboard.crc32Table crc32Table
  rw [dashboard_crc32TableEntry]

theorem dashboard_crc32Step : Dashboard.crc32Step = crc32Step := by
  funext crc b
  unfold Dashboard.crc32Step crc32Step
  rw [dashboard_crc32Table]

theorem dashboard_crc32 (bytes : List Byte) : Dashboard.crc32 bytes = crc32 bytes := by
  unfold Dashboard.crc32 crc32
  rw [dashboard_crc32Step]

theorem dashboard_msDosDateTime (d : JSDate) : Dashboard.msDosDateTime d = msDosDateTime d :=
  rfl

theorem dashboard_addTextFile (z : MiniZip) (path text : JSString) (now : JSDate) :
    Dashboard.addTextFile z path text now = addTextFile z path text now := by
  unfold Dashboard.addTextFile addTextFile
  simp only [dashboard_textToUint8, dashboard_crc32, dashboard_msDosDateTime, replaceBackslashes]

theorem dashboard_localHeader : Dashboard.localHeader = localHeader := rfl

theorem dashboard_centralHeader : Dashboard.centralHeader = centralHeader := rfl

theorem dashboard_eocdRecord : Dashboard.eocdRecord = eocdRecord := rfl

theorem dashboard_localLoop (todo : List ZipEntry) (s : BuildState) :
    Dashboard.localLoop todo s = localLoop todo s := by
  induction todo generalizing s with
  | nil => rfl
  | cons f todo ih =>
    rw [Dashboard.localLoop, localLoop, dashboard_textToUint8, dashboard_localHeader, ih]

theorem dashboard_centralLoop (todo : List ZipEntry) (s : BuildState) :
    Dashboard.centralLoop todo s = centralLoop todo s := by
  induction todo generalizing s with
  | nil => rfl
  | cons f todo ih =>
    rw [Dashboard.centralLoop, centralLoop, dashboard_textToUint8, dashboard_centralHeader, ih]

theorem dashboard_build (z : MiniZip) : Dashboard.build z = build z := by
  unfold Dashboard.build build concatChunks
  simp only [dashboard_localLoop, dashboard_centralLoop, dashboard_eocdRecord]

theorem dashboard_addAll (z : MiniZip) (adds : List (JSString × JSString × JSDate)) :
    Dashboard.addAll z adds = addAll z adds := by
  induction adds generalizing z with
  | nil => rfl
  | cons a adds ih => rw [Dashboard.addAll, addAll, dashboard_addTextFile, ih]

/-- C24: the two copies of `MiniZip` are equivalent: their `crc32` agree on
every byte sequence, their `msDosDateTime` agree on every date, and for every
sequence of `addTextFile` calls under the same clock their `build` outputs
are the same bytes. -/
theorem dashboard_copy_equivalent :
    (∀ bytes : List Byte, Dashboard.crc32 bytes = crc32 bytes) ∧
      (∀ d : JSDate, Dashboard.msDosDateTime d = msDosDateTime d) ∧
      (∀ adds : List (JSString × JSString × JSDate),
        (Dashboard.build (Dashboard.addAll new adds)).bytes
          = (build (addAll new adds)).bytes) :=
  ⟨dashboard_crc32, dashboard_msDosDateTime,
    fun adds => by rw [dashboard_addAll, dashboard_build]⟩

end MiniZip

namespace DocumentPortalAdmin

open MiniZip

/-! ## The listing and its pages -/

theorem includes_iff (s sub : JSString) : includes s sub = true ↔ sub <:+: s := by
  unfold includes
  rw [List.any_eq_true]
  constructor
  · rintro ⟨t, ht, hp⟩
    rw [List.mem_tails] at ht
    rw [ List.isPrefixOf_iff_prefix] at hp
    exact List.infix_iff_prefix_suffix.mpr ⟨t, hp, ht⟩
  · intro h
    obtain ⟨t, hp, ht⟩ := List.infix_iff_prefix_suffix.mp h
    exact ⟨t, (List.mem_tails _ _).mpr ht, ( List.isPrefixOf_iff_prefix).mpr hp⟩

theorem renderPagination_filteredCustomers (a : DocumentPortalAdmin) :
    (renderPagination a).1.filteredCustomers = a.filteredCustomers := by
  unfold renderPagination
  dsimp only
  split_ifs <;> rfl

theorem renderPagination_customers (a : DocumentPortalAdmin) :
    (renderPagination a).1.customers = a.customers := by
  unfold renderPagination
  dsimp only
  split_ifs <;> rfl

theorem one_le_pageCount (n r : Nat) : 1 ≤ pageCount n r := by
  unfold pageCount
  simp only []
  split_ifs with h
  · exact Nat.le_refl 1
  · exact Nat.one_le_iff_ne_zero.mpr h

theorem renderPagination_of_le (a : DocumentPortalAdmin)
    (h : a.currentPage ≤ pageCount a.filteredCustomers.length a.rowsPerPage) :
    renderPagination a =
      if !a.elements.paginationControls then (a, none)
      else if pageCount a.filteredCustomers.length a.rowsPerPage ≤ 1 then (a, none)
      else (a, some ((a.currentPage - 1) * a.rowsPerPage + 1,
        min ((a.currentPage - 1) * a.rowsPerPage + 1 + a.rowsPerPage - 1)
          a.filteredCustomers.length)) := by
  unfold renderPagination
  dsimp only
  rw [if_neg (Nat.not_lt.mpr h)]

theorem renderPagination_currentPage_one (a : DocumentPortalAdmin) (h : a.currentPage = 1) :
    (renderPagination a).1.currentPage = 1 := by
  have hp := one_le_pageCount a.filteredCustomers.length a.rowsPerPage
  rw [renderPagination_of_le a (by omega)]
  split_ifs <;> exact h

theorem lit_all : lit "all" = [0x61, 0x6c, 0x6c] := by decide

theorem lit_online : lit "online" = [0x6f, 0x6e, 0x6c, 0x69, 0x6e, 0x65] := by decide

theorem lit_offline : lit "offline" = [0x6f, 0x66, 0x66, 0x6c, 0x69, 0x6e, 0x65] := by decide

theorem lit_male : lit "male" = [0x6d, 0x61, 0x6c, 0x65] := by decide

theorem lit_female : lit "female" = [0x66, 0x65, 0x6d, 0x61, 0x6c, 0x65] := by decide

theorem lit_completed : lit "completed" = [0x63, 0x6f, 0x6d, 0x70, 0x6c, 0x65, 0x74, 0x65, 0x64] := by decide

theorem lit_pending : lit "pending" = [0x70, 0x65, 0x6e, 0x64, 0x69, 0x6e, 0x67] := by decide

theorem filterSwitch_iff (activeFilter : JSString) (c : Customer)
    (h : activeFilter ≠ lit "all") :
    filterSwitch activeFilter c = true ↔ FilterCondition activeFilter c := by
  unfold filterSwitch FilterCondition
  rw [lit_all, lit_online, lit_offline, lit_male, lit_female, lit_completed, lit_pending] at *
  split_ifs with h1 h2 h3 h4 h5 h6
  · subst h1
    simp
  · subst h2
    simp
  · subst h3
    simp
  · subst h4
    simp
  · subst h5
    simp
  · subst h6
    simp
  · simp [h1, h2, h3, h4, h5, h6]

theorem applyCurrentFilters_filteredCustomers (toLowerCase : JSString → JSString)
    (a : DocumentPortalAdmin) :
    (applyCurrentFilters toLowerCase a).filteredCustomers =
      (if a.activeFilter ≠ lit "all" then List.filter (filterSwitch a.activeFilter) else id)
        ((if a.searchTerm ≠ [] then
          List.filter (fun c =>
            includes (toLowerCase c.fullName) (toLowerCase a.searchTerm) ||
              includes (toLowerCase c.email) (toLowerCase a.searchTerm))
          else id) a.customers) := by
  unfold applyCurrentFilters
  dsimp only
  rw [renderPagination_filteredCustomers]
  unfold updateStats
  dsimp only
  split_ifs <;> rfl

theorem search_iff (toLowerCase : JSString → JSString) (searchTerm : JSString) (c : Customer)
    (h : searchTerm ≠ []) :
    (includes (toLowerCase c.fullName) (toLowerCase searchTerm) ||
        includes (toLowerCase c.email) (toLowerCase searchTerm)) = true ↔
      SearchCondition toLowerCase searchTerm c := by
  unfold SearchCondition
  rw [Bool.or_eq_true, includes_iff, includes_iff]
  constructor
  · intro h1
    exact Or.inr h1
  · rintro (h1 | h1)
    · exact absurd h1 h
    · exact h1

theorem listed_iff (toLowerCase : JSString → JSString) (a : DocumentPortalAdmin) (c : Customer) :
    ((if a.searchTerm ≠ [] then
          (includes (toLowerCase c.fullName) (toLowerCase a.searchTerm) ||
            includes (toLowerCase c.email) (toLowerCase a.searchTerm))
        else true) &&
        (if a.activeFilter ≠ lit "all" then filterSwitch a.activeFilter c else true)) = true ↔
      SearchCondition toLowerCase a.searchTerm c ∧ FilterCondition a.activeFilter c := by
  rw [Bool.and_eq_true]
  refine and_congr ?_ ?_
  · split_ifs with hs
    · exact search_iff toLowerCase a.searchTerm c hs
    · exact ⟨fun _ => Or.inl (not_not.mp hs), fun _ => rfl⟩
  · split_ifs with hf
    · exact filterSwitch_iff a.activeFilter c hf
    · exact ⟨fun _ => Or.inl (not_not.mp hf), fun _ => rfl⟩

/-- C29: `applyCurrentFilters` sets `filteredCustomers` to the customers, in
their original order, that satisfy both condition (a) on the search term and
condition (b) on the active filter; it leaves `customers` unchanged and sets
`currentPage` to 1. -/
theorem applyCurrentFilters_listing (toLowerCase : JSString → JSString)
    (a : DocumentPortalAdmin) :
    (applyCurrentFilters toLowerCase a).filteredCustomers =
        a.customers.filter (fun c =>
          decide (SearchCondition toLowerCase a.searchTerm c ∧ FilterCondition a.activeFilter c)) ∧
      (applyCurrentFilters toLowerCase a).filteredCustomers.Sublist a.customers ∧
      (∀ c, c ∈ (applyCurrentFilters toLowerCase a).filteredCustomers ↔
        c ∈ a.customers ∧ SearchCondition toLowerCase a.searchTerm c ∧
          FilterCondition a.activeFilter c) ∧
      (applyCurrentFilters toLowerCase a).customers = a.customers ∧
      (applyCurrentFilters toLowerCase a).currentPage = 1 := by
  have key : (applyCurrentFilters toLowerCase a).filteredCustomers =
      a.customers.filter (fun c =>
        decide (SearchCondition toLowerCase a.searchTerm c ∧
          FilterCondition a.activeFilter c)) := by
    rw [applyCurrentFilters_filteredCustomers]
    have h2 : ∀ l : List Customer,
        (if a.activeFilter ≠ lit "all" then List.filter (filterSwitch a.activeFilter) else id) l
          = l.filter (fun c =>
              if a.activeFilter ≠ lit "all" then filterSwitch a.activeFilter c else true) := by
      intro l
      split_ifs
      · rfl
      · exact (List.filter_true l).symm
    have h1 : ∀ l : List Customer,
        (if a.searchTerm ≠ [] then
          List.filter (fun c =>
            includes (toLowerCase c.fullName) (toLowerCase a.searchTerm) ||
              includes (toLowerCase c.email) (toLowerCase a.searchTerm))
          else id) l
          = l.filter (fun c =>
              if a.searchTerm ≠ [] then
                (includes (toLowerCase c.fullName) (toLowerCase a.searchTerm) ||
                  includes (toLowerCase c.email) (toLowerCase a.searchTerm))
              else true) := by
      intro l
      split_ifs
      · rfl
      · exact (List.filter_true l).symm
    rw [h2, h1, List.filter_filter]
    refine List.filter_congr ?_
    intro c _
    rw [Bool.eq_iff_iff, Bool.and_comm, listed_iff, decide_eq_true_iff]
  refine ⟨key, ?_, ?_, ?_, ?_⟩
  · rw [key]
    exact List.filter_sublist _
  · intro c
    rw [key, List.mem_filter, decide_eq_true_iff]
  · unfold applyCurrentFilters
    dsimp only
    rw [renderPagination_customers]
    rfl
  · unfold applyCurrentFilters
    dsimp only
    exact renderPagination_currentPage_one _ rfl

/-! ## Pages -/

theorem slice_length (xs : List Customer) (start stop : Nat) :
    (slice xs start stop).length = min stop xs.length - start := by
  unfold slice
  rw [List.length_drop, List.length_take]

theorem flatten_slices (xs : List Customer) (m : Nat) :
    ((List.range m).map (fun k => slice xs (k * 10) (k * 10 + 10))).flatten
      = xs.take (m * 10) := by
  induction m with
  | zero => simp
  | succ m ih =>
    rw [List.range_succ, List.map_append, List.flatten_append, ih]
    simp only [List.map_cons, List.map_nil, List.flatten_cons, List.flatten_nil,
      List.append_nil]
    unfold slice
    have h : xs.take (m * 10) = (xs.take (m * 10 + 10)).take (m * 10) := by
      rw [List.take_take]
      congr 1
      omega
    rw [h, List.take_append_drop]
    congr 1
    omega

theorem pageCount_ten (n : Nat) (hn : 1 ≤ n) : pageCount n 10 = (n + 9) / 10 := by
  unfold pageCount
  dsimp only
  rw [if_neg (by omega)]
  omega

theorem pageRows_eq (a : DocumentPortalAdmin) (p : Nat) (hr : a.rowsPerPage = 10)
    (hn : 1 ≤ a.filteredCustomers.length) (ht : a.elements.customersTableBody = true) :
    renderTable { a with currentPage := p } = some (pageRows a p) ∧
      pageRows a p = slice a.filteredCustomers ((p - 1) * 10) ((p - 1) * 10 + 10) := by
  have h : renderTable { a with currentPage := p }
      = some (slice a.filteredCustomers ((p - 1) * 10) ((p - 1) * 10 + 10)) := by
    unfold renderTable
    dsimp only
    rw [ht, hr, if_neg (by simp), if_neg (by omega)]
  unfold pageRows
  rw [h]
  exact ⟨rfl, rfl⟩

theorem pageRange_eq (a : DocumentPortalAdmin) (p : Nat) (hr : a.rowsPerPage = 10)
    (hp : p ≤ pageCount a.filteredCustomers.length 10) :
    pageRange a p =
      if a.elements.paginationControls = true ∧ 1 < pageCount a.filteredCustomers.length 10 then
        some ((p - 1) * 10 + 1, min ((p - 1) * 10 + 1 + 10 - 1) a.filteredCustomers.length)
      else none := by
  unfold pageRange
  rw [renderPagination_of_le _ (by dsimp only; rw [hr]; exact hp)]
  dsimp only
  rw [hr]
  cases a.elements.paginationControls
  · simp
  · by_cases h : pageCount a.filteredCustomers.length 10 ≤ 1
    · simp [h, Nat.not_lt.mpr h]
    · simp [h, Nat.lt_of_not_le h]

/-- C30: for a filtered list of `n ≥ 1` customers and `rowsPerPage = 10`, the
page count is `ceil(n / 10)`; on each page from 1 to the page count
`renderTable` shows a slice that is not empty and has at most 10 rows, and the
range `renderPagination` computes for it, when it computes one, satisfies
`startItem ≤ endItem ≤ n` with `endItem - startItem + 1` rows in the slice (it
computes one when the controls exist and there is more than one page); the
slices of all the pages, in page order, concatenate to the filtered list. -/
theorem pagination_partitions (a : DocumentPortalAdmin) (hr : a.rowsPerPage = 10)
    (hn : 1 ≤ a.filteredCustomers.length) (ht : a.elements.customersTableBody = true) :
    pageCount a.filteredCustomers.length a.rowsPerPage = (a.filteredCustomers.length + 9) / 10 ∧
      (∀ p, 1 ≤ p → p ≤ pageCount a.filteredCustomers.length a.rowsPerPage →
        renderTable { a with currentPage := p } = some (pageRows a p) ∧
          pageRows a p ≠ [] ∧ (pageRows a p).length ≤ 10 ∧
          (∀ s e, pageRange a p = some (s, e) →
            s ≤ e ∧ e ≤ a.filteredCustomers.length ∧ e - s + 1 = (pageRows a p).length) ∧
          (a.elements.paginationControls = true →
            1 < pageCount a.filteredCustomers.length a.rowsPerPage →
            ∃ s e, pageRange a p = some (s, e))) ∧
      ((List.range (pageCount a.filteredCustomers.length a.rowsPerPage)).map
        (fun k => pageRows a (k + 1))).flatten = a.filteredCustomers := by
  have hc := pageCount_ten a.filteredCustomers.length hn
  have e : pageCount a.filteredCustomers.length a.rowsPerPage
      = pageCount a.filteredCustomers.length 10 := by rw [hr]
  rw [e]
  refine ⟨hc, ?_, ?_⟩
  · intro p hp1 hp2
    obtain ⟨h1, h2⟩ := pageRows_eq a p hr hn ht
    have hlen : (pageRows a p).length
        = min ((p - 1) * 10 + 10) a.filteredCustomers.length - (p - 1) * 10 := by
      rw [h2, slice_length]
    have hrange := pageRange_eq a p hr hp2
    rw [hc] at hp2
    refine ⟨h1, ?_, ?_, ?_, ?_⟩
    · intro h0
      rw [h0, List.length_nil] at hlen
      omega
    · omega
    · intro s e hse
      rw [hrange] at hse
      split_ifs at hse
      simp only [Option.some.injEq, Prod.mk.injEq] at hse
      omega
    · intro hctl hmore
      rw [hrange, if_pos ⟨hctl, hmore⟩]
      exact ⟨_, _, rfl⟩
  · have hrows : ∀ k, pageRows a (k + 1) = slice a.filteredCustomers (k * 10) (k * 10 + 10) := by
      intro k
      rw [(pageRows_eq a (k + 1) hr hn ht).2, Nat.add_sub_cancel]
    simp only [hrows]
    rw [flatten_slices, List.take_of_length_le]
    rw [hc]
    omega

/-- Witness for `pagination_partitions`: a list of two customers. -/
theorem pagination_partitions_witness :
    (sampleAdmin [aaravSharma 1, diyaGupta 2] []).rowsPerPage = 10 ∧
      1 ≤ (sampleAdmin [aaravSharma 1, diyaGupta 2] []).filteredCustomers.length ∧
      (sampleAdmin [aaravSharma 1, diyaGupta 2] []).elements.customersTableBody = true ∧
      ((List.range (pageCount (sampleAdmin [aaravSharma 1, diyaGupta 2] []).filteredCustomers.length
          (sampleAdmin [aaravSharma 1, diyaGupta 2] []).rowsPerPage)).map
        (fun k => pageRows (sampleAdmin [aaravSharma 1, diyaGupta 2] []) (k + 1))).flatten
        = (sampleAdmin [aaravSharma 1, diyaGupta 2] []).filteredCustomers :=
  ⟨rfl, by decide, rfl,
    (pagination_partitions (sampleAdmin [aaravSharma 1, diyaGupta 2] []) rfl (by decide) rfl).2.2⟩

/-! ## Exports -/

theorem addTextFiles_names (clock : Nat → JSDate) (calls : List (JSString × JSString))
    (zip : MiniZip) (k : Nat) :
    (addTextFiles clock zip k calls).files.map (fun f => f.name)
      = zip.files.map (fun f => f.name) ++ calls.map (fun c => replaceBackslashes c.1) := by
  induction calls generalizing zip k with
  | nil => simp [addTextFiles]
  | cons call calls ih =>
    rw [addTextFiles, ih]
    simp [MiniZip.addTextFile]

theorem exportZip_names (clock : Nat → JSDate) (calls : List (JSString × JSString)) :
    (exportZip clock calls).zip.files.map (fun f => f.name)
      = (calls.map Prod.fst).map replaceBackslashes := by
  unfold exportZip
  dsimp only
  rw [addTextFiles_names]
  simp [MiniZip.new]

theorem singleExportCalls_names (user : Customer) :
    (singleExportCalls user).map Prod.fst
      = lit "_summary.txt" :: user.documents.map (fun d => d.filename) := by
  simp [singleExportCalls, Function.comp_def]

theorem find?_first_match (p : Customer → Bool) (pre post : List Customer) (user : Customer)
    (hpre : ∀ c ∈ pre, p c = false) (hu : p user = true) :
    (pre ++ user :: post).find? p = some user := by
  induction pre with
  | nil => simp [List.find?_cons, hu]
  | cons c pre ih =>
    rw [List.cons_append, List.find?_cons, hpre c (List.mem_cons_self c pre)]
    exact ih (fun d hd => hpre d (List.mem_cons_of_mem c hd))

theorem handleZipDownload_email (toLowerCase : JSString → JSString)
    (stringify : List Customer → JSString) (clock : Nat → JSDate) (a : DocumentPortalAdmin)
    (value : JSString) (hin : a.elements.zipEmailInput = some value)
    (hne : toLowerCase (trim value) ≠ []) :
    handleZipDownload toLowerCase stringify clock a =
      (a.customers.find? (fun c => toLowerCase c.email = toLowerCase (trim value))).map
        (fun user => exportZip clock (singleExportCalls user)) := by
  unfold handleZipDownload
  rw [hin]
  dsimp only
  rw [if_pos hne]
  cases a.customers.find? (fun c => toLowerCase c.email = toLowerCase (trim value)) <;> rfl

/-- C22: when the trimmed, lower-cased email input is not empty and a customer
has that lower-cased email, `handleZipDownload` makes the calls of the export
of the first such customer alone: `_summary.txt` followed by the filenames of
the customer's `d` documents in document order, which gives the builder
`1 + d` entries with those names, and it builds the archive from them; when
no customer has that email, it builds no archive. -/
theorem handleZipDownload_by_email (toLowerCase : JSString → JSString)
    (stringify : List Customer → JSString) (clock : Nat → JSDate) (a : DocumentPortalAdmin)
    (value : JSString) (hin : a.elements.zipEmailInput = some value)
    (hne : toLowerCase (trim value) ≠ []) :
    (∀ (pre post : List Customer) (user : Customer),
        a.customers = pre ++ user :: post →
        (∀ c ∈ pre, toLowerCase c.email ≠ toLowerCase (trim value)) →
        toLowerCase user.email = toLowerCase (trim value) →
        ∃ r, handleZipDownload toLowerCase stringify clock a = some r ∧
          r.calls = singleExportCalls user ∧
          r.calls.map Prod.fst = lit "_summary.txt" :: user.documents.map (fun d => d.filename) ∧
          r.calls.length = 1 + user.documents.length ∧
          r.zip.files.length = 1 + user.documents.length ∧
          r.zip.files.map (fun f => f.name)
            = (lit "_summary.txt" :: user.documents.map (fun d => d.filename)).map
                replaceBackslashes ∧
          r.blob = (MiniZip.build r.zip).bytes) ∧
      ((∀ c ∈ a.customers, toLowerCase c.email ≠ toLowerCase (trim value)) →
        handleZipDownload toLowerCase stringify clock a = none) := by
  have h := handleZipDownload_email toLowerCase stringify clock a value hin hne
  constructor
  · intro pre post user hc hpre hu
    have hfind : a.customers.find? (fun c => toLowerCase c.email = toLowerCase (trim value))
        = some user := by
      rw [hc]
      refine find?_first_match _ pre post user ?_ ?_
      · intro c hcm
        exact decide_eq_false (hpre c hcm)
      · exact decide_eq_true hu
    rw [hfind] at h
    have hnames := exportZip_names clock (singleExportCalls user)
    rw [singleExportCalls_names] at hnames
    refine ⟨_, h, rfl, singleExportCalls_names user, ?_, ?_, hnames, rfl⟩
    · simp [exportZip, singleExportCalls, Nat.add_comm]
    · have hl := congrArg List.length hnames
      rw [List.length_map, List.length_map, List.length_cons, List.length_map] at hl
      rw [hl, Nat.add_comm]
  · intro hnone
    rw [h]
    have hfind : a.customers.find? (fun c => toLowerCase c.email = toLowerCase (trim value))
        = none := by
      rw [List.find?_eq_none]
      intro c hcm
      simpa using hnone c hcm
    rw [hfind]
    rfl

set_option maxRecDepth 100000 in
/-- Witness for `handleZipDownload_by_email`: the input holds the email of the
second customer in capitals between blanks. -/
theorem handleZipDownload_by_email_witness :
    (sampleAdmin [diyaGupta 1, aaravSharma 2, aaravSharma 3]
        (lit " Aarav.Sharma@Example.COM ")).elements.zipEmailInput
        = some (lit " Aarav.Sharma@Example.COM ") ∧
      asciiLowerCase (trim (lit " Aarav.Sharma@Example.COM ")) ≠ [] ∧
      ∃ r, handleZipDownload asciiLowerCase (fun _ => []) (fun _ => sampleDate)
          (sampleAdmin [diyaGupta 1, aaravSharma 2, aaravSharma 3]
            (lit " Aarav.Sharma@Example.COM ")) = some r ∧
        r.calls.map Prod.fst
          = [lit "_summary.txt", lit "Aarav_Sharma_aadhaar.txt", lit "Aarav_Sharma_photo.txt"] :=
  ⟨rfl, by decide,
    (((handleZipDownload_by_email asciiLowerCase (fun _ => []) (fun _ => sampleDate)
      (sampleAdmin [diyaGupta 1, aaravSharma 2, aaravSharma 3]
        (lit " Aarav.Sharma@Example.COM "))
      (lit " Aarav.Sharma@Example.COM ") rfl (by decide)).1
      [diyaGupta 1] [aaravSharma 3] (aaravSharma 2) rfl (by decide) (by decide)).imp
      (fun _ hr => ⟨hr.1, hr.2.2.1⟩))⟩

theorem batchExportCalls_names (stringify : List Customer → JSString)
    (filteredCustomers : List Customer) :
    (batchExportCalls stringify filteredCustomers).map Prod.fst
      = lit "summary_of_all_users.json" ::
          (filteredCustomers.map (fun customer =>
            customer.documents.map (fun doc =>
              lit "user_documents/" ++ replaceWhiteSpace customer.fullName ++ lit "/"
                ++ doc.filename))).flatten := by
  simp [batchExportCalls, List.map_flatten, Function.comp_def]

set_option maxRecDepth 100000 in
theorem duplicate_names_example :
    ¬ (lit "summary_of_all_users.json" ::
          ([aaravSharma 1, aaravSharma 2].map (fun customer =>
            customer.documents.map (fun doc =>
              lit "user_documents/" ++ replaceWhiteSpace customer.fullName ++ lit "/"
                ++ doc.filename))).flatten).Nodup := by
  decide

/-- C23 (failing input): two listed customers with the ids 1 and 2 and the same
full name `Aarav Sharma`, with nothing in the email input.  The export of all
the listed customers passes the same names to `addTextFile` for both, so that
the names passed, and the names of the entries of the builder, are not
pairwise distinct. -/
theorem batch_export_duplicate_names (stringify : List Customer → JSString)
    (clock : Nat → JSDate) :
    ([aaravSharma 1, aaravSharma 2].map (fun c => c.id)).Nodup ∧
      ∃ r, handleZipDownload asciiLowerCase stringify clock
          (sampleAdmin [aaravSharma 1, aaravSharma 2] []) = some r ∧
        r.calls = batchExportCalls stringify [aaravSharma 1, aaravSharma 2] ∧
        ¬ (r.calls.map Prod.fst).Nodup ∧
        ¬ (r.zip.files.map (fun f => f.name)).Nodup := by
  refine ⟨by decide, exportZip clock (batchExportCalls stringify [aaravSharma 1, aaravSharma 2]),
    rfl, rfl, ?_, ?_⟩
  · show ¬ ((batchExportCalls stringify [aaravSharma 1, aaravSharma 2]).map Prod.fst).Nodup
    rw [batchExportCalls_names]
    exact duplicate_names_example
  · rw [exportZip_names, batchExportCalls_names]
    intro h
    exact duplicate_names_example (List.Nodup.of_map _ h)

end DocumentPortalAdmin
